import Mathlib

/-!
Shallow embedding of `scripts/generate_inbox.py`, the synthetic
lending-pipeline inbox generator, and a verification of the claims made
about it.

Modelling conventions:

* Python floats are rationals (`ℚ`).  The builtin `round(x, 2)` and the
  two-decimal f-string format are both `round2` (round half up at two
  decimals); the four-decimal format is `round4`.
* `datetime.date` is its proleptic ordinal (`ℤ`); `timedelta(days = k)`
  is integer addition.  `datetime.combine(d, time.min) + timedelta(hours
  = h, minutes = m)` is kept as the triple `(d, h, m)` in `Field.ts`.
* The module-level PRNG (`random.*`) is an abstract stream of raw unit
  draws `Env.U : ℕ → ℚ` plus a cursor.  Each library call consumes raw
  draws in exactly the call order of the source (one draw per `random()`,
  `uniform`, `randint`, `choice`, `choices`; `shuffle` of an `n`-list
  consumes `n - 1`).  After `random.seed(cfg.seed)` the stream is a
  function of the seed alone, so "fixed seed" means "fixed `U`".
* `uuid4()` draws from a separate stream `Env.IDS : ℕ → String`: the
  `uuid` module uses operating-system entropy and is not derived from
  `random.seed`.
* A CSV cell is a `Field` value tagging the formatted content (the exact
  decimal/date/timestamp rendering is injective per tag, so `Field`-list
  equality is byte equality of the written line).  `write_csv`,
  `ensure_dir` and the final summary print are out-of-scope plumbing;
  the per-day row batches and header flags are the observable output.
* A Python `dict` (3.7+) is an insertion-ordered association list:
  assignment replaces the value of an existing key in place, otherwise
  appends; `values()` and `items()` iterate in insertion order.
* Library calls that the generated data can actually make fail are
  `Option`-valued: `random.choice` of an empty sequence (`IndexError`),
  list indexing past the end (`IndexError`), and `date.fromisoformat` of
  a non-date string (`ValueError`).  `float(s)` is total (`pyFloat`)
  because every call site that is reached feeds it a numeric field.
-/

namespace GenInbox

/-- `round(x, 2)` / the `:.2f` format: round half up at two decimals. -/
def round2 (x : ℚ) : ℚ := ((⌊x * 100 + 1 / 2⌋ : ℤ) : ℚ) / 100

/-- The `:.4f` format: round half up at four decimals. -/
def round4 (x : ℚ) : ℚ := ((⌊x * 10000 + 1 / 2⌋ : ℤ) : ℚ) / 10000

/-- `clamp` from the source: `max(lo, min(hi, x))`. -/
def clamp (x lo hi : ℚ) : ℚ := max lo (min hi x)

/-- Python `int()` applied to a float: truncation toward zero. -/
def pyInt (q : ℚ) : ℤ := if q < 0 then ⌈q⌉ else ⌊q⌋

/-- The two entropy sources of the program.  `U` is the module PRNG as
seeded by `random.seed(cfg.seed)`; `IDS` is the entropy behind `uuid4`,
which the seed does not control. -/
structure Env where
  U : ℕ → ℚ
  IDS : ℕ → String

/-- Cursors into the two streams. -/
structure Ctr where
  u : ℕ
  id : ℕ
  deriving DecidableEq, Inhabited

/-- A well-formed unit-draw stream: every raw draw lies in `[0, 1)`,
as `random.random()` guarantees. -/
def ValidS (f : ℕ → ℚ) : Prop := ∀ n, 0 ≤ f n ∧ f n < 1

/-- `random.random()`. -/
def rand (e : Env) (c : Ctr) : ℚ × Ctr := (e.U c.u, { c with u := c.u + 1 })

/-- `str(uuid4())`. -/
def uuid4 (e : Env) (c : Ctr) : String × Ctr := (e.IDS c.id, { c with id := c.id + 1 })

/-- `chance(p)` from the source: `random.random() < p`. -/
def chance (e : Env) (p : ℚ) (c : Ctr) : Bool × Ctr :=
  let (x, c) := rand e c
  (decide (x < p), c)

/-- `random.uniform(a, b) = a + (b - a) * random.random()`. -/
def pyUniform (e : Env) (a b : ℚ) (c : Ctr) : ℚ × Ctr :=
  let (x, c) := rand e c
  (a + (b - a) * x, c)

/-- `random.randint(a, b)`: one raw draw scaled over the `b - a + 1`
inclusive values. -/
def pyRandint (e : Env) (a b : ℤ) (c : Ctr) : ℤ × Ctr :=
  let (x, c) := rand e c
  (a + ⌊x * ((b : ℚ) - (a : ℚ) + 1)⌋, c)

/-- The index drawn by `random.choice` on a sequence of length `n`. -/
def randIndex (e : Env) (n : ℕ) (c : Ctr) : ℕ × Ctr :=
  let (x, c) := rand e c
  ((⌊x * (n : ℚ)⌋).toNat, c)

/-- `random.choice(xs)`; `none` is the `IndexError` on an empty (or, for
an out-of-range raw draw, too short) sequence. -/
def pyChoice? (e : Env) (xs : List α) (c : Ctr) : Option α × Ctr :=
  let (i, c) := randIndex e xs.length c
  (xs.get? i, c)

/-- `random.choice(xs)` at a call site where `xs` is a constant
non-empty list, so the error branch is unreachable for a valid stream. -/
def pyChoiceD (e : Env) (xs : List α) (d : α) (c : Ctr) : α × Ctr :=
  let (r?, c) := pyChoice? e xs c
  (r?.getD d, c)

/-- One CSV cell, tagged by how the source formats it. -/
inductive Field where
  | str : String → Field
  | dec2 : ℚ → Field
  | dec4 : ℚ → Field
  | int : ℤ → Field
  | date : ℤ → Field
  | ts : ℤ → ℤ → ℤ → Field
  deriving DecidableEq, Inhabited

/-- One CSV data row, indexed positionally as in the source. -/
abbrev Row := List Field

/-- Python `float()` at the reachable call sites (always a numeric
field there; the default branch is dead code). -/
def pyFloat : Field → ℚ
  | .dec2 q => q
  | .dec4 q => q
  | .int n => (n : ℚ)
  | _ => 0

/-- `date.fromisoformat`: succeeds exactly on date-formatted cells,
raises (`none`) on anything else, e.g. the literal `"not-a-date"`. -/
def fromisoformat : Field → Option ℤ
  | .date d => some d
  | _ => none

def STATES : List String := ["CA", "TX", "FL", "NY", "IL", "WA", "MA", "GA", "CO", "AZ"]

def INDUSTRIES : List String :=
  ["42310", "44512", "54161", "62120", "72251", "33411", "81111", "53111"]

def PURPOSES : List String :=
  ["INVENTORY", "WORKING_CAPITAL", "EXPANSION", "EQUIPMENT", "PAYROLL"]

def SCHEDULES : List String := ["DAILY", "WEEKLY", "MONTHLY"]

def PAY_METHODS : List String := ["ACH", "CARD", "CHECK", "WIRE"]

/-- Python dict assignment `d[k] = v`: replace in place if the key is
present, else append (insertion order preserved). -/
def dictSet (d : List (String × α)) (k : String) (v : α) : List (String × α) :=
  if d.any (fun p => p.1 == k) then
    d.map (fun p => if p.1 = k then (k, v) else p)
  else d ++ [(k, v)]

/-- `d[k]` / membership test on a dict: the first (and, keys being
unique, only) binding of the key. -/
def dictLookup : List (String × α) → String → Option α
  | [], _ => none
  | p :: rest, k => if p.1 = k then some p.2 else dictLookup rest k

/-- `list(d.values())`. -/
def dictValues (d : List (String × α)) : List α := d.map Prod.snd

/-- The `Config` dataclass (ints are `ℤ`, rates are `ℚ`, `start_date`
is an ordinal; `output_dir` is plumbing and `seed` acts only through
`Env.U`, see the module comment). -/
structure Config where
  start_date : ℤ := 739525
  num_days : ℤ := 10
  num_merchants : ℤ := 50
  apps_per_day : ℤ := 120
  disb_rate : ℚ := 55 / 100
  pays_per_disb : ℤ := 5
  no_header_every_n_days : ℤ := 3
  duplicate_rate : ℚ := 3 / 100
  invalid_rate : ℚ := 1 / 100
  broken_ref_rate : ℚ := 1 / 100
  late_arrival_rate : ℚ := 8 / 100
  seed : ℤ := 42
  deriving DecidableEq

/-- One merchant master record (the dict built in `gen_merchants`;
numeric fields are stored post-formatting, as the dict stores the
formatted strings). -/
structure Merchant where
  merchant_id : String
  business_name : String
  industry_code : String
  state_code : String
  annual_revenue : ℚ
  employees_count : ℤ
  risk_score : ℚ
  onboarding_date : ℤ
  deriving DecidableEq, Inhabited

/-- `f"Merchant {i:04d}"`. -/
def pad4 (n : ℕ) : String :=
  let s := toString n
  String.mk (List.replicate (4 - s.length) '0') ++ s

/-- The row emitted for a merchant (dict values in header order). -/
def merchRowOf (m : Merchant) : Row :=
  [.str m.merchant_id, .str m.business_name, .str m.industry_code, .str m.state_code,
   .dec2 m.annual_revenue, .int m.employees_count, .dec2 m.risk_score,
   .date m.onboarding_date]

/-- The body of one `gen_merchants` loop iteration. -/
def genMerchOne (e : Env) (cfg : Config) (i : ℕ) (c : Ctr) : Merchant × Ctr :=
  let p1 := uuid4 e c
  let p2 := pyChoiceD e INDUSTRIES "" p1.2
  let p3 := pyChoiceD e STATES "" p2.2
  let p4 := pyUniform e 50000 5000000 p3.2
  let p5 := pyRandint e 1 250 p4.2
  let p6 := rand e p5.2
  let p7 := pyRandint e 30 900 p6.2
  ({ merchant_id := p1.1
     business_name := "Merchant " ++ pad4 i
     industry_code := p2.1
     state_code := p3.1
     annual_revenue := round2 p4.1
     employees_count := p5.1
     risk_score := round2 (clamp p6.1 0 1)
     onboarding_date := cfg.start_date - p7.1 }, p7.2)

/-- `gen_merchants(cfg)`. -/
def gen_merchants (e : Env) (cfg : Config) (c : Ctr) : List Merchant × Ctr :=
  (List.range cfg.num_merchants.toNat).foldl
    (fun acc i =>
      let p := genMerchOne e cfg i acc.2
      (acc.1 ++ [p.1], p.2))
    ([], c)

/-- `sample_merch(merchants)`. -/
def sample_merch (e : Env) (merchants : List Merchant) (c : Ctr) :
    Option Merchant × Ctr :=
  pyChoice? e merchants c

/-- `mutate_merchant(m)`: perturb exactly one of risk score or revenue
(the new value is stored through the two-decimal format). -/
def mutate_merchant (e : Env) (m : Merchant) (c : Ctr) : Merchant × Ctr :=
  let p1 := rand e c
  if p1.1 < 1 / 2 then
    let p2 := pyUniform e (-(10 / 100)) (10 / 100) p1.2
    ({ m with risk_score := round2 (clamp (m.risk_score + p2.1) 0 1) }, p2.2)
  else
    let p2 := pyUniform e (95 / 100) (115 / 100) p1.2
    ({ m with annual_revenue := round2 (max 1 (m.annual_revenue * p2.1)) }, p2.2)

/-- The hard-coded malformed merchants row. -/
def invalidMerchRow : Row :=
  [.str "not-a-uuid", .str "Bad Merchant", .str "ABCDE", .str "C", .str "-1", .str "x",
   .str "1.50", .str "not-a-date"]

/-- The hard-coded malformed applications row. -/
def invalidAppRow : Row :=
  [.str "bad-app", .str "", .str "not-a-date", .str "-5", .str "OTHER", .str "UNKNOWN",
   .str "999", .str "not-a-ts"]

/-- Merchant-snapshot loop body: with probability `0.08` mutate, record
the emitted version under the merchant's id in `merchant_by_id`, emit
one row. -/
def merchOne (e : Env) (m : Merchant)
    (acc : List Row × List (String × Merchant) × Ctr) :
    List Row × List (String × Merchant) × Ctr :=
  let p1 := chance e (8 / 100) acc.2.2
  if p1.1 then
    let p2 := mutate_merchant e m p1.2
    (acc.1 ++ [merchRowOf p2.1], dictSet acc.2.1 m.merchant_id p2.1, p2.2)
  else (acc.1 ++ [merchRowOf m], acc.2.1, p1.2)

/-- The `for m in merchants` snapshot loop (source lines 127-135). -/
def merchLoop (e : Env) (merchants : List Merchant)
    (byId : List (String × Merchant)) (c : Ctr) :
    List Row × List (String × Merchant) × Ctr :=
  merchants.foldl (fun acc m => merchOne e m acc) ([], byId, c)

/-- The merchants file stage: snapshot loop, then the file-level
duplicate and invalid-row injections (source lines 125-141). -/
def merchStage (e : Env) (cfg : Config) (merchants : List Merchant)
    (byId : List (String × Merchant)) (c : Ctr) :
    List Row × List (String × Merchant) × Ctr :=
  let p1 := merchLoop e merchants byId c
  let p2 :=
    if p1.1.isEmpty then (p1.1, p1.2.2)
    else
      let q := chance e cfg.duplicate_rate p1.2.2
      if q.1 then
        let r := pyChoiceD e p1.1 [] q.2
        (p1.1 ++ [r.1], r.2)
      else (p1.1, q.2)
  let p3 := chance e cfg.invalid_rate p2.2
  ((if p3.1 then p2.1 ++ [invalidMerchRow] else p2.1), p1.2.1, p3.2)

/-- Resurfacing of an old application (source lines 151-157): pick a
carried row, flip `PENDING` to `APPROVED`, refresh the processing
timestamp.  The carry map itself is not written here. -/
def appResurface (e : Env) (batch : ℤ) (carry : List (String × Row)) (c : Ctr) :
    Row × Ctr :=
  let p1 := pyChoiceD e carry ("", []) c
  let oldRow := p1.1.2
  let s5 := oldRow.getD 5 (.str "")
  let upd := oldRow.set 5 (if s5 == Field.str "PENDING" then Field.str "APPROVED" else s5)
  let p2 := pyRandint e 0 59 p1.2
  (upd.set 7 (.ts batch 2 p2.1), p2.2)

/-- `random.choices(["PENDING","APPROVED","REJECTED"], weights=[0.25,
0.55, 0.20], k=1)[0]`: one raw draw against the cumulative weights. -/
def statusChoice (e : Env) (c : Ctr) : String × Ctr :=
  let p := rand e c
  ((if p.1 < 25 / 100 then "PENDING" else if p.1 < 80 / 100 then "APPROVED" else "REJECTED"),
   p.2)

/-- One fresh application (source lines 160-177); `none` is the
`IndexError` of `random.choice` on an empty merchant pool. -/
def genAppOne (e : Env) (cfg : Config) (batch : ℤ)
    (byId : List (String × Merchant)) (c : Ctr) : Option (String × Row × Ctr) :=
  let p1 := uuid4 e c
  let appId := p1.1
  let p2 := sample_merch e (dictValues byId) p1.2
  match p2.1 with
  | none => none
  | some m =>
    let p3 := chance e cfg.late_arrival_rate p2.2
    let p4 := if p3.1 then pyRandint e 0 10 p3.2 else pyRandint e 0 2 p3.2
    let appDate := batch - p4.1
    let p5 := pyUniform e 5000 250000 p4.2
    let p6 := statusChoice e p5.2
    let p7 := pyRandint e 300 850 p6.2
    let p8 := pyRandint e 0 59 p7.2
    let p9 := pyChoiceD e PURPOSES "" p8.2
    some (appId,
      [.str appId, .str m.merchant_id, .date appDate, .dec2 (round2 p5.1),
       .str p9.1, .str p6.1, .int p7.1, .ts batch 2 p8.1], p9.2)

/-- The `for _ in range(cfg.apps_per_day)` loop: emit the row, record it
in the carry map under its id, then the per-row duplicate injection. -/
def appLoop (e : Env) (cfg : Config) (batch : ℤ) (byId : List (String × Merchant)) :
    ℕ → List Row → List (String × Row) → Ctr →
    Option (List Row × List (String × Row) × Ctr)
  | 0, rows, carry, c => some (rows, carry, c)
  | n + 1, rows, carry, c =>
    match genAppOne e cfg batch byId c with
    | none => none
    | some (appId, row, c) =>
      let rows := rows ++ [row]
      let carry := dictSet carry appId row
      let p := chance e cfg.duplicate_rate c
      appLoop e cfg batch byId n (if p.1 then rows ++ [row] else rows) carry p.2

/-- The applications file stage (source lines 148-190): optional
resurfacing (only when the carry map is non-empty: Python's `and`
short-circuits before drawing), the fresh-application loop, then the
invalid-row injection. -/
def appStage (e : Env) (cfg : Config) (batch : ℤ) (byId : List (String × Merchant))
    (carry : List (String × Row)) (c : Ctr) :
    Option (List Row × List (String × Row) × Ctr) :=
  let p1 :=
    if carry.isEmpty then (([] : List Row), c)
    else
      let q := chance e (25 / 100) c
      if q.1 then
        let r := appResurface e batch carry q.2
        ([r.1], r.2)
      else ([], q.2)
  match appLoop e cfg batch byId cfg.apps_per_day.toNat p1.1 carry p1.2 with
  | none => none
  | some (rows, carry, c) =>
    let p2 := chance e cfg.invalid_rate c
    some ((if p2.1 then rows ++ [invalidAppRow] else rows), carry, p2.2)

/-- The filter on the day's own emitted rows (source line 198):
`len(r) >= 6 and r[5] == "APPROVED"`. -/
def isApproved (r : Row) : Bool :=
  decide (6 ≤ r.length) && (r.getD 5 (.str "") == Field.str "APPROVED")

/-- Swap two positions of a list (no-op when either is out of range,
matching the guarded use inside the shuffle). -/
def listSwap (l : List α) (i j : ℕ) : List α :=
  match l.get? i, l.get? j with
  | some a, some b => (l.set i b).set j a
  | _, _ => l

/-- Fisher-Yates tail of `random.shuffle`: for `i` from `len - 1` down
to `1`, draw `j` below `i + 1` and swap. -/
def shuffleGo (e : Env) : ℕ → List α → Ctr → List α × Ctr
  | 0, l, c => (l, c)
  | i + 1, l, c =>
    let p := rand e c
    shuffleGo e i (listSwap l (i + 1) (⌊p.1 * ((i : ℚ) + 2)⌋).toNat) p.2

/-- `random.shuffle(l)`. -/
def pyShuffle (e : Env) (l : List α) (c : Ctr) : List α × Ctr :=
  shuffleGo e (l.length - 1) l c

/-- One disbursement derived from an approved application row (source
lines 203-228), including the broken-reference swap. -/
def genDisbOne (e : Env) (cfg : Config) (batch : ℤ) (appRow : Row) (c : Ctr) :
    Row × Ctr :=
  let appId := appRow.getD 0 (.str "")
  let merchId := appRow.getD 1 (.str "")
  let p1 := uuid4 e c
  let p2 := chance e cfg.late_arrival_rate p1.2
  let p3 := if p2.1 then pyRandint e 1 20 p2.2 else pyRandint e 0 2 p2.2
  let disbDate := batch - p3.1
  let p4 := pyUniform e (85 / 100) 1 p3.2
  let amount := round2 (pyFloat (appRow.getD 3 (.str "")) * p4.1)
  let p5 := chance e cfg.broken_ref_rate p4.2
  let p6 :=
    if p5.1 then
      let q := uuid4 e p5.2
      (Field.str q.1, q.2)
    else (appId, p5.2)
  let p7 := pyUniform e (8 / 100) (25 / 100) p6.2
  let p8 := pyChoiceD e ([6, 9, 12, 18] : List ℤ) 0 p7.2
  let p9 := pyChoiceD e SCHEDULES "" p8.2
  ([.str p1.1, p6.1, merchId, .dec2 amount, .date disbDate, .dec4 (round4 p7.1),
    .int p8.1, .str p9.1], p9.2)

/-- The `for i in range(num_disb)` loop; `none` is the `IndexError` of
`approved_apps[i]` (only reachable when `disb_rate > 1`). -/
def disbLoop (e : Env) (cfg : Config) (batch : ℤ) (approved : List Row) :
    ℕ → ℕ → List Row → Ctr → Option (List Row × Ctr)
  | _, 0, rows, c => some (rows, c)
  | i, n + 1, rows, c =>
    match approved.get? i with
    | none => none
    | some appRow =>
      let p := genDisbOne e cfg batch appRow c
      let rows := rows ++ [p.1]
      let q := chance e cfg.duplicate_rate p.2
      disbLoop e cfg batch approved (i + 1) n (if q.1 then rows ++ [p.1] else rows) q.2

/-- The disbursements file stage (source lines 195-238): filter the
day's emitted application rows to `APPROVED`, shuffle, take the
`int(len * disb_rate)` prefix, then the invalid-row injection (whose
row contains two fresh uuid draws). -/
def disbStage (e : Env) (cfg : Config) (batch : ℤ) (appsRows : List Row) (c : Ctr) :
    Option (List Row × Ctr) :=
  let p1 := pyShuffle e (appsRows.filter isApproved) c
  let approved := p1.1
  let numDisb := (pyInt ((approved.length : ℚ) * cfg.disb_rate)).toNat
  match disbLoop e cfg batch approved 0 numDisb [] p1.2 with
  | none => none
  | some (rows, c) =>
    let p2 := chance e cfg.invalid_rate c
    if p2.1 then
      let q1 := uuid4 e p2.2
      let q2 := uuid4 e q1.2
      some (rows ++ [[Field.str "bad-disb", .str q1.1, .str q2.1, .str "0",
                      .str "not-a-date", .str "-0.1", .str "0", .str "YEARLY"]], q2.2)
    else some (rows, p2.2)

/-- Resurfacing of an old payment (source lines 248-254): adjust the
amount, refresh the processing timestamp; the carry map is not
written. -/
def payResurface (e : Env) (batch : ℤ) (carry : List (String × Row)) (c : Ctr) :
    Row × Ctr :=
  let p1 := pyChoiceD e carry ("", []) c
  let oldRow := p1.1.2
  let p2 := pyUniform e (95 / 100) (105 / 100) p1.2
  let upd :=
    oldRow.set 4 (Field.dec2 (round2 (max 1 (pyFloat (oldRow.getD 4 (.str "")) * p2.1))))
  let p3 := pyRandint e 0 59 p2.2
  (upd.set 8 (.ts batch 10 p3.1), p3.2)

/-- One payment of a disbursement row (source lines 264-291). -/
def genPayOne (e : Env) (cfg : Config) (batch : ℤ) (disbRow : Row) (disbDate : ℤ)
    (k : ℕ) (c : Ctr) : String × Row × Ctr :=
  let disbId := disbRow.getD 0 (.str "")
  let merchId := disbRow.getD 2 (.str "")
  let p1 := uuid4 e c
  let payDate := disbDate + ((k : ℤ) + 1) * 7
  let p2 := pyUniform e (90 / 100) (110 / 100) p1.2
  let amount := round2 (pyFloat (disbRow.getD 3 (.str "")) / (cfg.pays_per_disb : ℚ) * p2.1)
  let p3 := pyChoiceD e PAY_METHODS "" p2.2
  let p4 := pyChoiceD e ["TRUE", "FALSE"] "" p3.2
  let p5 := chance e (3 / 100) p4.2
  let p6 :=
    if p5.1 then pyRandint e 30 60 p5.2
    else pyChoiceD e ([0, 0, 0, -2, -1, 1, 3, 7, 12] : List ℤ) 0 p5.2
  let p7 := pyRandint e 0 59 p6.2
  let p8 := chance e cfg.broken_ref_rate p7.2
  let p9 :=
    if p8.1 then
      let q := uuid4 e p8.2
      (Field.str q.1, q.2)
    else (disbId, p8.2)
  (p1.1,
   [.str p1.1, p9.1, merchId, .date payDate, .dec2 (round2 (max 1 amount)),
    .str p3.1, .str p4.1, .int p6.1, .ts batch 9 p7.1], p9.2)

/-- The `for k in range(cfg.pays_per_disb)` loop: emit, record in the
carry map, per-row duplicate injection. -/
def payKLoop (e : Env) (cfg : Config) (batch : ℤ) (disbRow : Row) (disbDate : ℤ) :
    ℕ → ℕ → List Row → List (String × Row) → Ctr →
    List Row × List (String × Row) × Ctr
  | _, 0, rows, carry, c => (rows, carry, c)
  | k, n + 1, rows, carry, c =>
    let p := genPayOne e cfg batch disbRow disbDate k c
    let rows := rows ++ [p.2.1]
    let carry := dictSet carry p.1 p.2.1
    let q := chance e cfg.duplicate_rate p.2.2
    payKLoop e cfg batch disbRow disbDate (k + 1) n
      (if q.1 then rows ++ [p.2.1] else rows) carry q.2

/-- The `for disb_row in disb_rows` loop; `none` is the `ValueError` of
`date.fromisoformat(disb_row[4])`, which the injected invalid
disbursement row does raise. -/
def payDisbLoop (e : Env) (cfg : Config) (batch : ℤ) :
    List Row → List Row → List (String × Row) → Ctr →
    Option (List Row × List (String × Row) × Ctr)
  | [], rows, carry, c => some (rows, carry, c)
  | disbRow :: rest, rows, carry, c =>
    match fromisoformat (disbRow.getD 4 (.str "")) with
    | none => none
    | some disbDate =>
      let p := payKLoop e cfg batch disbRow disbDate 0 cfg.pays_per_disb.toNat rows carry c
      payDisbLoop e cfg batch rest p.1 p.2.1 p.2.2

/-- The payments file stage (source lines 245-301). -/
def payStage (e : Env) (cfg : Config) (batch : ℤ) (disbRows : List Row)
    (carry : List (String × Row)) (c : Ctr) :
    Option (List Row × List (String × Row) × Ctr) :=
  let p1 :=
    if carry.isEmpty then (([] : List Row), c)
    else
      let q := chance e (25 / 100) c
      if q.1 then
        let r := payResurface e batch carry q.2
        ([r.1], r.2)
      else ([], q.2)
  match payDisbLoop e cfg batch disbRows p1.1 carry p1.2 with
  | none => none
  | some (rows, carry, c) =>
    let p2 := chance e cfg.invalid_rate c
    if p2.1 then
      let q := uuid4 e p2.2
      some (rows ++ [[Field.str "bad-pay", .str q.1, .str "", .str "not-a-date", .str "-1",
                      .str "CASH", .str "MAYBE", .str "x", .str "not-a-ts"]], carry, q.2)
    else some (rows, carry, p2.2)

/-- The four row batches handed to `write_csv` for one day, with the
header flags the source passes along. -/
structure DayFiles where
  merchHeader : Bool
  merchRows : List Row
  appsHeader : Bool
  appsRows : List Row
  disbHeader : Bool
  disbRows : List Row
  paysHeader : Bool
  paysRows : List Row
  deriving DecidableEq, Inhabited

/-- The mutable run state of `main`'s day loop. -/
structure RunSt where
  merchants : List Merchant
  byId : List (String × Merchant)
  carryApps : List (String × Row)
  carryPays : List (String × Row)
  c : Ctr
  deriving Inhabited

/-- `include_header_merch` (source line 119): Python's `and` makes a
zero period truthy-false, and `%` is the floored modulus. -/
def includeHeaderMerch (cfg : Config) (dayIdx : ℕ) : Bool :=
  !(cfg.no_header_every_n_days != 0 &&
    Int.fmod (dayIdx : ℤ) cfg.no_header_every_n_days == 1)

/-- `include_header_disb` (source line 120). -/
def includeHeaderDisb (cfg : Config) (dayIdx : ℕ) : Bool :=
  !(cfg.no_header_every_n_days != 0 &&
    Int.fmod (dayIdx : ℤ) cfg.no_header_every_n_days == 2)

/-- One iteration of the `for day_idx in range(cfg.num_days)` loop. -/
def dayStep (e : Env) (cfg : Config) (dayIdx : ℕ) (st : RunSt) :
    Option (DayFiles × RunSt) :=
  let batch := cfg.start_date + (dayIdx : ℤ)
  let hMerch := includeHeaderMerch cfg dayIdx
  let hDisb := includeHeaderDisb cfg dayIdx
  let p1 := merchStage e cfg st.merchants st.byId st.c
  match appStage e cfg batch p1.2.1 st.carryApps p1.2.2 with
  | none => none
  | some (aRows, carryA, c) =>
    match disbStage e cfg batch aRows c with
    | none => none
    | some (dRows, c) =>
      match payStage e cfg batch dRows st.carryPays c with
      | none => none
      | some (pRows, carryP, c) =>
        some ({ merchHeader := hMerch, merchRows := p1.1,
                appsHeader := true, appsRows := aRows,
                disbHeader := hDisb, disbRows := dRows,
                paysHeader := true, paysRows := pRows },
              { merchants := st.merchants, byId := p1.2.1,
                carryApps := carryA, carryPays := carryP, c := c })

/-- The day loop, accumulating the per-day files. -/
def mainLoop (e : Env) (cfg : Config) :
    ℕ → ℕ → List DayFiles → RunSt → Option (List DayFiles × RunSt)
  | _, 0, acc, st => some (acc, st)
  | d, n + 1, acc, st =>
    match dayStep e cfg d st with
    | none => none
    | some (f, st) => mainLoop e cfg (d + 1) n (acc ++ [f]) st

/-- The observable outcome of a run: the written files plus the final
state of the cross-day structures. -/
structure RunOut where
  days : List DayFiles
  merchants : List Merchant
  merchant_by_id : List (String × Merchant)
  carry_apps : List (String × Row)
  carry_pays : List (String × Row)
  deriving DecidableEq, Inhabited

/-- `main(cfg)`: seed (cursor zero on the seed-determined stream),
build the pool and `merchant_by_id`, run the day loop; `none` means the
Python run raises an uncaught exception. -/
def main (e : Env) (cfg : Config) : Option RunOut :=
  let p := gen_merchants e cfg { u := 0, id := 0 }
  let merchants := p.1
  let byId := merchants.foldl (fun d m => dictSet d m.merchant_id m) []
  match mainLoop e cfg 0 cfg.num_days.toNat []
      { merchants := merchants, byId := byId, carryApps := [], carryPays := [], c := p.2 } with
  | none => none
  | some (days, st) =>
    some { days := days, merchants := st.merchants, merchant_by_id := st.byId,
           carry_apps := st.carryApps, carry_pays := st.carryPays }

/-! Basic facts about the two-decimal rounding and the draw primitives. -/

theorem round2_mono {x y : ℚ} (h : x ≤ y) : round2 x ≤ round2 y := by
  unfold round2
  have h1 : (⌊x * 100 + 1 / 2⌋ : ℤ) ≤ ⌊y * 100 + 1 / 2⌋ :=
    Int.floor_le_floor (by linarith)
  have h2 : ((⌊x * 100 + 1 / 2⌋ : ℤ) : ℚ) ≤ ((⌊y * 100 + 1 / 2⌋ : ℤ) : ℚ) := by
    exact_mod_cast h1
  linarith

theorem round2_nonneg {x : ℚ} (h : 0 ≤ x) : 0 ≤ round2 x := by
  have h1 : (0 : ℤ) ≤ ⌊x * 100 + 1 / 2⌋ := Int.le_floor.mpr (by push_cast; linarith)
  have h2 : (0 : ℚ) ≤ ((⌊x * 100 + 1 / 2⌋ : ℤ) : ℚ) := by exact_mod_cast h1
  unfold round2
  linarith

theorem round2_le_one {x : ℚ} (h : x ≤ 1) : round2 x ≤ 1 := by
  have h1 : (⌊x * 100 + 1 / 2⌋ : ℤ) ≤ 100 := by
    have : (⌊x * 100 + 1 / 2⌋ : ℤ) ≤ ⌊(201 / 2 : ℚ)⌋ := Int.floor_le_floor (by linarith)
    have h201 : (⌊(201 / 2 : ℚ)⌋ : ℤ) = 100 := by
      rw [Int.floor_eq_iff]
      norm_num
    omega
  have h2 : ((⌊x * 100 + 1 / 2⌋ : ℤ) : ℚ) ≤ 100 := by exact_mod_cast h1
  unfold round2
  linarith

theorem one_le_round2 {x : ℚ} (h : 1 ≤ x) : 1 ≤ round2 x := by
  have h1 : (100 : ℤ) ≤ ⌊x * 100 + 1 / 2⌋ := Int.le_floor.mpr (by push_cast; linarith)
  have h2 : (100 : ℚ) ≤ ((⌊x * 100 + 1 / 2⌋ : ℤ) : ℚ) := by exact_mod_cast h1
  unfold round2
  linarith

theorem round2_pos {x : ℚ} (h : 1 ≤ x) : 0 < round2 x :=
  lt_of_lt_of_le one_pos (one_le_round2 h)

/-- Rounding below a value that is already on the two-decimal grid
stays below it. -/
theorem round2_le_of_fix {x q : ℚ} (hq : round2 q = q) (h : x ≤ q) : round2 x ≤ q :=
  hq ▸ round2_mono h

theorem chance_false {e : Env} {p : ℚ} {c : Ctr} (hU : ValidS e.U) (hp : p ≤ 0) :
    (chance e p c).1 = false := by
  have h0 := (hU c.u).1
  simp only [chance, rand, decide_eq_false_iff_not, not_lt]
  linarith

theorem chance_true {e : Env} {p : ℚ} {c : Ctr} (hU : ValidS e.U) (hp : 1 ≤ p) :
    (chance e p c).1 = true := by
  have h1 := (hU c.u).2
  simp only [chance, rand, decide_eq_true_eq]
  linarith

theorem chance_ctr (e : Env) (p : ℚ) (c : Ctr) :
    (chance e p c).2 = { c with u := c.u + 1 } := rfl

theorem pyUniform_le {e : Env} {a b : ℚ} {c : Ctr} (hU : ValidS e.U) (hab : a ≤ b) :
    a ≤ (pyUniform e a b c).1 ∧ (pyUniform e a b c).1 ≤ b := by
  obtain ⟨h0, h1⟩ := hU c.u
  simp only [pyUniform, rand]
  constructor
  · nlinarith
  · nlinarith

theorem pyUniform_lt {e : Env} {a b : ℚ} {c : Ctr} (hU : ValidS e.U) (hab : a < b) :
    (pyUniform e a b c).1 < b := by
  obtain ⟨h0, h1⟩ := hU c.u
  simp only [pyUniform, rand]
  nlinarith

theorem randIndex_lt {e : Env} {n : ℕ} {c : Ctr} (hU : ValidS e.U) (hn : 0 < n) :
    (randIndex e n c).1 < n := by
  obtain ⟨h0, h1⟩ := hU c.u
  have hfl : ⌊e.U c.u * (n : ℚ)⌋ < (n : ℤ) := by
    apply Int.floor_lt.mpr
    push_cast
    nlinarith [(Nat.cast_pos (α := ℚ)).mpr hn]
  simp only [randIndex, rand]
  omega

theorem pyChoice?_some {e : Env} {xs : List α} {c : Ctr} (hU : ValidS e.U)
    (hxs : xs ≠ []) : ∃ x, (pyChoice? e xs c).1 = some x ∧ x ∈ xs := by
  have hlt := randIndex_lt (n := xs.length) (c := c) hU (List.length_pos.mpr hxs)
  refine ⟨xs.get ⟨(randIndex e xs.length c).1, hlt⟩, ?_, List.get_mem _ _ _⟩
  show xs.get? (randIndex e xs.length c).1 = _
  exact List.get?_eq_get hlt

theorem pyChoiceD_mem {e : Env} {xs : List α} {d : α} {c : Ctr} (hU : ValidS e.U)
    (hxs : xs ≠ []) : (pyChoiceD e xs d c).1 ∈ xs := by
  obtain ⟨x, hx, hmem⟩ := pyChoice?_some (c := c) hU hxs
  simp only [pyChoiceD, hx, Option.getD_some]
  exact hmem

theorem listSwap_length (l : List α) (i j : ℕ) : (listSwap l i j).length = l.length := by
  unfold listSwap
  rcases h1 : l.get? i with _ | a <;> rcases h2 : l.get? j with _ | b <;> simp

theorem listSwap_subset {l : List α} {i j : ℕ} {x : α} (h : x ∈ listSwap l i j) :
    x ∈ l := by
  unfold listSwap at h
  rcases h1 : l.get? i with _ | a <;> rw [h1] at h
  · exact h
  rcases h2 : l.get? j with _ | b <;> rw [h2] at h
  · exact h
  rcases List.mem_or_eq_of_mem_set h with h' | rfl
  · rcases List.mem_or_eq_of_mem_set h' with h'' | rfl
    · exact h''
    · exact List.get?_mem h2
  · exact List.get?_mem h1

theorem shuffleGo_length (e : Env) (i : ℕ) (l : List α) (c : Ctr) :
    ((shuffleGo e i l c).1).length = l.length := by
  induction i generalizing l c with
  | zero => rfl
  | succ k ih => simp [shuffleGo, ih, listSwap_length]

theorem shuffleGo_subset (e : Env) (i : ℕ) (l : List α) (c : Ctr) {x : α}
    (h : x ∈ (shuffleGo e i l c).1) : x ∈ l := by
  induction i generalizing l c with
  | zero => exact h
  | succ k ih => exact listSwap_subset (ih _ _ h)

theorem pyShuffle_length (e : Env) (l : List α) (c : Ctr) :
    ((pyShuffle e l c).1).length = l.length := shuffleGo_length _ _ _ _

theorem pyShuffle_subset (e : Env) (l : List α) (c : Ctr) {x : α}
    (h : x ∈ (pyShuffle e l c).1) : x ∈ l := shuffleGo_subset _ _ _ _ h

/-! Merchant attribute invariants (claim C7). -/

/-- The spec's merchant bounds: risk score in `[0, 1]`, strictly
positive annual revenue. -/
def GoodMerchant (m : Merchant) : Prop :=
  0 ≤ m.risk_score ∧ m.risk_score ≤ 1 ∧ 0 < m.annual_revenue

instance : DecidablePred GoodMerchant := fun m => by
  unfold GoodMerchant
  infer_instance

theorem clamp_le {x lo hi : ℚ} (h : lo ≤ hi) :
    lo ≤ clamp x lo hi ∧ clamp x lo hi ≤ hi := by
  unfold clamp
  exact ⟨le_max_left _ _, max_le h (min_le_left _ _)⟩

theorem genMerchOne_good {e : Env} {cfg : Config} {i : ℕ} {c : Ctr}
    (hU : ValidS e.U) : GoodMerchant (genMerchOne e cfg i c).1 := by
  simp only [genMerchOne, uuid4, pyChoiceD, pyChoice?, randIndex, pyUniform, pyRandint,
    rand, GoodMerchant]
  refine ⟨round2_nonneg (clamp_le (by norm_num)).1,
          round2_le_one (clamp_le (by norm_num)).2, round2_pos ?_⟩
  have h0 := (hU (c.u + 2)).1
  nlinarith

theorem mutate_merchant_good {e : Env} {m : Merchant} {c : Ctr}
    (hm : GoodMerchant m) : GoodMerchant (mutate_merchant e m c).1 := by
  obtain ⟨h1, h2, h3⟩ := hm
  simp only [mutate_merchant, pyUniform, rand, GoodMerchant]
  split
  · exact ⟨round2_nonneg (clamp_le (by norm_num)).1,
           round2_le_one (clamp_le (by norm_num)).2, h3⟩
  · exact ⟨h1, h2, round2_pos (le_max_left _ _)⟩

theorem gen_merchants_good {e : Env} {cfg : Config} {c : Ctr}
    (hU : ValidS e.U) : ∀ m ∈ (gen_merchants e cfg c).1, GoodMerchant m := by
  unfold gen_merchants
  generalize List.range cfg.num_merchants.toNat = l
  have H : ∀ (l : List ℕ) (acc : List Merchant × Ctr),
      (∀ m ∈ acc.1, GoodMerchant m) →
      ∀ m ∈ (l.foldl (fun acc i =>
        let p := genMerchOne e cfg i acc.2
        (acc.1 ++ [p.1], p.2)) acc).1, GoodMerchant m := by
    intro l
    induction l with
    | nil => intro acc hacc m hm; exact hacc m hm
    | cons a t ih =>
      intro acc hacc m hm
      refine ih _ ?_ m hm
      intro m' hm'
      rcases List.mem_append.mp hm' with h | h
      · exact hacc m' h
      · rcases List.mem_singleton.mp h with rfl
        exact genMerchOne_good hU
  intro m hm
  exact H l ([], c) (by simp) m hm

/-- C7: every merchant produced by pool construction, and every
merchant reachable from a good one by the mutation function, has
`risk_score ∈ [0, 1]` and `annual_revenue > 0`; the bounds are closed
under any number of mutations. -/
theorem C7_merchant_bounds (e : Env) (cfg : Config) (hU : ValidS e.U) :
    (∀ c : Ctr, ∀ m ∈ (gen_merchants e cfg c).1, GoodMerchant m) ∧
    (∀ (m : Merchant) (c : Ctr), GoodMerchant m →
      GoodMerchant (mutate_merchant e m c).1) :=
  ⟨fun _ => gen_merchants_good hU, fun _ _ hm => mutate_merchant_good hm⟩

/-- A concrete identifier stream with distinct literal values. -/
def idsLit : ℕ → String := fun n =>
  if n = 0 then "id0" else if n = 1 then "id1" else if n = 2 then "id2"
  else if n = 3 then "id3" else if n = 4 then "id4" else "idX"

/-- A concrete environment whose unit stream is constantly `0`. -/
def zeroEnv : Env := ⟨fun _ => 0, idsLit⟩

theorem zeroEnv_valid : ValidS zeroEnv.U := fun _ => ⟨le_refl 0, by norm_num [zeroEnv]⟩

/-- Witness for C7 at a concrete environment and configuration. -/
theorem C7_merchant_bounds_witness :
    ValidS zeroEnv.U ∧
    ((∀ c : Ctr, ∀ m ∈ (gen_merchants zeroEnv {} c).1, GoodMerchant m) ∧
     (∀ (m : Merchant) (c : Ctr), GoodMerchant m →
       GoodMerchant (mutate_merchant zeroEnv m c).1)) :=
  ⟨zeroEnv_valid, C7_merchant_bounds zeroEnv {} zeroEnv_valid⟩

/-! Header-omission schedule (claim C9). -/

theorem dayStep_headers {e : Env} {cfg : Config} {d : ℕ} {st : RunSt}
    {f : DayFiles} {st' : RunSt} (h : dayStep e cfg d st = some (f, st')) :
    f.merchHeader = includeHeaderMerch cfg d ∧
    f.disbHeader = includeHeaderDisb cfg d ∧
    f.appsHeader = true ∧ f.paysHeader = true := by
  simp only [dayStep] at h
  split at h
  · exact absurd h (by simp)
  split at h
  · exact absurd h (by simp)
  split at h
  · exact absurd h (by simp)
  simp only [Option.some_inj, Prod.mk.injEq] at h
  obtain ⟨h1, -⟩ := h
  subst h1
  exact ⟨rfl, rfl, rfl, rfl⟩

theorem mainLoop_days (e : Env) (cfg : Config) :
    ∀ (n d : ℕ) (acc : List DayFiles) (st : RunSt) (days : List DayFiles) (st' : RunSt),
      mainLoop e cfg d n acc st = some (days, st') →
      ∃ tail, days = acc ++ tail ∧ tail.length = n ∧
        ∀ j (hj : j < tail.length),
          (tail.get ⟨j, hj⟩).merchHeader = includeHeaderMerch cfg (d + j) ∧
          (tail.get ⟨j, hj⟩).disbHeader = includeHeaderDisb cfg (d + j) ∧
          (tail.get ⟨j, hj⟩).appsHeader = true ∧
          (tail.get ⟨j, hj⟩).paysHeader = true := by
  intro n
  induction n with
  | zero =>
    intro d acc st days st' h
    simp only [mainLoop, Option.some_inj] at h
    rcases h with ⟨rfl, rfl⟩
    exact ⟨[], by simp, rfl, fun j hj => absurd hj (by simp)⟩
  | succ k ih =>
    intro d acc st days st' h
    simp only [mainLoop] at h
    split at h
    · exact absurd h (by simp)
    · rename_i f st2 heq
      obtain ⟨tail, rfl, hlen, htail⟩ := ih (d + 1) (acc ++ [f]) st2 days st' h
      refine ⟨f :: tail, by simp, by simp [hlen], ?_⟩
      intro j hj
      match j with
      | 0 =>
        simpa using dayStep_headers heq
      | j + 1 =>
        have := htail j (by simpa using hj)
        simpa [Nat.add_comm, Nat.add_assoc, Nat.add_left_comm] using this

/-- C9: with a positive omission period, the day-`i` merchants file
omits its header exactly when `i % period = 1`, the disbursements file
exactly when `i % period = 2`, and the applications and payments files
always carry a header. -/
theorem C9_header_omission (e : Env) (cfg : Config)
    (hn : 0 < cfg.no_header_every_n_days) {out : RunOut}
    (h : main e cfg = some out) :
    ∀ i (hi : i < out.days.length),
      ((out.days.get ⟨i, hi⟩).merchHeader = true ↔
        ¬ ((i : ℤ) % cfg.no_header_every_n_days = 1)) ∧
      ((out.days.get ⟨i, hi⟩).disbHeader = true ↔
        ¬ ((i : ℤ) % cfg.no_header_every_n_days = 2)) ∧
      (out.days.get ⟨i, hi⟩).appsHeader = true ∧
      (out.days.get ⟨i, hi⟩).paysHeader = true := by
  have hmod : ∀ i : ℕ, Int.fmod (i : ℤ) cfg.no_header_every_n_days =
      (i : ℤ) % cfg.no_header_every_n_days :=
    fun i => Int.fmod_eq_emod _ (le_of_lt hn)
  have hne : (cfg.no_header_every_n_days != 0) = true := by
    simp [bne_iff_ne]
    omega
  simp only [main] at h
  split at h
  · exact absurd h (by simp)
  · rename_i days st heq
    obtain ⟨tail, htl, hlen, htail⟩ := mainLoop_days e cfg _ 0 [] _ days st heq
    simp only [Option.some_inj] at h
    subst h
    intro i hi
    simp only [List.nil_append] at htl
    subst htl
    obtain ⟨h1, h2, h3, h4⟩ := htail i hi
    rw [Nat.zero_add] at h1 h2
    refine ⟨?_, ?_, h3, h4⟩
    · rw [h1]
      simp only [includeHeaderMerch, hne, Bool.true_and, hmod, Nat.zero_add,
        Bool.not_eq_eq_eq_not, Bool.not_true, beq_eq_false_iff_ne, ne_eq]
    · rw [h2]
      simp only [includeHeaderDisb, hne, Bool.true_and, hmod, Nat.zero_add,
        Bool.not_eq_eq_eq_not, Bool.not_true, beq_eq_false_iff_ne, ne_eq]

/-- A tiny configuration for concrete witnesses: two days, one
merchant, no applications, all noise rates zero. -/
def cfgTwoDays : Config :=
  { start_date := 0, num_days := 2, num_merchants := 1, apps_per_day := 0,
    disb_rate := 0, pays_per_disb := 0, no_header_every_n_days := 3,
    duplicate_rate := 0, invalid_rate := 0, broken_ref_rate := 0,
    late_arrival_rate := 0, seed := 0 }

/-- The concrete output of `main` on `cfgTwoDays` with the all-zero
stream. -/
def outTwoDays : RunOut := (main zeroEnv cfgTwoDays).getD default

theorem eq_some_getD {o : Option α} {d : α} (h : o.isSome = true) :
    o = some (o.getD d) := by
  cases o with
  | none => simp at h
  | some a => rfl

theorem mainTwoDays_isSome : (main zeroEnv cfgTwoDays).isSome = true := by
  norm_num [main, mainLoop, dayStep, merchStage, merchLoop, merchOne, mutate_merchant,
    appStage, appLoop, genAppOne, appResurface, statusChoice, sample_merch,
    disbStage, disbLoop, genDisbOne, payStage, payDisbLoop, payKLoop, genPayOne,
    payResurface, pyShuffle, shuffleGo, listSwap, isApproved, gen_merchants,
    genMerchOne, merchRowOf, pad4, uuid4, rand, chance, pyUniform, pyRandint,
    randIndex, pyChoice?, pyChoiceD, pyFloat, fromisoformat, dictSet, dictLookup,
    dictValues, round2, round4, clamp, pyInt, invalidMerchRow, invalidAppRow,
    zeroEnv, cfgTwoDays, includeHeaderMerch, includeHeaderDisb,
    STATES, INDUSTRIES, PURPOSES, SCHEDULES, PAY_METHODS]

theorem mainTwoDays_eq : main zeroEnv cfgTwoDays = some outTwoDays :=
  eq_some_getD mainTwoDays_isSome

/-- Witness for C9 at the concrete two-day run. -/
theorem C9_header_omission_witness :
    (0 < cfgTwoDays.no_header_every_n_days ∧
      main zeroEnv cfgTwoDays = some outTwoDays) ∧
    (∀ i (hi : i < outTwoDays.days.length),
      ((outTwoDays.days.get ⟨i, hi⟩).merchHeader = true ↔
        ¬ ((i : ℤ) % cfgTwoDays.no_header_every_n_days = 1)) ∧
      ((outTwoDays.days.get ⟨i, hi⟩).disbHeader = true ↔
        ¬ ((i : ℤ) % cfgTwoDays.no_header_every_n_days = 2)) ∧
      (outTwoDays.days.get ⟨i, hi⟩).appsHeader = true ∧
      (outTwoDays.days.get ⟨i, hi⟩).paysHeader = true) :=
  ⟨⟨by decide, mainTwoDays_eq⟩,
   C9_header_omission zeroEnv cfgTwoDays (by decide) mainTwoDays_eq⟩

/-! Length and provenance facts for the disbursement loop. -/

theorem disbLoop_len {e : Env} {cfg : Config} {batch : ℤ} {approved : List Row}
    (hU : ValidS e.U) (hdup : cfg.duplicate_rate ≤ 0) :
    ∀ (n i : ℕ) (rows : List Row) (c : Ctr), i + n ≤ approved.length →
      ∃ rows' c', disbLoop e cfg batch approved i n rows c = some (rows', c') ∧
        rows'.length = rows.length + n := by
  intro n
  induction n with
  | zero => exact fun i rows c _ => ⟨rows, c, rfl, by omega⟩
  | succ k ih =>
    intro i rows c h
    have hi : i < approved.length := by omega
    have hget : approved.get? i = some (approved.get ⟨i, hi⟩) := List.get?_eq_get hi
    simp only [disbLoop, hget, chance_false hU hdup, Bool.false_eq_true, if_false]
    obtain ⟨rows', c', heq, hlen⟩ := ih (i + 1) (rows ++ [(genDisbOne e cfg batch
      (approved.get ⟨i, hi⟩) c).1]) _ (by omega)
    refine ⟨rows', c', heq, ?_⟩
    simp only [List.length_append, List.length_singleton] at hlen
    omega

theorem disbLoop_prov {e : Env} {cfg : Config} {batch : ℤ} {approved : List Row} :
    ∀ (n i : ℕ) (rows : List Row) (c : Ctr) {rows' : List Row} {c' : Ctr},
      disbLoop e cfg batch approved i n rows c = some (rows', c') →
      ∀ x ∈ rows', x ∈ rows ∨
        ∃ a ∈ approved, ∃ c0, x = (genDisbOne e cfg batch a c0).1 := by
  intro n
  induction n with
  | zero =>
    intro i rows c rows' c' h x hx
    simp only [disbLoop, Option.some_inj, Prod.mk.injEq] at h
    obtain ⟨rfl, -⟩ := h
    exact Or.inl hx
  | succ k ih =>
    intro i rows c rows' c' h x hx
    rcases hget : approved.get? i with _ | appRow
    · simp only [disbLoop, hget] at h
      exact Option.noConfusion h
    · simp only [disbLoop, hget] at h
      rcases ih _ _ _ h x hx with hmem | hnew
      · have hX : x ∈ rows ++ [(genDisbOne e cfg batch appRow c).1] := by
          by_cases hc : (chance e cfg.duplicate_rate (genDisbOne e cfg batch appRow c).2).1
          · simp only [hc, if_true] at hmem
            rcases List.mem_append.mp hmem with h' | h'
            · exact h'
            · exact List.mem_append.mpr (Or.inr h')
          · simp only [hc, Bool.false_eq_true, if_false] at hmem
            exact hmem
        rcases List.mem_append.mp hX with h' | h'
        · exact Or.inl h'
        · rcases List.mem_singleton.mp h' with rfl
          exact Or.inr ⟨appRow, List.get?_mem hget, c, rfl⟩
      · exact Or.inr hnew

theorem disbLoop_double {e : Env} {cfg : Config} {batch : ℤ} {approved : List Row}
    (hU : ValidS e.U) (hdup : 1 ≤ cfg.duplicate_rate) :
    ∀ (n i : ℕ) (rows : List Row) (c : Ctr), i + n ≤ approved.length →
      ∃ (l : List Row) (c' : Ctr),
        disbLoop e cfg batch approved i n rows c =
          some (rows ++ l.flatMap (fun r => [r, r]), c') ∧ l.length = n := by
  intro n
  induction n with
  | zero => exact fun i rows c _ => ⟨[], c, by simp [disbLoop], rfl⟩
  | succ k ih =>
    intro i rows c h
    have hi : i < approved.length := by omega
    have hget : approved.get? i = some (approved.get ⟨i, hi⟩) := List.get?_eq_get hi
    simp only [disbLoop, hget, chance_true hU hdup, if_true]
    obtain ⟨l, c', heq, hlen⟩ := ih (i + 1) (rows ++ [(genDisbOne e cfg batch
      (approved.get ⟨i, hi⟩) c).1] ++ [(genDisbOne e cfg batch
      (approved.get ⟨i, hi⟩) c).1]) _ (by omega)
    refine ⟨(genDisbOne e cfg batch (approved.get ⟨i, hi⟩) c).1 :: l, c', ?_, by simp [hlen]⟩
    rw [heq]
    simp

/-! Length facts for the payment loops and the two derived stages. -/

theorem payKLoop_len {e : Env} {cfg : Config} {batch : ℤ} {disbRow : Row} {disbDate : ℤ}
    (hU : ValidS e.U) (hdup : cfg.duplicate_rate ≤ 0) :
    ∀ (n k : ℕ) (rows : List Row) (carry : List (String × Row)) (c : Ctr),
      ((payKLoop e cfg batch disbRow disbDate k n rows carry c).1).length =
        rows.length + n := by
  intro n
  induction n with
  | zero => intro k rows carry c; rfl
  | succ m ih =>
    intro k rows carry c
    simp only [payKLoop, chance_false hU hdup, Bool.false_eq_true, if_false]
    rw [ih]
    simp only [List.length_append, List.length_singleton]
    omega

theorem payKLoop_double {e : Env} {cfg : Config} {batch : ℤ} {disbRow : Row}
    {disbDate : ℤ} (hU : ValidS e.U) (hdup : 1 ≤ cfg.duplicate_rate) :
    ∀ (n k : ℕ) (rows : List Row) (carry : List (String × Row)) (c : Ctr),
      ∃ l : List Row,
        (payKLoop e cfg batch disbRow disbDate k n rows carry c).1 =
          rows ++ l.flatMap (fun r => [r, r]) ∧ l.length = n := by
  intro n
  induction n with
  | zero => exact fun k rows carry c => ⟨[], by simp [payKLoop], rfl⟩
  | succ m ih =>
    intro k rows carry c
    simp only [payKLoop, chance_true hU hdup, if_true]
    obtain ⟨l, heq, hlen⟩ := ih (k + 1)
      (rows ++ [(genPayOne e cfg batch disbRow disbDate k c).2.1] ++
        [(genPayOne e cfg batch disbRow disbDate k c).2.1]) _ _
    refine ⟨(genPayOne e cfg batch disbRow disbDate k c).2.1 :: l, ?_, by simp [hlen]⟩
    rw [heq]
    simp

theorem payDisbLoop_len {e : Env} {cfg : Config} {batch : ℤ}
    (hU : ValidS e.U) (hdup : cfg.duplicate_rate ≤ 0) :
    ∀ (drows rows : List Row) (carry : List (String × Row)) (c : Ctr),
      (∀ r ∈ drows, (fromisoformat (r.getD 4 (.str ""))).isSome = true) →
      ∃ rows' carry' c',
        payDisbLoop e cfg batch drows rows carry c = some (rows', carry', c') ∧
        rows'.length = rows.length + drows.length * cfg.pays_per_disb.toNat := by
  intro drows
  induction drows with
  | nil => exact fun rows carry c _ => ⟨rows, carry, c, rfl, by simp⟩
  | cons dr rest ih =>
    intro rows carry c hok
    obtain ⟨dd, hdd⟩ := Option.isSome_iff_exists.mp (hok dr (List.mem_cons_self _ _))
    simp only [payDisbLoop, hdd]
    obtain ⟨rows', carry', c', heq, hlen⟩ := ih _ _ _
      (fun r hr => hok r (List.mem_cons_of_mem _ hr))
    refine ⟨rows', carry', c', heq, ?_⟩
    rw [hlen, payKLoop_len hU hdup]
    simp only [List.length_cons]
    ring

theorem payDisbLoop_double {e : Env} {cfg : Config} {batch : ℤ}
    (hU : ValidS e.U) (hdup : 1 ≤ cfg.duplicate_rate) :
    ∀ (drows rows : List Row) (carry : List (String × Row)) (c : Ctr),
      (∀ r ∈ drows, (fromisoformat (r.getD 4 (.str ""))).isSome = true) →
      ∃ (l : List Row) (carry' : List (String × Row)) (c' : Ctr),
        payDisbLoop e cfg batch drows rows carry c =
          some (rows ++ l.flatMap (fun r => [r, r]), carry', c') ∧
        l.length = drows.length * cfg.pays_per_disb.toNat := by
  intro drows
  induction drows with
  | nil => exact fun rows carry c _ => ⟨[], carry, c, by simp [payDisbLoop], by simp⟩
  | cons dr rest ih =>
    intro rows carry c hok
    obtain ⟨dd, hdd⟩ := Option.isSome_iff_exists.mp (hok dr (List.mem_cons_self _ _))
    simp only [payDisbLoop, hdd]
    obtain ⟨l0, heq0, hlen0⟩ := payKLoop_double hU hdup cfg.pays_per_disb.toNat 0
      rows carry c
    rw [heq0]
    obtain ⟨l, carry', c', heq, hlen⟩ := ih _ _ _
      (fun r hr => hok r (List.mem_cons_of_mem _ hr))
    refine ⟨l0 ++ l, carry', c', ?_, by simp [hlen0, hlen, List.length_cons]; ring⟩
    rw [heq]
    simp

theorem disbStage_len {e : Env} {cfg : Config} {batch : ℤ} {appsRows : List Row}
    {c : Ctr} (hU : ValidS e.U) (hdup : cfg.duplicate_rate ≤ 0)
    (hinv : cfg.invalid_rate ≤ 0) (h0 : 0 ≤ cfg.disb_rate) (h1 : cfg.disb_rate ≤ 1) :
    ∃ rows' c', disbStage e cfg batch appsRows c = some (rows', c') ∧
      (rows'.length : ℤ) = ⌊((appsRows.filter isApproved).length : ℚ) * cfg.disb_rate⌋ := by
  have hshuf := pyShuffle_length e (appsRows.filter isApproved) c
  have hq0 : (0 : ℚ) ≤ (((appsRows.filter isApproved).length : ℕ) : ℚ) * cfg.disb_rate :=
    mul_nonneg (Nat.cast_nonneg _) h0
  have hfl0 : (0 : ℤ) ≤ ⌊(((appsRows.filter isApproved).length : ℕ) : ℚ) * cfg.disb_rate⌋ :=
    Int.le_floor.mpr (by push_cast; linarith)
  have hflL : ⌊(((appsRows.filter isApproved).length : ℕ) : ℚ) * cfg.disb_rate⌋ ≤
      (((appsRows.filter isApproved).length : ℕ) : ℤ) := by
    have hc : (((appsRows.filter isApproved).length : ℕ) : ℚ) * cfg.disb_rate ≤
        (((appsRows.filter isApproved).length : ℕ) : ℚ) := by
      nlinarith [Nat.cast_nonneg (α := ℚ) (appsRows.filter isApproved).length]
    calc ⌊(((appsRows.filter isApproved).length : ℕ) : ℚ) * cfg.disb_rate⌋ ≤
        ⌊(((appsRows.filter isApproved).length : ℕ) : ℚ)⌋ := Int.floor_le_floor hc
      _ = (((appsRows.filter isApproved).length : ℕ) : ℤ) := Int.floor_natCast _
  have hpy : pyInt ((((appsRows.filter isApproved).length : ℕ) : ℚ) * cfg.disb_rate) =
      ⌊(((appsRows.filter isApproved).length : ℕ) : ℚ) * cfg.disb_rate⌋ := by
    unfold pyInt
    rw [if_neg (not_lt.mpr hq0)]
  obtain ⟨rows', c', heq, hlen⟩ := disbLoop_len hU hdup
    ((pyInt ((((appsRows.filter isApproved).length : ℕ) : ℚ) * cfg.disb_rate)).toNat)
    0 [] (pyShuffle e (appsRows.filter isApproved) c).2
    (by rw [hshuf]; omega)
  refine ⟨rows', (chance e cfg.invalid_rate c').2, ?_,
    by simp only [List.length_nil, Nat.zero_add] at hlen; omega⟩
  simp only [disbStage]
  rw [hshuf, heq]
  simp only [chance_false hU hinv, Bool.false_eq_true, if_false]

theorem payStage_len {e : Env} {cfg : Config} {batch : ℤ} {disbRows : List Row} {c : Ctr}
    (hU : ValidS e.U) (hdup : cfg.duplicate_rate ≤ 0) (hinv : cfg.invalid_rate ≤ 0)
    (hok : ∀ r ∈ disbRows, (fromisoformat (r.getD 4 (.str ""))).isSome = true) :
    ∃ rows' carry' c', payStage e cfg batch disbRows [] c = some (rows', carry', c') ∧
      rows'.length = disbRows.length * cfg.pays_per_disb.toNat := by
  obtain ⟨rows', carry', c', heq, hlen⟩ := payDisbLoop_len hU hdup disbRows [] [] c hok
  refine ⟨rows', carry', (chance e cfg.invalid_rate c').2, ?_, by simpa using hlen⟩
  simp only [payStage, List.isEmpty_nil, if_true]
  rw [heq]
  simp only [chance_false hU hinv, Bool.false_eq_true, if_false]

theorem payStage_double {e : Env} {cfg : Config} {batch : ℤ} {disbRows : List Row}
    {c : Ctr} (hU : ValidS e.U) (hdup : 1 ≤ cfg.duplicate_rate)
    (hinv : cfg.invalid_rate ≤ 0)
    (hok : ∀ r ∈ disbRows, (fromisoformat (r.getD 4 (.str ""))).isSome = true) :
    ∃ (l : List Row) (carry' : List (String × Row)) (c' : Ctr),
      payStage e cfg batch disbRows [] c =
        some (l.flatMap (fun r => [r, r]), carry', c') ∧
      l.length = disbRows.length * cfg.pays_per_disb.toNat := by
  obtain ⟨l, carry', c', heq, hlen⟩ := payDisbLoop_double hU hdup disbRows [] [] c hok
  refine ⟨l, carry', (chance e cfg.invalid_rate c').2, ?_, hlen⟩
  simp only [payStage, List.isEmpty_nil, if_true]
  rw [heq]
  simp only [chance_false hU hinv, Bool.false_eq_true, if_false, List.nil_append]

/-! Facts about the fresh-application loop. -/

theorem genAppOne_some {e : Env} {cfg : Config} {batch : ℤ}
    {byId : List (String × Merchant)} {c : Ctr} (hU : ValidS e.U) (hne : byId ≠ []) :
    ∃ a r c', genAppOne e cfg batch byId c = some (a, r, c') := by
  have hne' : dictValues byId ≠ [] := by
    simpa [dictValues] using hne
  obtain ⟨m, hm, -⟩ := @pyChoice?_some _ e (dictValues byId) ((uuid4 e c).2) hU hne'
  simp only [genAppOne, sample_merch, hm]
  exact ⟨_, _, _, rfl⟩

theorem appLoop_len {e : Env} {cfg : Config} {batch : ℤ}
    {byId : List (String × Merchant)} (hU : ValidS e.U)
    (hdup : cfg.duplicate_rate ≤ 0) (hne : byId ≠ []) :
    ∀ (n : ℕ) (rows : List Row) (carry : List (String × Row)) (c : Ctr),
      ∃ rows' carry' c',
        appLoop e cfg batch byId n rows carry c = some (rows', carry', c') ∧
        rows'.length = rows.length + n := by
  intro n
  induction n with
  | zero => exact fun rows carry c => ⟨rows, carry, c, rfl, by omega⟩
  | succ k ih =>
    intro rows carry c
    obtain ⟨a, r, c1, hgen⟩ := @genAppOne_some e cfg batch byId c hU hne
    simp only [appLoop, hgen, chance_false hU hdup, Bool.false_eq_true, if_false]
    obtain ⟨rows', carry', c', heq, hlen⟩ := ih (rows ++ [r]) (dictSet carry a r) _
    refine ⟨rows', carry', c', heq, ?_⟩
    simp only [List.length_append, List.length_singleton] at hlen
    omega

theorem appLoop_some {e : Env} {cfg : Config} {batch : ℤ}
    {byId : List (String × Merchant)} (hU : ValidS e.U) (hne : byId ≠ []) :
    ∀ (n : ℕ) (rows : List Row) (carry : List (String × Row)) (c : Ctr),
      ∃ rows' carry' c',
        appLoop e cfg batch byId n rows carry c = some (rows', carry', c') := by
  intro n
  induction n with
  | zero => exact fun rows carry c => ⟨rows, carry, c, rfl⟩
  | succ k ih =>
    intro rows carry c
    obtain ⟨a, r, c1, hgen⟩ := @genAppOne_some e cfg batch byId c hU hne
    simp only [appLoop, hgen]
    exact ih _ _ _

theorem appLoop_double {e : Env} {cfg : Config} {batch : ℤ}
    {byId : List (String × Merchant)} (hU : ValidS e.U)
    (hdup : 1 ≤ cfg.duplicate_rate) (hne : byId ≠ []) :
    ∀ (n : ℕ) (rows : List Row) (carry : List (String × Row)) (c : Ctr),
      ∃ (l : List Row) (carry' : List (String × Row)) (c' : Ctr),
        appLoop e cfg batch byId n rows carry c =
          some (rows ++ l.flatMap (fun r => [r, r]), carry', c') ∧ l.length = n := by
  intro n
  induction n with
  | zero => exact fun rows carry c => ⟨[], carry, c, by simp [appLoop], rfl⟩
  | succ k ih =>
    intro rows carry c
    obtain ⟨a, r, c1, hgen⟩ := @genAppOne_some e cfg batch byId c hU hne
    simp only [appLoop, hgen, chance_true hU hdup, if_true]
    obtain ⟨l, carry', c', heq, hlen⟩ := ih (rows ++ [r] ++ [r]) (dictSet carry a r) _
    refine ⟨r :: l, carry', c', ?_, by simp [hlen]⟩
    rw [heq]
    simp

/-- C5: with the duplicate and invalid injections disabled (so the
files hold exactly the pre-injection rows), the disbursement stage
emits `⌊(number of APPROVED application rows that day) * disb_rate⌋`
rows, and the payment stage (with nothing to resurface) emits exactly
`pays_per_disb` payment rows per disbursement row. -/
theorem C5_disb_pay_counts (e : Env) (cfg : Config) (batch : ℤ) (hU : ValidS e.U)
    (hdup : cfg.duplicate_rate ≤ 0) (hinv : cfg.invalid_rate ≤ 0)
    (h0 : 0 ≤ cfg.disb_rate) (h1 : cfg.disb_rate ≤ 1) (hp : 0 ≤ cfg.pays_per_disb) :
    (∀ (appsRows : List Row) (c : Ctr),
      ∃ rows' c', disbStage e cfg batch appsRows c = some (rows', c') ∧
        (rows'.length : ℤ) = ⌊((appsRows.filter isApproved).length : ℚ) * cfg.disb_rate⌋) ∧
    (∀ (disbRows : List Row) (c : Ctr),
      (∀ r ∈ disbRows, (fromisoformat (r.getD 4 (.str ""))).isSome = true) →
      ∃ rows' carry' c', payStage e cfg batch disbRows [] c = some (rows', carry', c') ∧
        (rows'.length : ℤ) = (disbRows.length : ℤ) * cfg.pays_per_disb) := by
  refine ⟨fun appsRows c => disbStage_len hU hdup hinv h0 h1, fun disbRows c hok => ?_⟩
  obtain ⟨rows', carry', c', heq, hlen⟩ := payStage_len hU hdup hinv hok (c := c)
  refine ⟨rows', carry', c', heq, ?_⟩
  rw [hlen]
  push_cast [Int.toNat_of_nonneg hp]
  ring

/-- Witness for C5 at a concrete environment and configuration. -/
theorem C5_disb_pay_counts_witness :
    (ValidS zeroEnv.U ∧ cfgTwoDays.duplicate_rate ≤ 0 ∧ cfgTwoDays.invalid_rate ≤ 0 ∧
      0 ≤ cfgTwoDays.disb_rate ∧ cfgTwoDays.disb_rate ≤ 1 ∧
      0 ≤ cfgTwoDays.pays_per_disb) ∧
    ((∀ (appsRows : List Row) (c : Ctr),
      ∃ rows' c', disbStage zeroEnv cfgTwoDays 0 appsRows c = some (rows', c') ∧
        (rows'.length : ℤ) =
          ⌊((appsRows.filter isApproved).length : ℚ) * cfgTwoDays.disb_rate⌋) ∧
    (∀ (disbRows : List Row) (c : Ctr),
      (∀ r ∈ disbRows, (fromisoformat (r.getD 4 (.str ""))).isSome = true) →
      ∃ rows' carry' c',
        payStage zeroEnv cfgTwoDays 0 disbRows [] c = some (rows', carry', c') ∧
        (rows'.length : ℤ) = (disbRows.length : ℤ) * cfgTwoDays.pays_per_disb)) :=
  ⟨⟨zeroEnv_valid, by norm_num [cfgTwoDays], by norm_num [cfgTwoDays],
    by norm_num [cfgTwoDays], by norm_num [cfgTwoDays], by norm_num [cfgTwoDays]⟩,
   C5_disb_pay_counts zeroEnv cfgTwoDays 0 zeroEnv_valid (by norm_num [cfgTwoDays])
     (by norm_num [cfgTwoDays]) (by norm_num [cfgTwoDays]) (by norm_num [cfgTwoDays])
     (by norm_num [cfgTwoDays])⟩

/-- C10: noise-injected and resurfaced rows feed downstream
generation.  The approved filter counts every occurrence of a row (a
duplicated APPROVED application row is counted twice); the disbursement
stage sizes its loop from the filtered emitted rows of the day's file;
and the payment loop runs over every row of the disbursement list, so
each occurrence of a duplicated disbursement row spawns its own
`pays_per_disb` payments. -/
theorem C10_noise_feeds_downstream (e : Env) (cfg : Config) (batch : ℤ)
    (hU : ValidS e.U) (hdup : cfg.duplicate_rate ≤ 0) (hinv : cfg.invalid_rate ≤ 0)
    (h0 : 0 ≤ cfg.disb_rate) (h1 : cfg.disb_rate ≤ 1) (hp : 0 ≤ cfg.pays_per_disb) :
    (∀ (l : List Row) (r : Row), isApproved r = true →
      (l.filter isApproved).count r = l.count r) ∧
    (∀ (appsRows : List Row) (c : Ctr),
      ∃ rows' c', disbStage e cfg batch appsRows c = some (rows', c') ∧
        (rows'.length : ℤ) = ⌊((appsRows.filter isApproved).length : ℚ) * cfg.disb_rate⌋) ∧
    (∀ (disbRows : List Row) (c : Ctr),
      (∀ r ∈ disbRows, (fromisoformat (r.getD 4 (.str ""))).isSome = true) →
      ∃ rows' carry' c', payStage e cfg batch disbRows [] c = some (rows', carry', c') ∧
        (rows'.length : ℤ) = (disbRows.length : ℤ) * cfg.pays_per_disb) := by
  refine ⟨fun l r hr => List.count_filter ?_,
    fun appsRows c => disbStage_len hU hdup hinv h0 h1, fun disbRows c hok => ?_⟩
  · exact hr
  · obtain ⟨rows', carry', c', heq, hlen⟩ := payStage_len hU hdup hinv hok (c := c)
    refine ⟨rows', carry', c', heq, ?_⟩
    rw [hlen]
    push_cast [Int.toNat_of_nonneg hp]
    ring

/-- Witness for C10 at a concrete environment and configuration. -/
theorem C10_noise_feeds_downstream_witness :
    (ValidS zeroEnv.U ∧ cfgTwoDays.duplicate_rate ≤ 0 ∧ cfgTwoDays.invalid_rate ≤ 0 ∧
      0 ≤ cfgTwoDays.disb_rate ∧ cfgTwoDays.disb_rate ≤ 1 ∧
      0 ≤ cfgTwoDays.pays_per_disb) ∧
    ((∀ (l : List Row) (r : Row), isApproved r = true →
      (l.filter isApproved).count r = l.count r) ∧
    (∀ (appsRows : List Row) (c : Ctr),
      ∃ rows' c', disbStage zeroEnv cfgTwoDays 7 appsRows c = some (rows', c') ∧
        (rows'.length : ℤ) =
          ⌊((appsRows.filter isApproved).length : ℚ) * cfgTwoDays.disb_rate⌋) ∧
    (∀ (disbRows : List Row) (c : Ctr),
      (∀ r ∈ disbRows, (fromisoformat (r.getD 4 (.str ""))).isSome = true) →
      ∃ rows' carry' c',
        payStage zeroEnv cfgTwoDays 7 disbRows [] c = some (rows', carry', c') ∧
        (rows'.length : ℤ) = (disbRows.length : ℤ) * cfgTwoDays.pays_per_disb)) :=
  ⟨⟨zeroEnv_valid, by norm_num [cfgTwoDays], by norm_num [cfgTwoDays],
    by norm_num [cfgTwoDays], by norm_num [cfgTwoDays], by norm_num [cfgTwoDays]⟩,
   C10_noise_feeds_downstream zeroEnv cfgTwoDays 7 zeroEnv_valid
     (by norm_num [cfgTwoDays]) (by norm_num [cfgTwoDays]) (by norm_num [cfgTwoDays])
     (by norm_num [cfgTwoDays]) (by norm_num [cfgTwoDays])⟩

/-! Run-to-completion analysis (claim C6). -/

theorem disbLoop_some {e : Env} {cfg : Config} {batch : ℤ} {approved : List Row} :
    ∀ (n i : ℕ) (rows : List Row) (c : Ctr), i + n ≤ approved.length →
      ∃ rows' c', disbLoop e cfg batch approved i n rows c = some (rows', c') := by
  intro n
  induction n with
  | zero => exact fun i rows c _ => ⟨rows, c, rfl⟩
  | succ k ih =>
    intro i rows c h
    have hi : i < approved.length := by omega
    have hget : approved.get? i = some (approved.get ⟨i, hi⟩) := List.get?_eq_get hi
    simp only [disbLoop, hget]
    exact ih (i + 1) _ _ (by omega)

theorem pyInt_mul_le (L : ℕ) (r : ℚ) (h1 : r ≤ 1) :
    (pyInt ((L : ℚ) * r)).toNat ≤ L := by
  unfold pyInt
  split
  · rename_i hneg
    have hc : ⌈(L : ℚ) * r⌉ ≤ 0 := Int.ceil_le.mpr (by exact_mod_cast le_of_lt hneg)
    omega
  · rename_i hpos
    push_neg at hpos
    have hle : (L : ℚ) * r ≤ (L : ℚ) := by
      nlinarith [Nat.cast_nonneg (α := ℚ) L]
    have hfl : ⌊(L : ℚ) * r⌋ ≤ (L : ℤ) := by
      calc ⌊(L : ℚ) * r⌋ ≤ ⌊(L : ℚ)⌋ := Int.floor_le_floor hle
        _ = (L : ℤ) := Int.floor_natCast L
    omega

theorem disbStage_some {e : Env} {cfg : Config} {batch : ℤ} {appsRows : List Row}
    {c : Ctr} (h1 : cfg.disb_rate ≤ 1) :
    ∃ rows' c', disbStage e cfg batch appsRows c = some (rows', c') := by
  obtain ⟨rows0, c0, heq⟩ := @disbLoop_some e cfg batch
    (pyShuffle e (appsRows.filter isApproved) c).1
    ((pyInt (((pyShuffle e (appsRows.filter isApproved) c).1.length : ℚ) *
      cfg.disb_rate)).toNat) 0 [] (pyShuffle e (appsRows.filter isApproved) c).2
    (by simpa using pyInt_mul_le _ _ h1)
  simp only [disbStage, heq]
  split
  · exact ⟨_, _, rfl⟩
  · exact ⟨_, _, rfl⟩

theorem disbStage_ok {e : Env} {cfg : Config} {batch : ℤ} {appsRows : List Row}
    {c : Ctr} {rows' : List Row} {c' : Ctr} (hU : ValidS e.U)
    (hinv : cfg.invalid_rate ≤ 0)
    (h : disbStage e cfg batch appsRows c = some (rows', c')) :
    ∀ r ∈ rows', (fromisoformat (r.getD 4 (.str ""))).isSome = true := by
  simp only [disbStage] at h
  split at h
  · exact Option.noConfusion h
  · rename_i rows0 c0 heq0
    rw [chance_false hU hinv] at h
    simp only [Bool.false_eq_true, if_false, Option.some_inj, Prod.mk.injEq] at h
    obtain ⟨rfl, -⟩ := h
    intro r hr
    rcases disbLoop_prov _ _ _ _ heq0 r hr with hmem | ⟨a, ha, c1, rfl⟩
    · exact absurd hmem (List.not_mem_nil _)
    · simp only [genDisbOne, List.getD_cons_succ, List.getD_cons_zero, fromisoformat,
        Option.isSome_some]

theorem appStage_some {e : Env} {cfg : Config} {batch : ℤ}
    {byId : List (String × Merchant)} {carry : List (String × Row)} {c : Ctr}
    (hU : ValidS e.U) (hne : byId ≠ []) :
    ∃ rows carry' c', appStage e cfg batch byId carry c = some (rows, carry', c') := by
  obtain ⟨rows', carry', c', heq⟩ := appLoop_some hU hne cfg.apps_per_day.toNat
    (if carry.isEmpty then (([] : List Row), c)
     else
      let q := chance e (25 / 100) c
      if q.1 then
        let r := appResurface e batch carry q.2
        ([r.1], r.2)
      else ([], q.2)).1 carry
    (if carry.isEmpty then (([] : List Row), c)
     else
      let q := chance e (25 / 100) c
      if q.1 then
        let r := appResurface e batch carry q.2
        ([r.1], r.2)
      else ([], q.2)).2
  simp only [appStage]
  rw [heq]
  exact ⟨_, _, _, rfl⟩

theorem payDisbLoop_some {e : Env} {cfg : Config} {batch : ℤ} :
    ∀ (drows rows : List Row) (carry : List (String × Row)) (c : Ctr),
      (∀ r ∈ drows, (fromisoformat (r.getD 4 (.str ""))).isSome = true) →
      ∃ rows' carry' c',
        payDisbLoop e cfg batch drows rows carry c = some (rows', carry', c') := by
  intro drows
  induction drows with
  | nil => exact fun rows carry c _ => ⟨rows, carry, c, rfl⟩
  | cons dr rest ih =>
    intro rows carry c hok
    obtain ⟨dd, hdd⟩ := Option.isSome_iff_exists.mp (hok dr (List.mem_cons_self _ _))
    simp only [payDisbLoop, hdd]
    exact ih _ _ _ (fun r hr => hok r (List.mem_cons_of_mem _ hr))

theorem payStage_some {e : Env} {cfg : Config} {batch : ℤ} {disbRows : List Row}
    {carry : List (String × Row)} {c : Ctr}
    (hok : ∀ r ∈ disbRows, (fromisoformat (r.getD 4 (.str ""))).isSome = true) :
    ∃ rows carry' c', payStage e cfg batch disbRows carry c = some (rows, carry', c') := by
  obtain ⟨rows', carry', c', heq⟩ := @payDisbLoop_some e cfg batch disbRows
    (if carry.isEmpty then (([] : List Row), c)
     else
      let q := chance e (25 / 100) c
      if q.1 then
        let r := payResurface e batch carry q.2
        ([r.1], r.2)
      else ([], q.2)).1 carry
    (if carry.isEmpty then (([] : List Row), c)
     else
      let q := chance e (25 / 100) c
      if q.1 then
        let r := payResurface e batch carry q.2
        ([r.1], r.2)
      else ([], q.2)).2 hok
  simp only [payStage, heq]
  split
  · exact ⟨_, _, _, rfl⟩
  · exact ⟨_, _, _, rfl⟩

theorem dictSet_length (d : List (String × α)) (k : String) (v : α) :
    d.length ≤ (dictSet d k v).length := by
  unfold dictSet
  split
  · simp
  · simp

theorem dictSet_ne_nil (d : List (String × α)) (k : String) (v : α) :
    dictSet d k v ≠ [] := by
  unfold dictSet
  split
  · rename_i hany
    intro hnil
    rw [List.map_eq_nil_iff] at hnil
    subst hnil
    simp at hany
  · simp

theorem merchFold_byId_le (e : Env) :
    ∀ (ms : List Merchant) (acc : List Row × List (String × Merchant) × Ctr),
      acc.2.1.length ≤ ((ms.foldl (fun acc m => merchOne e m acc) acc).2.1).length := by
  intro ms
  induction ms with
  | nil => intro acc; simp
  | cons m rest ih =>
    intro acc
    rw [List.foldl_cons]
    refine le_trans ?_ (ih (merchOne e m acc))
    simp only [merchOne]
    split
    · exact dictSet_length _ _ _
    · exact le_refl _

theorem merchStage_byId (e : Env) (cfg : Config) (merchants : List Merchant)
    (byId : List (String × Merchant)) (c : Ctr) :
    (merchStage e cfg merchants byId c).2.1 = (merchLoop e merchants byId c).2.1 := rfl

theorem merchStage_byId_ne {e : Env} {cfg : Config} {merchants : List Merchant}
    {byId : List (String × Merchant)} {c : Ctr} (hne : byId ≠ []) :
    (merchStage e cfg merchants byId c).2.1 ≠ [] := by
  rw [merchStage_byId]
  have hle := merchFold_byId_le e merchants ([], byId, c)
  intro hnil
  rw [merchLoop] at hnil
  rw [hnil] at hle
  simp at hle
  exact hne hle

theorem dayStep_some {e : Env} {cfg : Config} {d : ℕ} {st : RunSt} (hU : ValidS e.U)
    (h1 : cfg.disb_rate ≤ 1) (hinv : cfg.invalid_rate ≤ 0) (hne : st.byId ≠ []) :
    ∃ f st', dayStep e cfg d st = some (f, st') ∧ st'.byId ≠ [] := by
  have hne1 : (merchStage e cfg st.merchants st.byId st.c).2.1 ≠ [] :=
    merchStage_byId_ne hne
  obtain ⟨aRows, carryA, cA, hA⟩ := @appStage_some e cfg
    (cfg.start_date + (d : ℤ)) (merchStage e cfg st.merchants st.byId st.c).2.1
    st.carryApps (merchStage e cfg st.merchants st.byId st.c).2.2 hU hne1
  obtain ⟨dRows, cD, hD⟩ := @disbStage_some e cfg
    (cfg.start_date + (d : ℤ)) aRows cA h1
  have hok := disbStage_ok hU hinv hD
  obtain ⟨pRows, carryP, cP, hP⟩ := @payStage_some e cfg
    (cfg.start_date + (d : ℤ)) dRows st.carryPays cD hok
  refine ⟨⟨includeHeaderMerch cfg d, (merchStage e cfg st.merchants st.byId st.c).1,
    true, aRows, includeHeaderDisb cfg d, dRows, true, pRows⟩,
    ⟨st.merchants, (merchStage e cfg st.merchants st.byId st.c).2.1,
    carryA, carryP, cP⟩, ?_, hne1⟩
  simp only [dayStep, hA, hD, hP]

theorem mainLoop_some {e : Env} {cfg : Config} (hU : ValidS e.U)
    (h1 : cfg.disb_rate ≤ 1) (hinv : cfg.invalid_rate ≤ 0) :
    ∀ (n d : ℕ) (acc : List DayFiles) (st : RunSt), st.byId ≠ [] →
      ∃ days st', mainLoop e cfg d n acc st = some (days, st') := by
  intro n
  induction n with
  | zero => exact fun d acc st _ => ⟨acc, st, rfl⟩
  | succ k ih =>
    intro d acc st hne
    obtain ⟨f, st', hstep, hne'⟩ := dayStep_some (d := d) hU h1 hinv hne
    simp only [mainLoop, hstep]
    exact ih _ _ _ hne'

theorem genMerchFold_length (e : Env) (cfg : Config) :
    ∀ (l : List ℕ) (acc : List Merchant × Ctr),
      ((l.foldl (fun acc i =>
        let p := genMerchOne e cfg i acc.2
        (acc.1 ++ [p.1], p.2)) acc).1).length = acc.1.length + l.length := by
  intro l
  induction l with
  | nil => intro acc; simp
  | cons a t ih =>
    intro acc
    rw [List.foldl_cons, ih]
    simp
    omega

theorem gen_merchants_length (e : Env) (cfg : Config) (c : Ctr) :
    ((gen_merchants e cfg c).1).length = cfg.num_merchants.toNat := by
  unfold gen_merchants
  rw [genMerchFold_length]
  simp

theorem byId_build_ne_nil :
    ∀ (l : List Merchant) (d : List (String × Merchant)), l ≠ [] ∨ d ≠ [] →
      l.foldl (fun d m => dictSet d m.merchant_id m) d ≠ [] := by
  intro l
  induction l with
  | nil =>
    intro d h
    rcases h with h | h
    · exact absurd rfl h
    · simpa using h
  | cons m rest ih =>
    intro d h
    rw [List.foldl_cons]
    exact ih _ (Or.inr (dictSet_ne_nil _ _ _))

/-- A configuration with an empty merchant pool and one application
per day: the application stage must sample from an empty pool. -/
def cfgEmptyPool : Config :=
  { start_date := 0, num_days := 1, num_merchants := 0, apps_per_day := 1,
    disb_rate := 0, pays_per_disb := 0, no_header_every_n_days := 3,
    duplicate_rate := 0, invalid_rate := 0, broken_ref_rate := 0,
    late_arrival_rate := 0, seed := 0 }

/-- A configuration whose four noise rates are all negative, with a
non-empty pool. -/
def cfgNegRates : Config :=
  { start_date := 0, num_days := 2, num_merchants := 1, apps_per_day := 1,
    disb_rate := 1 / 2, pays_per_disb := 1, no_header_every_n_days := 3,
    duplicate_rate := -(1 / 2), invalid_rate := -(1 / 2), broken_ref_rate := -(1 / 2),
    late_arrival_rate := -(1 / 2), seed := 0 }

/-- C6 counterexample: with `num_merchants = 0` and `apps_per_day = 1`
the run fails (`random.choice` raises `IndexError` on the empty pool),
so the generator does not degrade gracefully for every such
configuration. -/
theorem C6_counterexample : main zeroEnv cfgEmptyPool = none := by
  norm_num [main, mainLoop, dayStep, merchStage, merchLoop, merchOne, mutate_merchant,
    appStage, appLoop, genAppOne, appResurface, statusChoice, sample_merch,
    disbStage, disbLoop, genDisbOne, payStage, payDisbLoop, payKLoop, genPayOne,
    payResurface, pyShuffle, shuffleGo, listSwap, isApproved, gen_merchants,
    genMerchOne, merchRowOf, pad4, uuid4, rand, chance, pyUniform, pyRandint,
    randIndex, pyChoice?, pyChoiceD, pyFloat, fromisoformat, dictSet, dictLookup,
    dictValues, round2, round4, clamp, pyInt, invalidMerchRow, invalidAppRow,
    zeroEnv, cfgEmptyPool, includeHeaderMerch, includeHeaderDisb,
    STATES, INDUSTRIES, PURPOSES, SCHEDULES, PAY_METHODS]

/-- C6 amended: a negative rate itself degrades gracefully — with a
non-empty pool, `disb_rate ≤ 1` and the invalid-row injection unable to
fire, the run completes for any valid stream (in particular when the
duplicate, invalid, broken-reference and late-arrival rates are all
negative); but an empty pool with a positive `apps_per_day` fails, see
the counterexample. -/
theorem C6_amended_graceful (e : Env) (cfg : Config) (hU : ValidS e.U)
    (hm : 0 < cfg.num_merchants) (h1 : cfg.disb_rate ≤ 1)
    (hinv : cfg.invalid_rate ≤ 0) : (main e cfg).isSome = true := by
  have hlen := gen_merchants_length e cfg ⟨0, 0⟩
  have hmne : (gen_merchants e cfg ⟨0, 0⟩).1 ≠ [] := by
    intro h
    rw [h] at hlen
    simp only [List.length_nil] at hlen
    omega
  have hbyid : ((gen_merchants e cfg ⟨0, 0⟩).1).foldl
      (fun d m => dictSet d m.merchant_id m) [] ≠ [] :=
    byId_build_ne_nil _ _ (Or.inl hmne)
  obtain ⟨days, st', heq⟩ := mainLoop_some hU h1 hinv cfg.num_days.toNat 0 []
    ⟨(gen_merchants e cfg ⟨0, 0⟩).1,
     ((gen_merchants e cfg ⟨0, 0⟩).1).foldl (fun d m => dictSet d m.merchant_id m) [],
     [], [], (gen_merchants e cfg ⟨0, 0⟩).2⟩ hbyid
  simp only [main, heq, Option.isSome_some]

/-- Witness for the amended C6 at the all-negative-rates config. -/
theorem C6_amended_graceful_witness :
    (ValidS zeroEnv.U ∧ 0 < cfgNegRates.num_merchants ∧ cfgNegRates.disb_rate ≤ 1 ∧
      cfgNegRates.invalid_rate ≤ 0) ∧ (main zeroEnv cfgNegRates).isSome = true :=
  ⟨⟨zeroEnv_valid, by norm_num [cfgNegRates], by norm_num [cfgNegRates],
    by norm_num [cfgNegRates]⟩,
   C6_amended_graceful zeroEnv cfgNegRates zeroEnv_valid (by norm_num [cfgNegRates])
     (by norm_num [cfgNegRates]) (by norm_num [cfgNegRates])⟩

/-! Disbursed amounts against requested amounts (claim C8). -/

theorem genDisbOne_amount {e : Env} {cfg : Config} {batch : ℤ} {appRow : Row} {c : Ctr}
    (hU : ValidS e.U) {q : ℚ} (hq : appRow.getD 3 (.str "") = Field.dec2 q)
    (h0 : 0 ≤ q) (hfix : round2 q = q) :
    pyFloat ((genDisbOne e cfg batch appRow c).1.getD 3 (.str "")) ≤
      pyFloat (appRow.getD 3 (.str "")) := by
  simp only [genDisbOne, hq, List.getD_cons_succ, List.getD_cons_zero, pyFloat]
  apply round2_le_of_fix hfix
  obtain ⟨hf1, -⟩ := pyUniform_le (a := 85 / 100) (b := 1)
    (c := (if (chance e cfg.late_arrival_rate (uuid4 e c).2).1 = true then
      pyRandint e 1 20 (chance e cfg.late_arrival_rate (uuid4 e c).2).2
      else pyRandint e 0 2 (chance e cfg.late_arrival_rate (uuid4 e c).2).2).2)
    hU (by norm_num)
  have hf2 := pyUniform_lt (a := 85 / 100) (b := 1)
    (c := (if (chance e cfg.late_arrival_rate (uuid4 e c).2).1 = true then
      pyRandint e 1 20 (chance e cfg.late_arrival_rate (uuid4 e c).2).2
      else pyRandint e 0 2 (chance e cfg.late_arrival_rate (uuid4 e c).2).2).2)
    hU (by norm_num)
  nlinarith

/-- C8: with the invalid row unable to fire, every row of the
disbursement stage derives from an APPROVED application row of the same
day's applications list, and its amount field is at most that row's
requested amount (given that the approved rows carry well-formed
two-decimal non-negative amounts, as all generated rows do). -/
theorem C8_disb_amount_le (e : Env) (cfg : Config) (batch : ℤ) (appsRows : List Row)
    (c : Ctr) (hU : ValidS e.U) (hinv : cfg.invalid_rate ≤ 0)
    (happs : ∀ r ∈ appsRows, isApproved r = true →
      ∃ q, r.getD 3 (.str "") = Field.dec2 q ∧ 0 ≤ q ∧ round2 q = q)
    {rows' : List Row} {c' : Ctr}
    (h : disbStage e cfg batch appsRows c = some (rows', c')) :
    ∀ row ∈ rows', ∃ app ∈ appsRows, isApproved app = true ∧
      pyFloat (row.getD 3 (.str "")) ≤ pyFloat (app.getD 3 (.str "")) := by
  simp only [disbStage] at h
  split at h
  · exact Option.noConfusion h
  · rename_i rows0 c0 heq0
    rw [chance_false hU hinv] at h
    simp only [Bool.false_eq_true, if_false, Option.some_inj, Prod.mk.injEq] at h
    obtain ⟨rfl, -⟩ := h
    intro row hrow
    rcases disbLoop_prov _ _ _ _ heq0 row hrow with hmem | ⟨a, ha, c1, rfl⟩
    · exact absurd hmem (List.not_mem_nil _)
    · have ha' : a ∈ appsRows.filter isApproved := pyShuffle_subset _ _ _ ha
      have hmem := List.mem_filter.mp ha'
      obtain ⟨q, hq, h0, hfix⟩ := happs a hmem.1 hmem.2
      exact ⟨a, hmem.1, hmem.2, genDisbOne_amount hU hq h0 hfix⟩

/-- A concrete approved application row. -/
def appRowW : Row :=
  [.str "a", .str "m", .date 0, .dec2 100, .str "INVENTORY", .str "APPROVED",
   .int 700, .ts 0 2 0]

/-- A configuration that disburses every approved application. -/
def cfgFull : Config :=
  { start_date := 0, num_days := 1, num_merchants := 1, apps_per_day := 1,
    disb_rate := 1, pays_per_disb := 1, no_header_every_n_days := 3,
    duplicate_rate := 0, invalid_rate := 0, broken_ref_rate := 0,
    late_arrival_rate := 0, seed := 0 }

/-- The concrete disbursement stage output over `[appRowW]`. -/
def disbOutW : List Row × Ctr :=
  (disbStage zeroEnv cfgFull 0 [appRowW] ⟨0, 0⟩).getD ([], ⟨0, 0⟩)

theorem disbOutW_eq : disbStage zeroEnv cfgFull 0 [appRowW] ⟨0, 0⟩ = some disbOutW :=
  eq_some_getD (by
    norm_num [disbStage, disbLoop, genDisbOne, pyShuffle, shuffleGo, listSwap,
      isApproved, uuid4, rand, chance, pyUniform, pyRandint, randIndex, pyChoice?,
      pyChoiceD, pyFloat, round2, round4, pyInt, zeroEnv, cfgFull, appRowW, SCHEDULES])

/-- Witness for C8 at the concrete one-row applications list. -/
theorem C8_disb_amount_le_witness :
    (ValidS zeroEnv.U ∧ cfgFull.invalid_rate ≤ 0 ∧
      (∀ r ∈ [appRowW], isApproved r = true →
        ∃ q, r.getD 3 (.str "") = Field.dec2 q ∧ 0 ≤ q ∧ round2 q = q) ∧
      disbStage zeroEnv cfgFull 0 [appRowW] ⟨0, 0⟩ = some disbOutW) ∧
    (∀ row ∈ disbOutW.1, ∃ app ∈ [appRowW], isApproved app = true ∧
      pyFloat (row.getD 3 (.str "")) ≤ pyFloat (app.getD 3 (.str ""))) :=
  ⟨⟨zeroEnv_valid, by norm_num [cfgFull],
    by
      intro r hr _
      rcases List.mem_singleton.mp hr with rfl
      exact ⟨100, rfl, by norm_num, by norm_num [round2]⟩,
    disbOutW_eq⟩,
   C8_disb_amount_le zeroEnv cfgFull 0 [appRowW] ⟨0, 0⟩ zeroEnv_valid
     (by norm_num [cfgFull])
     (by
       intro r hr _
       rcases List.mem_singleton.mp hr with rfl
       exact ⟨100, rfl, by norm_num, by norm_num [round2]⟩)
     disbOutW_eq⟩

/-! Dictionary lemmas and the merchant-snapshot fold (claim C2). -/

theorem lookup_map_set_self (d : List (String × α)) (k : String) (v : α)
    (h : d.any (fun p => p.1 == k) = true) :
    dictLookup (d.map (fun p => if p.1 = k then (k, v) else p)) k = some v := by
  induction d with
  | nil => simp at h
  | cons p rest ih =>
    by_cases hp : p.1 = k
    · simp [dictLookup, hp]
    · have hrest : rest.any (fun p => p.1 == k) = true := by
        simpa [hp] using h
      simp [dictLookup, hp, ih hrest]

theorem lookup_map_set_ne (d : List (String × α)) (k k' : String) (v : α)
    (hne : k' ≠ k) :
    dictLookup (d.map (fun p => if p.1 = k then (k, v) else p)) k' =
      dictLookup d k' := by
  induction d with
  | nil => rfl
  | cons p rest ih =>
    by_cases hp : p.1 = k
    · have hp' : ¬ k = k' := fun h => hne h.symm
      simp [dictLookup, hp, hp', ih]
    · simp [dictLookup, hp, ih]

theorem lookup_append_single_self (d : List (String × α)) (k : String) (v : α)
    (h : d.any (fun p => p.1 == k) = false) :
    dictLookup (d ++ [(k, v)]) k = some v := by
  induction d with
  | nil => simp [dictLookup]
  | cons p rest ih =>
    simp only [List.any_cons, Bool.or_eq_false_iff] at h
    obtain ⟨hp, hrest⟩ := h
    have hp' : ¬ p.1 = k := fun hkp => by simp [hkp] at hp
    simpa [dictLookup, hp'] using ih hrest

theorem lookup_append_single_ne (d : List (String × α)) (k k' : String) (v : α)
    (hne : k' ≠ k) : dictLookup (d ++ [(k, v)]) k' = dictLookup d k' := by
  induction d with
  | nil =>
    simp only [List.nil_append, dictLookup]
    exact if_neg (fun h => hne h.symm)
  | cons p rest ih =>
    by_cases hq : p.1 = k'
    · simp [dictLookup, hq]
    · simp [dictLookup, hq, ih]

theorem dictLookup_dictSet_self (d : List (String × α)) (k : String) (v : α) :
    dictLookup (dictSet d k v) k = some v := by
  unfold dictSet
  split
  · rename_i h
    exact lookup_map_set_self d k v h
  · rename_i h
    exact lookup_append_single_self d k v (Bool.eq_false_iff.mpr h)

theorem dictLookup_dictSet_ne (d : List (String × α)) (k k' : String) (v : α)
    (hne : k' ≠ k) : dictLookup (dictSet d k v) k' = dictLookup d k' := by
  unfold dictSet
  split
  · exact lookup_map_set_ne d k k' v hne
  · exact lookup_append_single_ne d k k' v hne

theorem mutate_merchant_id (e : Env) (m : Merchant) (c : Ctr) :
    ((mutate_merchant e m c).1).merchant_id = m.merchant_id := by
  simp only [mutate_merchant]
  split <;> rfl

theorem merchOne_false {e : Env} {m : Merchant} (rows : List Row)
    (byId : List (String × Merchant)) (c : Ctr)
    (hc : (chance e (8 / 100) c).1 = false) :
    merchOne e m (rows, byId, c) =
      (rows ++ [merchRowOf m], byId, (chance e (8 / 100) c).2) := by
  simp [merchOne, hc]

theorem merchOne_true {e : Env} {m : Merchant} (rows : List Row)
    (byId : List (String × Merchant)) (c : Ctr)
    (hc : (chance e (8 / 100) c).1 = true) :
    merchOne e m (rows, byId, c) =
      (rows ++ [merchRowOf (mutate_merchant e m (chance e (8 / 100) c).2).1],
       dictSet byId m.merchant_id (mutate_merchant e m (chance e (8 / 100) c).2).1,
       (mutate_merchant e m (chance e (8 / 100) c).2).2) := by
  simp [merchOne, hc]

theorem merchLoop_indep (e : Env) :
    ∀ (ms : List Merchant) (rows : List Row) (byId₁ byId₂ : List (String × Merchant))
      (c : Ctr),
      (ms.foldl (fun acc m => merchOne e m acc) (rows, byId₁, c)).1 =
        (ms.foldl (fun acc m => merchOne e m acc) (rows, byId₂, c)).1 ∧
      (ms.foldl (fun acc m => merchOne e m acc) (rows, byId₁, c)).2.2 =
        (ms.foldl (fun acc m => merchOne e m acc) (rows, byId₂, c)).2.2 := by
  intro ms
  induction ms with
  | nil => exact fun rows byId₁ byId₂ c => ⟨rfl, rfl⟩
  | cons m rest ih =>
    intro rows byId₁ byId₂ c
    rw [List.foldl_cons, List.foldl_cons]
    cases hc : (chance e (8 / 100) c).1
    · rw [merchOne_false rows byId₁ c hc, merchOne_false rows byId₂ c hc]
      exact ih _ _ _ _
    · rw [merchOne_true rows byId₁ c hc, merchOne_true rows byId₂ c hc]
      exact ih _ _ _ _

theorem merchFold_lookup_preserve (e : Env) :
    ∀ (ms : List Merchant) (rows : List Row) (byId : List (String × Merchant))
      (c : Ctr) (k : String), (∀ m ∈ ms, m.merchant_id ≠ k) →
      dictLookup ((ms.foldl (fun acc m => merchOne e m acc) (rows, byId, c)).2.1) k =
        dictLookup byId k := by
  intro ms
  induction ms with
  | nil => intro rows byId c k _; rfl
  | cons m rest ih =>
    intro rows byId c k hk
    rw [List.foldl_cons]
    cases hc : (chance e (8 / 100) c).1
    · rw [merchOne_false rows byId c hc]
      exact ih _ _ _ _ (fun m' hm' => hk m' (List.mem_cons_of_mem _ hm'))
    · rw [merchOne_true rows byId c hc,
        ih _ _ _ _ (fun m' hm' => hk m' (List.mem_cons_of_mem _ hm'))]
      exact dictLookup_dictSet_ne _ _ _ _ (Ne.symm (hk m (List.mem_cons_self _ _)))

theorem merchFold_spec (e : Env) :
    ∀ (ms : List Merchant) (rows : List Row) (byId : List (String × Merchant)) (c : Ctr),
      (ms.map Merchant.merchant_id).Nodup →
      ∃ rows',
        (ms.foldl (fun acc m => merchOne e m acc) (rows, byId, c)).1 = rows ++ rows' ∧
        List.Forall₂ (fun (m : Merchant) (row : Row) =>
          row = merchRowOf m ∨
          ∃ m', row = merchRowOf m' ∧ m'.merchant_id = m.merchant_id ∧
            dictLookup ((ms.foldl (fun acc m => merchOne e m acc) (rows, byId, c)).2.1)
              m.merchant_id = some m') ms rows' := by
  intro ms
  induction ms with
  | nil => exact fun rows byId c _ => ⟨[], by simp, List.Forall₂.nil⟩
  | cons m rest ih =>
    intro rows byId c hnd
    rw [List.map_cons, List.nodup_cons] at hnd
    obtain ⟨hm_nin, hnd'⟩ := hnd
    have hkeys : ∀ m' ∈ rest, m'.merchant_id ≠ m.merchant_id := by
      intro m' hm' h
      exact hm_nin (h ▸ List.mem_map_of_mem Merchant.merchant_id hm')
    rw [List.foldl_cons]
    cases hc : (chance e (8 / 100) c).1
    · rw [merchOne_false rows byId c hc]
      obtain ⟨rows', heq, hfa⟩ := ih (rows ++ [merchRowOf m]) byId
        (chance e (8 / 100) c).2 hnd'
      refine ⟨merchRowOf m :: rows', by rw [heq]; simp, ?_⟩
      exact List.Forall₂.cons (Or.inl rfl) hfa
    · rw [merchOne_true rows byId c hc]
      obtain ⟨rows', heq, hfa⟩ := ih
        (rows ++ [merchRowOf (mutate_merchant e m (chance e (8 / 100) c).2).1])
        (dictSet byId m.merchant_id (mutate_merchant e m (chance e (8 / 100) c).2).1)
        (mutate_merchant e m (chance e (8 / 100) c).2).2 hnd'
      refine ⟨merchRowOf (mutate_merchant e m (chance e (8 / 100) c).2).1 :: rows',
        by rw [heq]; simp, ?_⟩
      refine List.Forall₂.cons (Or.inr ⟨(mutate_merchant e m (chance e (8 / 100) c).2).1,
        rfl, mutate_merchant_id e m _, ?_⟩) hfa
      rw [merchFold_lookup_preserve e rest _ _ _ _ hkeys]
      exact dictLookup_dictSet_self _ _ _

/-- Two days, one merchant, no applications; the drift configuration
for the C2 counterexample. -/
def cfgDrift : Config :=
  { start_date := 0, num_days := 2, num_merchants := 1, apps_per_day := 0,
    disb_rate := 0, pays_per_disb := 0, no_header_every_n_days := 3,
    duplicate_rate := 0, invalid_rate := 0, broken_ref_rate := 0,
    late_arrival_rate := 0, seed := 0 }

/-- A stream that sets the merchant's initial risk score to `0.50`
(raw draw 4), fires the day-0 mutation (draws 6-8, drifting the risk
score to `0.40`), and does not fire the day-1 mutation (draw 14 is
`1/2`, not below `0.08`). -/
def envDrift : Env :=
  ⟨fun n => if n = 4 then 1 / 2 else if n = 14 then 1 / 2 else 0, idsLit⟩

theorem pad4_zero : "Merchant " ++ pad4 0 = "Merchant 0000" := by decide

theorem drift_gen : gen_merchants envDrift cfgDrift ⟨0, 0⟩ =
    ([⟨"id0", "Merchant 0000", "42310", "CA", 50000, 1, 1 / 2, -30⟩], ⟨6, 1⟩) := by
  norm_num [gen_merchants, genMerchOne, pad4_zero, uuid4, rand, chance, pyUniform,
    pyRandint, randIndex, pyChoice?, pyChoiceD, round2, clamp, envDrift, idsLit,
    cfgDrift, STATES, INDUSTRIES, List.range_succ, List.range_zero]

theorem drift_day0 : dayStep envDrift cfgDrift 0
    ⟨[⟨"id0", "Merchant 0000", "42310", "CA", 50000, 1, 1 / 2, -30⟩],
     [("id0", ⟨"id0", "Merchant 0000", "42310", "CA", 50000, 1, 1 / 2, -30⟩)],
     [], [], ⟨6, 1⟩⟩ =
    some (⟨true,
           [[.str "id0", .str "Merchant 0000", .str "42310", .str "CA", .dec2 50000,
             .int 1, .dec2 (2 / 5), .date (-30)]],
           true, [], true, [], true, []⟩,
          ⟨[⟨"id0", "Merchant 0000", "42310", "CA", 50000, 1, 1 / 2, -30⟩],
           [("id0", ⟨"id0", "Merchant 0000", "42310", "CA", 50000, 1, 2 / 5, -30⟩)],
           [], [], ⟨14, 1⟩⟩) := by
  norm_num [dayStep, merchStage, merchLoop, merchOne, mutate_merchant, appStage,
    appLoop, disbStage, disbLoop, payStage, payDisbLoop, pyShuffle, shuffleGo,
    listSwap, isApproved, merchRowOf, uuid4, rand, chance, pyUniform, pyRandint,
    randIndex, pyChoice?, pyChoiceD, round2, clamp, pyInt, dictSet, envDrift, idsLit,
    cfgDrift, includeHeaderMerch, includeHeaderDisb, Int.fmod_eq_emod]

theorem drift_day1 : dayStep envDrift cfgDrift 1
    ⟨[⟨"id0", "Merchant 0000", "42310", "CA", 50000, 1, 1 / 2, -30⟩],
     [("id0", ⟨"id0", "Merchant 0000", "42310", "CA", 50000, 1, 2 / 5, -30⟩)],
     [], [], ⟨14, 1⟩⟩ =
    some (⟨false,
           [[.str "id0", .str "Merchant 0000", .str "42310", .str "CA", .dec2 50000,
             .int 1, .dec2 (1 / 2), .date (-30)]],
           true, [], true, [], true, []⟩,
          ⟨[⟨"id0", "Merchant 0000", "42310", "CA", 50000, 1, 1 / 2, -30⟩],
           [("id0", ⟨"id0", "Merchant 0000", "42310", "CA", 50000, 1, 2 / 5, -30⟩)],
           [], [], ⟨20, 1⟩⟩) := by
  norm_num [dayStep, merchStage, merchLoop, merchOne, mutate_merchant, appStage,
    appLoop, disbStage, disbLoop, payStage, payDisbLoop, pyShuffle, shuffleGo,
    listSwap, isApproved, merchRowOf, uuid4, rand, chance, pyUniform, pyRandint,
    randIndex, pyChoice?, pyChoiceD, round2, clamp, pyInt, dictSet, envDrift, idsLit,
    cfgDrift, includeHeaderMerch, includeHeaderDisb, Int.fmod_eq_emod]

theorem mainDrift_eq : main envDrift cfgDrift =
    some ⟨[⟨true,
            [[.str "id0", .str "Merchant 0000", .str "42310", .str "CA", .dec2 50000,
              .int 1, .dec2 (2 / 5), .date (-30)]],
            true, [], true, [], true, []⟩,
           ⟨false,
            [[.str "id0", .str "Merchant 0000", .str "42310", .str "CA", .dec2 50000,
              .int 1, .dec2 (1 / 2), .date (-30)]],
            true, [], true, [], true, []⟩],
          [⟨"id0", "Merchant 0000", "42310", "CA", 50000, 1, 1 / 2, -30⟩],
          [("id0", ⟨"id0", "Merchant 0000", "42310", "CA", 50000, 1, 2 / 5, -30⟩)],
          [], []⟩ := by
  have hnd : cfgDrift.num_days.toNat = 2 := rfl
  simp only [main, drift_gen, hnd, List.foldl_cons, List.foldl_nil, dictSet,
    List.any_nil, Bool.false_eq_true, if_false, List.nil_append, mainLoop,
    zero_add, drift_day0, drift_day1, List.cons_append, List.singleton_append,
    List.append_nil]

/-- C2 counterexample: on day 0 the merchant's risk score drifts from
`0.50` to `0.40` and the drifted merchant is recorded in
`merchant_by_id`, but the day-1 merchants file (no further mutation
that day) emits the original `0.50` — the drift is not persisted into
the pool list that the snapshot stage iterates, contradicting the
claim that every later day's file shows the drifted value. -/
theorem C2_counterexample :
    ∃ out, main envDrift cfgDrift = some out ∧
    ((out.days.getD 0 default).merchRows.getD 0 []).getD 6 (.str "") =
      Field.dec2 (2 / 5) ∧
    ((out.days.getD 1 default).merchRows.getD 0 []).getD 6 (.str "") =
      Field.dec2 (1 / 2) ∧
    (dictLookup out.merchant_by_id "id0").map Merchant.risk_score = some (2 / 5) ∧
    Field.dec2 (1 / 2) ≠ Field.dec2 (2 / 5) := by
  refine ⟨_, mainDrift_eq, ?_, ?_, ?_, ?_⟩ <;>
    norm_num [dictLookup, List.getD]

/-- C2 amended: the snapshot stage's emitted rows do not depend on the
drifted `merchant_by_id` map (the next day's snapshot re-reads the
original pool list), and each emitted row is either the pool
merchant's row unchanged or a single fresh mutation of it whose value
is persisted — under its unchanged merchant id — into `merchant_by_id`
only, where the application stage samples. -/
theorem C2_amended_drift (e : Env) (cfg : Config) (merchants : List Merchant)
    (byId₁ byId₂ byId : List (String × Merchant)) (c : Ctr)
    (hnd : (merchants.map Merchant.merchant_id).Nodup) :
    ((merchStage e cfg merchants byId₁ c).1 = (merchStage e cfg merchants byId₂ c).1) ∧
    List.Forall₂ (fun (m : Merchant) (row : Row) =>
        row = merchRowOf m ∨
        ∃ m', row = merchRowOf m' ∧ m'.merchant_id = m.merchant_id ∧
          dictLookup ((merchLoop e merchants byId c).2.1) m.merchant_id = some m')
      merchants ((merchLoop e merchants byId c).1) := by
  constructor
  · have h1 := merchLoop_indep e merchants [] byId₁ byId₂ c
    simp only [merchStage, merchLoop]
    rw [h1.1, h1.2]
  · obtain ⟨rows', heq, hfa⟩ := merchFold_spec e merchants [] byId c hnd
    simp only [merchLoop]
    rw [heq]
    simpa using hfa

/-- A two-merchant pool with distinct ids, for the C2 witness. -/
def merchPoolW : List Merchant :=
  [{ merchant_id := "m1", business_name := "Merchant 0001", industry_code := "42310",
     state_code := "CA", annual_revenue := 50000, employees_count := 3,
     risk_score := 1 / 2, onboarding_date := -30 },
   { merchant_id := "m2", business_name := "Merchant 0002", industry_code := "44512",
     state_code := "TX", annual_revenue := 60000, employees_count := 5,
     risk_score := 1 / 4, onboarding_date := -60 }]

/-- Witness for the amended C2 on the concrete two-merchant pool. -/
theorem C2_amended_drift_witness :
    ((merchPoolW.map Merchant.merchant_id).Nodup) ∧
    (((merchStage zeroEnv cfgTwoDays merchPoolW [] ⟨0, 0⟩).1 =
        (merchStage zeroEnv cfgTwoDays merchPoolW [("m1", merchPoolW.getD 1 default)]
          ⟨0, 0⟩).1) ∧
      List.Forall₂ (fun (m : Merchant) (row : Row) =>
          row = merchRowOf m ∨
          ∃ m', row = merchRowOf m' ∧ m'.merchant_id = m.merchant_id ∧
            dictLookup ((merchLoop zeroEnv merchPoolW [] ⟨0, 0⟩).2.1) m.merchant_id =
              some m')
        merchPoolW ((merchLoop zeroEnv merchPoolW [] ⟨0, 0⟩).1)) :=
  ⟨by simp [merchPoolW],
   C2_amended_drift zeroEnv cfgTwoDays merchPoolW []
     [("m1", merchPoolW.getD 1 default)] [] ⟨0, 0⟩ (by simp [merchPoolW])⟩

/-! Claim C3: the carry-state maps after the application and payment
stages. -/

/-- Two days, one merchant, one application per day, every noise rate
zero; the configuration of the C3 counterexample. -/
def cfg3 : Config :=
  { start_date := 0, num_days := 2, num_merchants := 1, apps_per_day := 1,
    disb_rate := 0, pays_per_disb := 0, no_header_every_n_days := 3,
    duplicate_rate := 0, invalid_rate := 0, broken_ref_rate := 0,
    late_arrival_rate := 0, seed := 0 }

theorem c3_gen : gen_merchants zeroEnv cfg3 ⟨0, 0⟩ =
    ([⟨"id0", "Merchant 0000", "42310", "CA", 50000, 1, 0, -30⟩], ⟨6, 1⟩) := by
  norm_num [gen_merchants, genMerchOne, pad4_zero, uuid4, rand, chance, pyUniform,
    pyRandint, randIndex, pyChoice?, pyChoiceD, round2, clamp, zeroEnv, idsLit,
    cfg3, STATES, INDUSTRIES, List.range_succ, List.range_zero]

theorem c3_day0 : dayStep zeroEnv cfg3 0
    ⟨[⟨"id0", "Merchant 0000", "42310", "CA", 50000, 1, 0, -30⟩],
     [("id0", ⟨"id0", "Merchant 0000", "42310", "CA", 50000, 1, 0, -30⟩)],
     [], [], ⟨6, 1⟩⟩ =
    some (⟨true,
           [[.str "id0", .str "Merchant 0000", .str "42310", .str "CA", .dec2 50000,
             .int 1, .dec2 0, .date (-30)]],
           true,
           [[.str "id1", .str "id0", .date 0, .dec2 5000, .str "INVENTORY",
             .str "PENDING", .int 300, .ts 0 2 0]],
           true, [], true, []⟩,
          ⟨[⟨"id0", "Merchant 0000", "42310", "CA", 50000, 1, 0, -30⟩],
           [("id0", ⟨"id0", "Merchant 0000", "42310", "CA", 50000, 1, 0, -30⟩)],
           [("id1", [.str "id1", .str "id0", .date 0, .dec2 5000, .str "INVENTORY",
                     .str "PENDING", .int 300, .ts 0 2 0])],
           [], ⟨23, 2⟩⟩) := by
  norm_num [dayStep, merchStage, merchLoop, merchOne, mutate_merchant,
    appStage, appLoop, genAppOne, appResurface, statusChoice, sample_merch,
    disbStage, disbLoop, genDisbOne, payStage, payDisbLoop, payKLoop, genPayOne,
    payResurface, pyShuffle, shuffleGo, listSwap, isApproved, merchRowOf,
    uuid4, rand, chance, pyUniform, pyRandint,
    randIndex, pyChoice?, pyChoiceD, pyFloat, fromisoformat, dictSet, dictLookup,
    dictValues, round2, round4, clamp, pyInt, invalidMerchRow, invalidAppRow,
    zeroEnv, idsLit, cfg3, includeHeaderMerch, includeHeaderDisb, Int.fmod_eq_emod,
    STATES, INDUSTRIES, PURPOSES, SCHEDULES, PAY_METHODS]

theorem id1_ne_id2 : ¬ ("id1" : String) = "id2" := by decide

theorem c3_day1 : dayStep zeroEnv cfg3 1
    ⟨[⟨"id0", "Merchant 0000", "42310", "CA", 50000, 1, 0, -30⟩],
     [("id0", ⟨"id0", "Merchant 0000", "42310", "CA", 50000, 1, 0, -30⟩)],
     [("id1", [.str "id1", .str "id0", .date 0, .dec2 5000, .str "INVENTORY",
               .str "PENDING", .int 300, .ts 0 2 0])],
     [], ⟨23, 2⟩⟩ =
    some (⟨false,
           [[.str "id0", .str "Merchant 0000", .str "42310", .str "CA", .dec2 50000,
             .int 1, .dec2 0, .date (-30)]],
           true,
           [[.str "id1", .str "id0", .date 0, .dec2 5000, .str "INVENTORY",
             .str "APPROVED", .int 300, .ts 1 2 0],
            [.str "id2", .str "id0", .date 1, .dec2 5000, .str "INVENTORY",
             .str "PENDING", .int 300, .ts 1 2 0]],
           true, [], true, []⟩,
          ⟨[⟨"id0", "Merchant 0000", "42310", "CA", 50000, 1, 0, -30⟩],
           [("id0", ⟨"id0", "Merchant 0000", "42310", "CA", 50000, 1, 0, -30⟩)],
           [("id1", [.str "id1", .str "id0", .date 0, .dec2 5000, .str "INVENTORY",
                     .str "PENDING", .int 300, .ts 0 2 0]),
            ("id2", [.str "id2", .str "id0", .date 1, .dec2 5000, .str "INVENTORY",
                     .str "PENDING", .int 300, .ts 1 2 0])],
           [], ⟨43, 3⟩⟩) := by
  norm_num [dayStep, merchStage, merchLoop, merchOne, mutate_merchant,
    appStage, appLoop, genAppOne, appResurface, statusChoice, sample_merch,
    disbStage, disbLoop, genDisbOne, payStage, payDisbLoop, payKLoop, genPayOne,
    payResurface, pyShuffle, shuffleGo, listSwap, isApproved, merchRowOf,
    uuid4, rand, chance, pyUniform, pyRandint,
    randIndex, pyChoice?, pyChoiceD, pyFloat, fromisoformat, dictSet, dictLookup,
    dictValues, round2, round4, clamp, pyInt, invalidMerchRow, invalidAppRow,
    zeroEnv, idsLit, cfg3, includeHeaderMerch, includeHeaderDisb, Int.fmod_eq_emod,
    id1_ne_id2, STATES, INDUSTRIES, PURPOSES, SCHEDULES, PAY_METHODS]

theorem main3_eq : main zeroEnv cfg3 =
    some ⟨[⟨true,
            [[.str "id0", .str "Merchant 0000", .str "42310", .str "CA", .dec2 50000,
              .int 1, .dec2 0, .date (-30)]],
            true,
            [[.str "id1", .str "id0", .date 0, .dec2 5000, .str "INVENTORY",
              .str "PENDING", .int 300, .ts 0 2 0]],
            true, [], true, []⟩,
           ⟨false,
            [[.str "id0", .str "Merchant 0000", .str "42310", .str "CA", .dec2 50000,
              .int 1, .dec2 0, .date (-30)]],
            true,
            [[.str "id1", .str "id0", .date 0, .dec2 5000, .str "INVENTORY",
              .str "APPROVED", .int 300, .ts 1 2 0],
             [.str "id2", .str "id0", .date 1, .dec2 5000, .str "INVENTORY",
              .str "PENDING", .int 300, .ts 1 2 0]],
            true, [], true, []⟩],
          [⟨"id0", "Merchant 0000", "42310", "CA", 50000, 1, 0, -30⟩],
          [("id0", ⟨"id0", "Merchant 0000", "42310", "CA", 50000, 1, 0, -30⟩)],
          [("id1", [.str "id1", .str "id0", .date 0, .dec2 5000, .str "INVENTORY",
                    .str "PENDING", .int 300, .ts 0 2 0]),
           ("id2", [.str "id2", .str "id0", .date 1, .dec2 5000, .str "INVENTORY",
                    .str "PENDING", .int 300, .ts 1 2 0])],
          []⟩ := by
  have hnd : cfg3.num_days.toNat = 2 := rfl
  simp only [main, c3_gen, hnd, List.foldl_cons, List.foldl_nil, dictSet,
    List.any_nil, Bool.false_eq_true, if_false, List.nil_append, mainLoop,
    zero_add, c3_day0, c3_day1, List.cons_append, List.singleton_append,
    List.append_nil]

/-- C3 counterexample: on day 1 the carried day-0 application (id
`"id1"`, `PENDING`) is resurfaced with status flipped to `APPROVED` and
emitted as the first row of the day-1 applications file, but
`carry_apps["id1"]` still holds the original `PENDING` row — the
resurfaced row's updated content is never written back to the carry
map, contradicting the claimed overwrite. -/
theorem C3_counterexample :
    ∃ out, main zeroEnv cfg3 = some out ∧
    ((out.days.getD 1 default).appsRows.getD 0 []).getD 0 (.str "") =
      Field.str "id1" ∧
    ((out.days.getD 1 default).appsRows.getD 0 []).getD 5 (.str "") =
      Field.str "APPROVED" ∧
    (dictLookup out.carry_apps "id1").map (fun r => r.getD 5 (.str "")) =
      some (Field.str "PENDING") ∧
    dictLookup out.carry_apps "id1" ≠
      some ((out.days.getD 1 default).appsRows.getD 0 []) := by
  refine ⟨_, main3_eq, ?_, ?_, ?_, ?_⟩ <;>
    simp [dictLookup, List.getD]

/-! Identifier-cursor bookkeeping: which primitives consume uuid draws. -/

theorem uuid4_fst (e : Env) (c : Ctr) : (uuid4 e c).1 = e.IDS c.id := rfl

theorem uuid4_snd_id (e : Env) (c : Ctr) : ((uuid4 e c).2).id = c.id + 1 := rfl

theorem chance_snd_id (e : Env) (p : ℚ) (c : Ctr) : ((chance e p c).2).id = c.id := rfl

theorem pyUniform_snd_id (e : Env) (a b : ℚ) (c : Ctr) :
    ((pyUniform e a b c).2).id = c.id := rfl

theorem pyRandint_snd_id (e : Env) (a b : ℤ) (c : Ctr) :
    ((pyRandint e a b c).2).id = c.id := rfl

theorem pyChoiceD_snd_id (e : Env) (xs : List α) (d : α) (c : Ctr) :
    ((pyChoiceD e xs d c).2).id = c.id := rfl

theorem statusChoice_snd_id (e : Env) (c : Ctr) : ((statusChoice e c).2).id = c.id := rfl

theorem sample_merch_snd_id (e : Env) (ms : List Merchant) (c : Ctr) :
    ((sample_merch e ms c).2).id = c.id := rfl

theorem appResurface_snd_id (e : Env) (batch : ℤ) (carry : List (String × Row)) (c : Ctr) :
    ((appResurface e batch carry c).2).id = c.id := rfl

theorem payResurface_snd_id (e : Env) (batch : ℤ) (carry : List (String × Row)) (c : Ctr) :
    ((payResurface e batch carry c).2).id = c.id := rfl

/-! Further dictionary lemmas, for the carry-map analysis. -/

theorem dictLookup_append_left {d d' : List (String × α)} {k : String} {v : α}
    (h : dictLookup d k = some v) : dictLookup (d ++ d') k = some v := by
  induction d with
  | nil => simp [dictLookup] at h
  | cons p rest ih =>
    by_cases hp : p.1 = k
    · simpa [dictLookup, hp] using h
    · simp only [dictLookup, hp, if_false] at h
      simpa [dictLookup, hp] using ih h

theorem dictLookup_eq_none_of_forall {d : List (String × α)} {k : String}
    (h : ∀ p ∈ d, p.1 ≠ k) : dictLookup d k = none := by
  induction d with
  | nil => rfl
  | cons p rest ih =>
    simp only [dictLookup, h p (by simp), if_false]
    exact ih (fun q hq => h q (by simp [hq]))

theorem any_eq_false_of_lookup_none {d : List (String × α)} {k : String}
    (h : dictLookup d k = none) : d.any (fun p => p.1 == k) = false := by
  induction d with
  | nil => rfl
  | cons p rest ih =>
    simp only [dictLookup] at h
    by_cases hp : p.1 = k
    · simp [hp] at h
    · simp only [List.any_cons, Bool.or_eq_false_iff]
      exact ⟨by simp [hp], ih (by simpa [hp] using h)⟩

theorem dictSet_append_of_none {d : List (String × α)} {k : String} (v : α)
    (h : dictLookup d k = none) : dictSet d k v = d ++ [(k, v)] := by
  unfold dictSet
  rw [any_eq_false_of_lookup_none h]
  simp

theorem dictLookup_append_none {d d' : List (String × α)} {k : String}
    (h : dictLookup d k = none) (h' : dictLookup d' k = none) :
    dictLookup (d ++ d') k = none := by
  induction d with
  | nil => simpa
  | cons p rest ih =>
    simp only [dictLookup] at h
    by_cases hp : p.1 = k
    · simp [hp] at h
    · simp only [dictLookup, List.cons_append, hp, if_false] at ih ⊢
      exact ih (by simpa [hp] using h)

/-- A fresh application draws its id first: the id is the stream value
at the incoming cursor, it is stored at row position 0, and exactly one
uuid draw is consumed. -/
theorem genAppOne_spec {e : Env} {cfg : Config} {batch : ℤ}
    {byId : List (String × Merchant)} {c : Ctr} {appId : String} {row : Row} {c' : Ctr}
    (h : genAppOne e cfg batch byId c = some (appId, row, c')) :
    appId = e.IDS c.id ∧ row.getD 0 (.str "") = Field.str appId ∧ c'.id = c.id + 1 := by
  simp only [genAppOne] at h
  rcases hsm : (sample_merch e (dictValues byId) (uuid4 e c).2).1 with _ | m
  · rw [hsm] at h
    exact absurd h (by simp)
  · rw [hsm] at h
    simp only [Option.some.injEq, Prod.mk.injEq] at h
    obtain ⟨h1, h2, h3⟩ := h
    refine ⟨h1.symm, by rw [← h2, ← h1]; rfl, ?_⟩
    rw [← h3]
    simp only [pyChoiceD_snd_id, pyRandint_snd_id, statusChoice_snd_id,
      pyUniform_snd_id]
    split <;>
      simp only [pyRandint_snd_id, chance_snd_id, sample_merch_snd_id, uuid4_snd_id]

theorem appLoop_rows_mono {e : Env} {cfg : Config} {batch : ℤ}
    {byId : List (String × Merchant)} :
    ∀ n {rows : List Row} {carry : List (String × Row)} {c : Ctr}
      {rows' : List Row} {carry' : List (String × Row)} {c' : Ctr},
      appLoop e cfg batch byId n rows carry c = some (rows', carry', c') →
      ∀ r ∈ rows, r ∈ rows' := by
  intro n
  induction n with
  | zero =>
    intro rows carry c rows' carry' c' h r hr
    simp only [appLoop, Option.some.injEq, Prod.mk.injEq] at h
    exact h.1 ▸ hr
  | succ n ih =>
    intro rows carry c rows' carry' c' h r hr
    simp only [appLoop] at h
    rcases hg : genAppOne e cfg batch byId c with _ | ⟨appId, row, c₂⟩
    · simp [hg] at h
    · simp only [hg] at h
      refine ih h r ?_
      split <;> simp [hr]

/-- The fresh-application loop extends the carry map by exactly one new
binding per iteration — id to emitted row, appended — provided the id
stream is injective and yields only unused keys. -/
theorem appLoop_carry {e : Env} {cfg : Config} {batch : ℤ}
    {byId : List (String × Merchant)}
    (hinj : ∀ m m', e.IDS m = e.IDS m' → m = m') :
    ∀ n {rows : List Row} {carry : List (String × Row)} {c : Ctr}
      {rows' : List Row} {carry' : List (String × Row)} {c' : Ctr},
      appLoop e cfg batch byId n rows carry c = some (rows', carry', c') →
      (∀ m, c.id ≤ m → dictLookup carry (e.IDS m) = none) →
      ∃ fresh, carry' = carry ++ fresh ∧ fresh.length = n ∧
        ∀ p ∈ fresh, p.2 ∈ rows' ∧ p.2.getD 0 (.str "") = Field.str p.1 := by
  intro n
  induction n with
  | zero =>
    intro rows carry c rows' carry' c' h hf
    simp only [appLoop, Option.some.injEq, Prod.mk.injEq] at h
    exact ⟨[], by simp [← h.2.1], rfl, by simp⟩
  | succ n ih =>
    intro rows carry c rows' carry' c' h hf
    simp only [appLoop] at h
    rcases hg : genAppOne e cfg batch byId c with _ | ⟨appId, row, c₂⟩
    · simp [hg] at h
    · simp only [hg] at h
      obtain ⟨hA, hB, hC⟩ := genAppOne_spec hg
      have hset : dictSet carry appId row = carry ++ [(appId, row)] :=
        dictSet_append_of_none row (by rw [hA]; exact hf c.id le_rfl)
      rw [hset] at h
      have hf₂ : ∀ m, ((chance e cfg.duplicate_rate c₂).2).id ≤ m →
          dictLookup (carry ++ [(appId, row)]) (e.IDS m) = none := by
        intro m hm
        rw [chance_snd_id, hC] at hm
        have hne : e.IDS m ≠ appId := by
          rw [hA]
          intro hEq
          have := hinj _ _ hEq
          omega
        rw [lookup_append_single_ne carry appId (e.IDS m) row hne]
        exact hf m (by omega)
      obtain ⟨fresh₂, hcar, hlen, hmem⟩ := ih h hf₂
      refine ⟨(appId, row) :: fresh₂, by rw [hcar]; simp, by simp [hlen], ?_⟩
      rintro p hp
      rcases List.mem_cons.mp hp with rfl | hp₂
      · refine ⟨appLoop_rows_mono n h row ?_, hB⟩
        split <;> simp
      · exact hmem p hp₂

/-- A payment draws its id first: the id is the stream value at the
incoming cursor, stored at row position 0; one or two uuid draws are
consumed (two when the broken-reference branch fires). -/
theorem genPayOne_spec {e : Env} {cfg : Config} {batch : ℤ} {disbRow : Row}
    {disbDate : ℤ} {k : ℕ} {c : Ctr} {payId : String} {row : Row} {c' : Ctr}
    (h : genPayOne e cfg batch disbRow disbDate k c = (payId, row, c')) :
    payId = e.IDS c.id ∧ row.getD 0 (.str "") = Field.str payId ∧
      c.id + 1 ≤ c'.id := by
  simp only [genPayOne, Prod.mk.injEq] at h
  obtain ⟨h1, h2, h3⟩ := h
  refine ⟨h1.symm, by rw [← h2, ← h1]; rfl, ?_⟩
  rw [← h3]
  split <;> split
  all_goals
    try simp only [uuid4_snd_id, chance_snd_id, pyRandint_snd_id, pyChoiceD_snd_id,
      pyUniform_snd_id]
  all_goals omega

theorem payKLoop_rows_mono {e : Env} {cfg : Config} {batch : ℤ} {disbRow : Row}
    {disbDate : ℤ} :
    ∀ n k {rows : List Row} {carry : List (String × Row)} {c : Ctr}
      {rows' : List Row} {carry' : List (String × Row)} {c' : Ctr},
      payKLoop e cfg batch disbRow disbDate k n rows carry c = (rows', carry', c') →
      ∀ r ∈ rows, r ∈ rows' := by
  intro n
  induction n with
  | zero =>
    intro k rows carry c rows' carry' c' h r hr
    simp only [payKLoop, Prod.mk.injEq] at h
    exact h.1 ▸ hr
  | succ n ih =>
    intro k rows carry c rows' carry' c' h r hr
    simp only [payKLoop] at h
    refine ih (k + 1) h r ?_
    split <;> simp [hr]

/-- The per-disbursement payment loop extends the carry map by exactly
one new binding per payment, appended, with keys drawn from the id
stream between the incoming and outgoing cursor. -/
theorem payKLoop_carry {e : Env} {cfg : Config} {batch : ℤ} {disbRow : Row}
    {disbDate : ℤ}
    (hinj : ∀ m m', e.IDS m = e.IDS m' → m = m') :
    ∀ n k {rows : List Row} {carry : List (String × Row)} {c : Ctr}
      {rows' : List Row} {carry' : List (String × Row)} {c' : Ctr},
      payKLoop e cfg batch disbRow disbDate k n rows carry c = (rows', carry', c') →
      (∀ m, c.id ≤ m → dictLookup carry (e.IDS m) = none) →
      ∃ fresh, carry' = carry ++ fresh ∧ fresh.length = n ∧
        (∀ p ∈ fresh, p.2 ∈ rows' ∧ p.2.getD 0 (.str "") = Field.str p.1) ∧
        (∀ p ∈ fresh, ∃ j, c.id ≤ j ∧ j < c'.id ∧ p.1 = e.IDS j) ∧
        c.id ≤ c'.id := by
  intro n
  induction n with
  | zero =>
    intro k rows carry c rows' carry' c' h hf
    simp only [payKLoop, Prod.mk.injEq] at h
    exact ⟨[], by simp [← h.2.1], rfl, by simp, by simp, by rw [← h.2.2]⟩
  | succ n ih =>
    intro k rows carry c rows' carry' c' h hf
    simp only [payKLoop] at h
    rcases hg : genPayOne e cfg batch disbRow disbDate k c with ⟨payId, rowP, c₂⟩
    simp only [hg] at h
    obtain ⟨hA, hB, hC⟩ := genPayOne_spec hg
    have hset : dictSet carry payId rowP = carry ++ [(payId, rowP)] :=
      dictSet_append_of_none rowP (by rw [hA]; exact hf c.id le_rfl)
    rw [hset] at h
    have hf₂ : ∀ m, ((chance e cfg.duplicate_rate c₂).2).id ≤ m →
        dictLookup (carry ++ [(payId, rowP)]) (e.IDS m) = none := by
      intro m hm
      rw [chance_snd_id] at hm
      have hne : e.IDS m ≠ payId := by
        rw [hA]
        intro hEq
        have := hinj _ _ hEq
        omega
      rw [lookup_append_single_ne carry payId (e.IDS m) rowP hne]
      exact hf m (by omega)
    obtain ⟨fresh₂, hcar, hlen, hmem, hidx, hle⟩ := ih (k + 1) h hf₂
    rw [chance_snd_id] at hle
    refine ⟨(payId, rowP) :: fresh₂, by rw [hcar]; simp, by simp [hlen], ?_, ?_, by omega⟩
    · rintro p hp
      rcases List.mem_cons.mp hp with rfl | hp₂
      · refine ⟨payKLoop_rows_mono n (k + 1) h rowP ?_, hB⟩
        split <;> simp
      · exact hmem p hp₂
    · rintro p hp
      rcases List.mem_cons.mp hp with rfl | hp₂
      · exact ⟨c.id, le_rfl, by omega, hA⟩
      · obtain ⟨j, hj1, hj2, hj3⟩ := hidx p hp₂
        rw [chance_snd_id] at hj1
        exact ⟨j, by omega, hj2, hj3⟩

theorem payDisbLoop_rows_mono {e : Env} {cfg : Config} {batch : ℤ} :
    ∀ ds {rows : List Row} {carry : List (String × Row)} {c : Ctr}
      {rows' : List Row} {carry' : List (String × Row)} {c' : Ctr},
      payDisbLoop e cfg batch ds rows carry c = some (rows', carry', c') →
      ∀ r ∈ rows, r ∈ rows' := by
  intro ds
  induction ds with
  | nil =>
    intro rows carry c rows' carry' c' h r hr
    simp only [payDisbLoop, Option.some.injEq, Prod.mk.injEq] at h
    exact h.1 ▸ hr
  | cons d rest ih =>
    intro rows carry c rows' carry' c' h r hr
    simp only [payDisbLoop] at h
    split at h
    · exact absurd h (by simp)
    · rename_i dd hiso
      rcases hk : payKLoop e cfg batch d dd 0 cfg.pays_per_disb.toNat rows carry c
        with ⟨r1, car1, c1⟩
      simp only [hk] at h
      exact ih h r (payKLoop_rows_mono _ 0 hk r hr)

/-- The disbursement-row loop of the payment stage: the carry map grows
by exactly `pays_per_disb` appended fresh bindings per disbursement
row. -/
theorem payDisbLoop_carry {e : Env} {cfg : Config} {batch : ℤ}
    (hinj : ∀ m m', e.IDS m = e.IDS m' → m = m') :
    ∀ ds {rows : List Row} {carry : List (String × Row)} {c : Ctr}
      {rows' : List Row} {carry' : List (String × Row)} {c' : Ctr},
      payDisbLoop e cfg batch ds rows carry c = some (rows', carry', c') →
      (∀ m, c.id ≤ m → dictLookup carry (e.IDS m) = none) →
      ∃ fresh, carry' = carry ++ fresh ∧
        fresh.length = ds.length * cfg.pays_per_disb.toNat ∧
        (∀ p ∈ fresh, p.2 ∈ rows' ∧ p.2.getD 0 (.str "") = Field.str p.1) ∧
        (∀ p ∈ fresh, ∃ j, c.id ≤ j ∧ j < c'.id ∧ p.1 = e.IDS j) ∧
        c.id ≤ c'.id := by
  intro ds
  induction ds with
  | nil =>
    intro rows carry c rows' carry' c' h hf
    simp only [payDisbLoop, Option.some.injEq, Prod.mk.injEq] at h
    exact ⟨[], by simp [← h.2.1], by simp, by simp, by simp, by rw [← h.2.2]⟩
  | cons d rest ih =>
    intro rows carry c rows' carry' c' h hf
    simp only [payDisbLoop] at h
    split at h
    · exact absurd h (by simp)
    · rename_i dd hiso
      rcases hk : payKLoop e cfg batch d dd 0 cfg.pays_per_disb.toNat rows carry c
        with ⟨r1, car1, c1⟩
      simp only [hk] at h
      obtain ⟨f1, hcar1, hlen1, hmem1, hidx1, hle1⟩ := payKLoop_carry hinj _ 0 hk hf
      have hf₂ : ∀ m, c1.id ≤ m → dictLookup car1 (e.IDS m) = none := by
        intro m hm
        rw [hcar1]
        refine dictLookup_append_none (hf m (by omega))
          (dictLookup_eq_none_of_forall ?_)
        rintro p hp
        obtain ⟨j, hj1, hj2, hj3⟩ := hidx1 p hp
        rw [hj3]
        intro hEq
        have := hinj _ _ hEq
        omega
      obtain ⟨f2, hcar2, hlen2, hmem2, hidx2, hle2⟩ := ih h hf₂
      refine ⟨f1 ++ f2, ?_, ?_, ?_, ?_, by omega⟩
      · rw [hcar2, hcar1, List.append_assoc]
      · rw [List.length_append, hlen1, hlen2, List.length_cons]
        ring
      · rintro p hp
        rcases List.mem_append.mp hp with hp1 | hp2
        · obtain ⟨hmem, hid⟩ := hmem1 p hp1
          exact ⟨payDisbLoop_rows_mono rest h p.2 hmem, hid⟩
        · exact hmem2 p hp2
      · rintro p hp
        rcases List.mem_append.mp hp with hp1 | hp2
        · obtain ⟨j, hj1, hj2, hj3⟩ := hidx1 p hp1
          exact ⟨j, hj1, by omega, hj3⟩
        · obtain ⟨j, hj1, hj2, hj3⟩ := hidx2 p hp2
          exact ⟨j, by omega, hj2, hj3⟩

/-- The application stage appends one fresh carry binding per fresh
application; the resurfaced row writes nothing and every pre-existing
binding survives unchanged. -/
theorem appStage_carry {e : Env} {cfg : Config} {batch : ℤ}
    {byId : List (String × Merchant)} {carry : List (String × Row)} {c : Ctr}
    {rows' : List Row} {carry' : List (String × Row)} {c' : Ctr}
    (hinj : ∀ m m', e.IDS m = e.IDS m' → m = m')
    (h : appStage e cfg batch byId carry c = some (rows', carry', c'))
    (hf : ∀ m, c.id ≤ m → dictLookup carry (e.IDS m) = none) :
    ∃ fresh, carry' = carry ++ fresh ∧
      fresh.length = cfg.apps_per_day.toNat ∧
      (∀ p ∈ fresh, p.2 ∈ rows' ∧ p.2.getD 0 (.str "") = Field.str p.1) ∧
      ∀ k v, dictLookup carry k = some v → dictLookup carry' k = some v := by
  simp only [appStage] at h
  by_cases hce : carry.isEmpty = true
  case pos =>
    rw [if_pos hce] at h
    dsimp only at h
    rcases hal : appLoop e cfg batch byId cfg.apps_per_day.toNat [] carry c
      with _ | ⟨⟨rows₀, carry₀, c₀⟩⟩
    · rw [hal] at h; exact absurd h (by simp)
    · simp only [hal, Option.some.injEq, Prod.mk.injEq] at h
      obtain ⟨hr, hcar, _⟩ := h
      obtain ⟨fresh, hc1, hc2, hc3⟩ := appLoop_carry hinj _ hal hf
      refine ⟨fresh, hcar ▸ hc1, hc2, ?_, ?_⟩
      · intro p hp
        obtain ⟨hm, hid⟩ := hc3 p hp
        refine ⟨?_, hid⟩
        rw [← hr]
        split <;> simp [hm]
      · intro k v hkv
        rw [← hcar, hc1]
        exact dictLookup_append_left hkv
  case neg =>
    rw [if_neg hce] at h
    by_cases hq : (chance e (25 / 100) c).1 = true
    case pos =>
      rw [if_pos hq] at h
      dsimp only at h
      rcases hal : appLoop e cfg batch byId cfg.apps_per_day.toNat
          [(appResurface e batch carry (chance e (25 / 100) c).2).1] carry
          (appResurface e batch carry (chance e (25 / 100) c).2).2
        with _ | ⟨⟨rows₀, carry₀, c₀⟩⟩
      · rw [hal] at h; exact absurd h (by simp)
      · simp only [hal, Option.some.injEq, Prod.mk.injEq] at h
        obtain ⟨hr, hcar, _⟩ := h
        have hf₀ : ∀ m, ((appResurface e batch carry (chance e (25 / 100) c).2).2).id ≤ m →
            dictLookup carry (e.IDS m) = none := by
          intro m hm
          rw [appResurface_snd_id, chance_snd_id] at hm
          exact hf m hm
        obtain ⟨fresh, hc1, hc2, hc3⟩ := appLoop_carry hinj _ hal hf₀
        refine ⟨fresh, hcar ▸ hc1, hc2, ?_, ?_⟩
        · intro p hp
          obtain ⟨hm, hid⟩ := hc3 p hp
          refine ⟨?_, hid⟩
          rw [← hr]
          split <;> simp [hm]
        · intro k v hkv
          rw [← hcar, hc1]
          exact dictLookup_append_left hkv
    case neg =>
      rw [if_neg hq] at h
      dsimp only at h
      rcases hal : appLoop e cfg batch byId cfg.apps_per_day.toNat [] carry
          (chance e (25 / 100) c).2
        with _ | ⟨⟨rows₀, carry₀, c₀⟩⟩
      · rw [hal] at h; exact absurd h (by simp)
      · simp only [hal, Option.some.injEq, Prod.mk.injEq] at h
        obtain ⟨hr, hcar, _⟩ := h
        have hf₀ : ∀ m, ((chance e (25 / 100) c).2).id ≤ m →
            dictLookup carry (e.IDS m) = none := by
          intro m hm
          rw [chance_snd_id] at hm
          exact hf m hm
        obtain ⟨fresh, hc1, hc2, hc3⟩ := appLoop_carry hinj _ hal hf₀
        refine ⟨fresh, hcar ▸ hc1, hc2, ?_, ?_⟩
        · intro p hp
          obtain ⟨hm, hid⟩ := hc3 p hp
          refine ⟨?_, hid⟩
          rw [← hr]
          split <;> simp [hm]
        · intro k v hkv
          rw [← hcar, hc1]
          exact dictLookup_append_left hkv

/-- The payment stage appends one fresh carry binding per generated
payment (`pays_per_disb` per disbursement row); the resurfaced row
writes nothing and every pre-existing binding survives unchanged. -/
theorem payStage_carry {e : Env} {cfg : Config} {batch : ℤ} {dRows : List Row}
    {carry : List (String × Row)} {c : Ctr}
    {rows' : List Row} {carry' : List (String × Row)} {c' : Ctr}
    (hinj : ∀ m m', e.IDS m = e.IDS m' → m = m')
    (h : payStage e cfg batch dRows carry c = some (rows', carry', c'))
    (hf : ∀ m, c.id ≤ m → dictLookup carry (e.IDS m) = none) :
    ∃ fresh, carry' = carry ++ fresh ∧
      fresh.length = dRows.length * cfg.pays_per_disb.toNat ∧
      (∀ p ∈ fresh, p.2 ∈ rows' ∧ p.2.getD 0 (.str "") = Field.str p.1) ∧
      ∀ k v, dictLookup carry k = some v → dictLookup carry' k = some v := by
  simp only [payStage] at h
  by_cases hce : carry.isEmpty = true
  case pos =>
    rw [if_pos hce] at h
    dsimp only at h
    rcases hal : payDisbLoop e cfg batch dRows [] carry c
      with _ | ⟨⟨rows₀, carry₀, c₀⟩⟩
    · rw [hal] at h; exact absurd h (by simp)
    · simp only [hal] at h
      obtain ⟨fresh, hc1, hc2, hc3, _, _⟩ := payDisbLoop_carry hinj _ hal hf
      split at h <;>
        simp only [Option.some.injEq, Prod.mk.injEq] at h <;>
        obtain ⟨hr, hcar, _⟩ := h <;>
        exact ⟨fresh, hcar ▸ hc1, hc2,
          fun p hp => ⟨by rw [← hr]; simp [(hc3 p hp).1], (hc3 p hp).2⟩,
          fun k v hkv => by rw [← hcar, hc1]; exact dictLookup_append_left hkv⟩
  case neg =>
    rw [if_neg hce] at h
    by_cases hq : (chance e (25 / 100) c).1 = true
    case pos =>
      rw [if_pos hq] at h
      dsimp only at h
      rcases hal : payDisbLoop e cfg batch dRows
          [(payResurface e batch carry (chance e (25 / 100) c).2).1] carry
          (payResurface e batch carry (chance e (25 / 100) c).2).2
        with _ | ⟨⟨rows₀, carry₀, c₀⟩⟩
      · rw [hal] at h; exact absurd h (by simp)
      · simp only [hal] at h
        have hf₀ : ∀ m, ((payResurface e batch carry (chance e (25 / 100) c).2).2).id ≤ m →
            dictLookup carry (e.IDS m) = none := by
          intro m hm
          rw [payResurface_snd_id, chance_snd_id] at hm
          exact hf m hm
        obtain ⟨fresh, hc1, hc2, hc3, _, _⟩ := payDisbLoop_carry hinj _ hal hf₀
        split at h <;>
          simp only [Option.some.injEq, Prod.mk.injEq] at h <;>
          obtain ⟨hr, hcar, _⟩ := h <;>
          exact ⟨fresh, hcar ▸ hc1, hc2,
            fun p hp => ⟨by rw [← hr]; simp [(hc3 p hp).1], (hc3 p hp).2⟩,
            fun k v hkv => by rw [← hcar, hc1]; exact dictLookup_append_left hkv⟩
    case neg =>
      rw [if_neg hq] at h
      dsimp only at h
      rcases hal : payDisbLoop e cfg batch dRows [] carry (chance e (25 / 100) c).2
        with _ | ⟨⟨rows₀, carry₀, c₀⟩⟩
      · rw [hal] at h; exact absurd h (by simp)
      · simp only [hal] at h
        have hf₀ : ∀ m, ((chance e (25 / 100) c).2).id ≤ m →
            dictLookup carry (e.IDS m) = none := by
          intro m hm
          rw [chance_snd_id] at hm
          exact hf m hm
        obtain ⟨fresh, hc1, hc2, hc3, _, _⟩ := payDisbLoop_carry hinj _ hal hf₀
        split at h <;>
          simp only [Option.some.injEq, Prod.mk.injEq] at h <;>
          obtain ⟨hr, hcar, _⟩ := h <;>
          exact ⟨fresh, hcar ▸ hc1, hc2,
            fun p hp => ⟨by rw [← hr]; simp [(hc3 p hp).1], (hc3 p hp).2⟩,
            fun k v hkv => by rw [← hcar, hc1]; exact dictLookup_append_left hkv⟩

/-- C3 amended: after the application stage and the payment stage the
carry maps contain, for every fresh row generated that day, an appended
entry keyed by the row's id (row position 0) mapping to that row — but
only for fresh rows: the resurfaced row writes nothing, and every
pre-existing binding (in particular the resurfaced row's old entry) is
left unchanged.  Requires the uuid stream to be injective and to avoid
keys already present, as OS-entropy uuids are. -/
theorem C3_amended_carry (e : Env) (cfg : Config) (batch batchP : ℤ)
    (byId : List (String × Merchant)) (dRows : List Row)
    (carryA carryP : List (String × Row)) (cA cP : Ctr)
    (rowsA : List Row) (carryA2 : List (String × Row)) (cA2 : Ctr)
    (rowsP : List Row) (carryP2 : List (String × Row)) (cP2 : Ctr)
    (hinj : ∀ m m', e.IDS m = e.IDS m' → m = m')
    (happ : appStage e cfg batch byId carryA cA = some (rowsA, carryA2, cA2))
    (hpay : payStage e cfg batchP dRows carryP cP = some (rowsP, carryP2, cP2))
    (hfA : ∀ m, cA.id ≤ m → dictLookup carryA (e.IDS m) = none)
    (hfP : ∀ m, cP.id ≤ m → dictLookup carryP (e.IDS m) = none) :
    (∃ fresh, carryA2 = carryA ++ fresh ∧
       fresh.length = cfg.apps_per_day.toNat ∧
       (∀ p ∈ fresh, p.2 ∈ rowsA ∧ p.2.getD 0 (.str "") = Field.str p.1) ∧
       ∀ k v, dictLookup carryA k = some v → dictLookup carryA2 k = some v) ∧
    (∃ fresh, carryP2 = carryP ++ fresh ∧
       fresh.length = dRows.length * cfg.pays_per_disb.toNat ∧
       (∀ p ∈ fresh, p.2 ∈ rowsP ∧ p.2.getD 0 (.str "") = Field.str p.1) ∧
       ∀ k v, dictLookup carryP k = some v → dictLookup carryP2 k = some v) :=
  ⟨appStage_carry hinj happ hfA, payStage_carry hinj hpay hfP⟩

/-- A stream environment with an injective uuid stream (the n-th id is
the string of n letters a) and constant-zero raw draws. -/
def envInj : Env := ⟨fun _ => 0, fun n => String.mk (List.replicate n 'a')⟩

theorem envInj_IDS_inj : ∀ m m', envInj.IDS m = envInj.IDS m' → m = m' := by
  intro m m' h
  have h2 : List.replicate m 'a' = List.replicate m' 'a' := congrArg String.data h
  simpa using congrArg List.length h2

/-- One day, one merchant, one application, one payment per
disbursement, all noise rates zero: the C3 witness configuration. -/
def cfgC3W : Config :=
  { start_date := 0, num_days := 1, num_merchants := 1, apps_per_day := 1,
    disb_rate := 0, pays_per_disb := 1, no_header_every_n_days := 3,
    duplicate_rate := 0, invalid_rate := 0, broken_ref_rate := 0,
    late_arrival_rate := 0, seed := 0 }

def byIdW : List (String × Merchant) :=
  [("m0", ⟨"m0", "Merchant 0000", "42310", "CA", 50000, 1, 0, -30⟩)]

def disbRowW : Row :=
  [.str "d0", .str "a0", .str "m0", .dec2 100, .date 0, .str "WEEKLY", .ts 0 8 0]

def rowAW : Row :=
  [.str "", .str "m0", .date 0, .dec2 5000, .str "INVENTORY", .str "PENDING",
   .int 300, .ts 0 2 0]

def rowPW : Row :=
  [.str "", .str "d0", .str "m0", .date 7, .dec2 90, .str "ACH", .str "TRUE",
   .int 30, .ts 0 9 0]

theorem appStageW_eq : appStage envInj cfgC3W 0 byIdW [] ⟨0, 0⟩ =
    some ([rowAW], [("", rowAW)], ⟨10, 1⟩) := by
  norm_num [appStage, appLoop, genAppOne, appResurface, statusChoice, sample_merch,
    uuid4, rand, chance, pyUniform, pyRandint, randIndex, pyChoice?, pyChoiceD,
    round2, pyInt, dictSet, dictValues, invalidAppRow, envInj, cfgC3W, byIdW,
    rowAW, PURPOSES]

theorem payStageW_eq : payStage envInj cfgC3W 0 [disbRowW] [] ⟨0, 0⟩ =
    some ([rowPW], [("", rowPW)], ⟨9, 1⟩) := by
  norm_num [payStage, payDisbLoop, payKLoop, genPayOne, payResurface, uuid4, rand,
    chance, pyUniform, pyRandint, randIndex, pyChoice?, pyChoiceD, pyFloat,
    fromisoformat, round2, pyInt, dictSet, envInj, cfgC3W, disbRowW, rowPW,
    PAY_METHODS]

/-- Witness for the amended C3 at a concrete one-application,
one-payment day with empty carry maps. -/
theorem C3_amended_carry_witness :
    ((∀ m m', envInj.IDS m = envInj.IDS m' → m = m') ∧
     appStage envInj cfgC3W 0 byIdW [] ⟨0, 0⟩ = some ([rowAW], [("", rowAW)], ⟨10, 1⟩) ∧
     payStage envInj cfgC3W 0 [disbRowW] [] ⟨0, 0⟩ = some ([rowPW], [("", rowPW)], ⟨9, 1⟩) ∧
     (∀ m, (⟨0, 0⟩ : Ctr).id ≤ m →
       dictLookup ([] : List (String × Row)) (envInj.IDS m) = none)) ∧
    ((∃ fresh, ([("", rowAW)] : List (String × Row)) = [] ++ fresh ∧
       fresh.length = cfgC3W.apps_per_day.toNat ∧
       (∀ p ∈ fresh, p.2 ∈ [rowAW] ∧ p.2.getD 0 (.str "") = Field.str p.1) ∧
       ∀ k v, dictLookup ([] : List (String × Row)) k = some v →
         dictLookup [("", rowAW)] k = some v) ∧
     (∃ fresh, ([("", rowPW)] : List (String × Row)) = [] ++ fresh ∧
       fresh.length = [disbRowW].length * cfgC3W.pays_per_disb.toNat ∧
       (∀ p ∈ fresh, p.2 ∈ [rowPW] ∧ p.2.getD 0 (.str "") = Field.str p.1) ∧
       ∀ k v, dictLookup ([] : List (String × Row)) k = some v →
         dictLookup [("", rowPW)] k = some v)) :=
  ⟨⟨envInj_IDS_inj, appStageW_eq, payStageW_eq, fun _ _ => rfl⟩,
   C3_amended_carry envInj cfgC3W 0 0 byIdW [disbRowW] [] [] ⟨0, 0⟩ ⟨0, 0⟩
     [rowAW] [("", rowAW)] ⟨10, 1⟩ [rowPW] [("", rowPW)] ⟨9, 1⟩
     envInj_IDS_inj appStageW_eq payStageW_eq (fun _ _ => rfl) (fun _ _ => rfl)⟩

/-! Claim C4: duplicate injection with `duplicate_rate = 1`. -/

/-- One day, one merchant, two applications, `duplicate_rate = 1`,
every other noise rate zero: the C4 counterexample configuration. -/
def cfg4 : Config :=
  { start_date := 0, num_days := 1, num_merchants := 1, apps_per_day := 2,
    disb_rate := 0, pays_per_disb := 0, no_header_every_n_days := 3,
    duplicate_rate := 1, invalid_rate := 0, broken_ref_rate := 0,
    late_arrival_rate := 0, seed := 0 }

theorem c4_gen : gen_merchants zeroEnv cfg4 ⟨0, 0⟩ =
    ([⟨"id0", "Merchant 0000", "42310", "CA", 50000, 1, 0, -30⟩], ⟨6, 1⟩) := by
  norm_num [gen_merchants, genMerchOne, pad4_zero, uuid4, rand, chance, pyUniform,
    pyRandint, randIndex, pyChoice?, pyChoiceD, round2, clamp, zeroEnv, idsLit,
    cfg4, STATES, INDUSTRIES, List.range_succ, List.range_zero]

theorem c4_day0 : dayStep zeroEnv cfg4 0
    ⟨[⟨"id0", "Merchant 0000", "42310", "CA", 50000, 1, 0, -30⟩],
     [("id0", ⟨"id0", "Merchant 0000", "42310", "CA", 50000, 1, 0, -30⟩)],
     [], [], ⟨6, 1⟩⟩ =
    some (⟨true,
           [[.str "id0", .str "Merchant 0000", .str "42310", .str "CA", .dec2 50000,
             .int 1, .dec2 0, .date (-30)],
            [.str "id0", .str "Merchant 0000", .str "42310", .str "CA", .dec2 50000,
             .int 1, .dec2 0, .date (-30)]],
           true,
           [[.str "id1", .str "id0", .date 0, .dec2 5000, .str "INVENTORY",
             .str "PENDING", .int 300, .ts 0 2 0],
            [.str "id1", .str "id0", .date 0, .dec2 5000, .str "INVENTORY",
             .str "PENDING", .int 300, .ts 0 2 0],
            [.str "id2", .str "id0", .date 0, .dec2 5000, .str "INVENTORY",
             .str "PENDING", .int 300, .ts 0 2 0],
            [.str "id2", .str "id0", .date 0, .dec2 5000, .str "INVENTORY",
             .str "PENDING", .int 300, .ts 0 2 0]],
           true, [], true, []⟩,
          ⟨[⟨"id0", "Merchant 0000", "42310", "CA", 50000, 1, 0, -30⟩],
           [("id0", ⟨"id0", "Merchant 0000", "42310", "CA", 50000, 1, 0, -30⟩)],
           [("id1", [.str "id1", .str "id0", .date 0, .dec2 5000, .str "INVENTORY",
                     .str "PENDING", .int 300, .ts 0 2 0]),
            ("id2", [.str "id2", .str "id0", .date 0, .dec2 5000, .str "INVENTORY",
                     .str "PENDING", .int 300, .ts 0 2 0])],
           [], ⟨33, 3⟩⟩) := by
  norm_num [dayStep, merchStage, merchLoop, merchOne, mutate_merchant,
    appStage, appLoop, genAppOne, appResurface, statusChoice, sample_merch,
    disbStage, disbLoop, genDisbOne, payStage, payDisbLoop, payKLoop, genPayOne,
    payResurface, pyShuffle, shuffleGo, listSwap, isApproved, merchRowOf,
    uuid4, rand, chance, pyUniform, pyRandint,
    randIndex, pyChoice?, pyChoiceD, pyFloat, fromisoformat, dictSet, dictLookup,
    dictValues, round2, round4, clamp, pyInt, invalidMerchRow, invalidAppRow,
    zeroEnv, idsLit, cfg4, includeHeaderMerch, includeHeaderDisb, Int.fmod_eq_emod,
    id1_ne_id2, STATES, INDUSTRIES, PURPOSES, SCHEDULES, PAY_METHODS]

theorem main4_eq : main zeroEnv cfg4 =
    some ⟨[⟨true,
            [[.str "id0", .str "Merchant 0000", .str "42310", .str "CA", .dec2 50000,
              .int 1, .dec2 0, .date (-30)],
             [.str "id0", .str "Merchant 0000", .str "42310", .str "CA", .dec2 50000,
              .int 1, .dec2 0, .date (-30)]],
            true,
            [[.str "id1", .str "id0", .date 0, .dec2 5000, .str "INVENTORY",
              .str "PENDING", .int 300, .ts 0 2 0],
             [.str "id1", .str "id0", .date 0, .dec2 5000, .str "INVENTORY",
              .str "PENDING", .int 300, .ts 0 2 0],
             [.str "id2", .str "id0", .date 0, .dec2 5000, .str "INVENTORY",
              .str "PENDING", .int 300, .ts 0 2 0],
             [.str "id2", .str "id0", .date 0, .dec2 5000, .str "INVENTORY",
              .str "PENDING", .int 300, .ts 0 2 0]],
            true, [], true, []⟩],
          [⟨"id0", "Merchant 0000", "42310", "CA", 50000, 1, 0, -30⟩],
          [("id0", ⟨"id0", "Merchant 0000", "42310", "CA", 50000, 1, 0, -30⟩)],
          [("id1", [.str "id1", .str "id0", .date 0, .dec2 5000, .str "INVENTORY",
                    .str "PENDING", .int 300, .ts 0 2 0]),
           ("id2", [.str "id2", .str "id0", .date 0, .dec2 5000, .str "INVENTORY",
                    .str "PENDING", .int 300, .ts 0 2 0])],
          []⟩ := by
  have hnd : cfg4.num_days.toNat = 1 := rfl
  simp only [main, c4_gen, hnd, List.foldl_cons, List.foldl_nil, dictSet,
    List.any_nil, Bool.false_eq_true, if_false, List.nil_append, mainLoop,
    zero_add, c4_day0, List.cons_append, List.singleton_append, List.append_nil]

/-- C4 counterexample: with `duplicate_rate = 1` and two applications
per day, the applications file holds four rows — every fresh row is
immediately followed by its duplicate, one injection per row — not the
claimed single extra row (`apps_per_day + 1 = 3`).  Only the merchants
file gets the claimed single file-level duplicate. -/
theorem C4_counterexample :
    ∃ out, main zeroEnv cfg4 = some out ∧
    (out.days.getD 0 default).merchRows.length = cfg4.num_merchants.toNat + 1 ∧
    (out.days.getD 0 default).appsRows.length = 4 ∧
    cfg4.apps_per_day.toNat + 1 = 3 ∧ (4 : ℕ) ≠ 3 := by
  refine ⟨_, main4_eq, ?_, ?_, ?_, ?_⟩ <;> simp [cfg4, List.getD]

theorem merchOne_len (e : Env) (m : Merchant)
    (acc : List Row × List (String × Merchant) × Ctr) :
    ((merchOne e m acc).1).length = acc.1.length + 1 := by
  simp only [merchOne]
  split <;> simp

theorem merchFold_len (e : Env) : ∀ (ms : List Merchant)
    (acc : List Row × List (String × Merchant) × Ctr),
    ((ms.foldl (fun acc m => merchOne e m acc) acc).1).length =
      acc.1.length + ms.length := by
  intro ms
  induction ms with
  | nil => simp
  | cons m rest ih =>
    intro acc
    rw [List.foldl_cons, ih, merchOne_len, List.length_cons]
    omega

/-- With `duplicate_rate ≥ 1` (and no invalid injection) the merchants
file is the per-merchant snapshot rows plus exactly one appended copy
of an already-emitted row. -/
theorem merchStage_double {e : Env} {cfg : Config} {merchants : List Merchant}
    {byId : List (String × Merchant)} {c : Ctr} (hU : ValidS e.U)
    (hdup : 1 ≤ cfg.duplicate_rate) (hinv : cfg.invalid_rate ≤ 0)
    (hne : merchants ≠ []) :
    ∃ (base : List Row) (x : Row),
      (merchStage e cfg merchants byId c).1 = base ++ [x] ∧
      x ∈ base ∧ base.length = merchants.length := by
  have hlen : ((merchLoop e merchants byId c).1).length = merchants.length := by
    simpa [merchLoop] using merchFold_len e merchants ([], byId, c)
  have hbne : (merchLoop e merchants byId c).1 ≠ [] := by
    intro h0
    rw [h0] at hlen
    exact hne (List.length_eq_zero.mp hlen.symm)
  refine ⟨(merchLoop e merchants byId c).1,
    (pyChoiceD e (merchLoop e merchants byId c).1 []
      (chance e cfg.duplicate_rate (merchLoop e merchants byId c).2.2).2).1,
    ?_, pyChoiceD_mem hU hbne, hlen⟩
  simp only [merchStage]
  rw [if_neg (fun hcond => hbne (List.isEmpty_iff.mp hcond))]
  rw [chance_true hU hdup]
  simp only [if_true, chance_false hU hinv, Bool.false_eq_true, if_false]

/-- With `duplicate_rate ≥ 1` and an empty carry map, the applications
file is each fresh row immediately followed by its duplicate. -/
theorem appStage_double {e : Env} {cfg : Config} {batch : ℤ}
    {byId : List (String × Merchant)} {c : Ctr} (hU : ValidS e.U)
    (hdup : 1 ≤ cfg.duplicate_rate) (hinv : cfg.invalid_rate ≤ 0)
    (hne : byId ≠ []) :
    ∃ (l : List Row) (carry' : List (String × Row)) (c' : Ctr),
      appStage e cfg batch byId [] c =
        some (l.flatMap (fun r => [r, r]), carry', c') ∧
      l.length = cfg.apps_per_day.toNat := by
  obtain ⟨l, carry', c', heq, hlen⟩ :=
    appLoop_double hU hdup hne cfg.apps_per_day.toNat [] [] c
  refine ⟨l, carry', (chance e cfg.invalid_rate c').2, ?_, hlen⟩
  simp only [appStage, List.isEmpty_nil, if_true]
  rw [heq]
  simp only [chance_false hU hinv, Bool.false_eq_true, if_false, List.nil_append]

/-- With `duplicate_rate ≥ 1` the disbursements file is each generated
row immediately followed by its duplicate, over the floored
`approved × disb_rate` count. -/
theorem disbStage_double {e : Env} {cfg : Config} {batch : ℤ} {appsRows : List Row}
    {c : Ctr} (hU : ValidS e.U) (hdup : 1 ≤ cfg.duplicate_rate)
    (hinv : cfg.invalid_rate ≤ 0) (h0 : 0 ≤ cfg.disb_rate) (h1 : cfg.disb_rate ≤ 1) :
    ∃ (l : List Row) (c' : Ctr),
      disbStage e cfg batch appsRows c = some (l.flatMap (fun r => [r, r]), c') ∧
      (l.length : ℤ) = ⌊((appsRows.filter isApproved).length : ℚ) * cfg.disb_rate⌋ := by
  have hshuf := pyShuffle_length e (appsRows.filter isApproved) c
  have hq0 : (0 : ℚ) ≤ (((appsRows.filter isApproved).length : ℕ) : ℚ) * cfg.disb_rate :=
    mul_nonneg (Nat.cast_nonneg _) h0
  have hfl0 : (0 : ℤ) ≤ ⌊(((appsRows.filter isApproved).length : ℕ) : ℚ) * cfg.disb_rate⌋ :=
    Int.le_floor.mpr (by push_cast; linarith)
  have hflL : ⌊(((appsRows.filter isApproved).length : ℕ) : ℚ) * cfg.disb_rate⌋ ≤
      (((appsRows.filter isApproved).length : ℕ) : ℤ) := by
    have hc : (((appsRows.filter isApproved).length : ℕ) : ℚ) * cfg.disb_rate ≤
        (((appsRows.filter isApproved).length : ℕ) : ℚ) := by
      nlinarith [Nat.cast_nonneg (α := ℚ) (appsRows.filter isApproved).length]
    calc ⌊(((appsRows.filter isApproved).length : ℕ) : ℚ) * cfg.disb_rate⌋ ≤
        ⌊(((appsRows.filter isApproved).length : ℕ) : ℚ)⌋ := Int.floor_le_floor hc
      _ = (((appsRows.filter isApproved).length : ℕ) : ℤ) := Int.floor_natCast _
  have hpy : pyInt ((((appsRows.filter isApproved).length : ℕ) : ℚ) * cfg.disb_rate) =
      ⌊(((appsRows.filter isApproved).length : ℕ) : ℚ) * cfg.disb_rate⌋ := by
    unfold pyInt
    rw [if_neg (not_lt.mpr hq0)]
  obtain ⟨l, c', heq, hlen⟩ := disbLoop_double hU hdup
    ((pyInt ((((appsRows.filter isApproved).length : ℕ) : ℚ) * cfg.disb_rate)).toNat)
    0 [] (pyShuffle e (appsRows.filter isApproved) c).2
    (by rw [hshuf]; omega)
  refine ⟨l, (chance e cfg.invalid_rate c').2, ?_,
    by rw [hlen, hpy, Int.toNat_of_nonneg hfl0]⟩
  simp only [disbStage]
  rw [hshuf, heq]
  simp only [chance_false hU hinv, Bool.false_eq_true, if_false, List.nil_append]

/-- C4 amended: with `duplicate_rate ≥ 1` and the other noise rates
zero, the merchants file gets exactly one appended copy of an emitted
row, while the applications, disbursements and payments files emit
every generated row immediately followed by its verbatim duplicate —
one injected duplicate per row, not one per file. -/
theorem C4_amended_duplicates (e : Env) (cfg : Config) (batch : ℤ)
    (merchants : List Merchant) (byId : List (String × Merchant))
    (c cA cD cP : Ctr) (appsRows disbRows : List Row)
    (hU : ValidS e.U) (hdup : 1 ≤ cfg.duplicate_rate) (hinv : cfg.invalid_rate ≤ 0)
    (hmne : merchants ≠ []) (hbne : byId ≠ [])
    (h0 : 0 ≤ cfg.disb_rate) (h1 : cfg.disb_rate ≤ 1)
    (hok : ∀ r ∈ disbRows, (fromisoformat (r.getD 4 (.str ""))).isSome = true) :
    (∃ (base : List Row) (x : Row),
       (merchStage e cfg merchants byId c).1 = base ++ [x] ∧
       x ∈ base ∧ base.length = merchants.length) ∧
    (∃ (l : List Row) (carry' : List (String × Row)) (c' : Ctr),
       appStage e cfg batch byId [] cA =
         some (l.flatMap (fun r => [r, r]), carry', c') ∧
       l.length = cfg.apps_per_day.toNat) ∧
    (∃ (l : List Row) (c' : Ctr),
       disbStage e cfg batch appsRows cD = some (l.flatMap (fun r => [r, r]), c') ∧
       (l.length : ℤ) = ⌊((appsRows.filter isApproved).length : ℚ) * cfg.disb_rate⌋) ∧
    (∃ (l : List Row) (carry' : List (String × Row)) (c' : Ctr),
       payStage e cfg batch disbRows [] cP =
         some (l.flatMap (fun r => [r, r]), carry', c') ∧
       l.length = disbRows.length * cfg.pays_per_disb.toNat) :=
  ⟨merchStage_double hU hdup hinv hmne, appStage_double hU hdup hinv hbne,
   disbStage_double hU hdup hinv h0 h1, payStage_double hU hdup hinv hok⟩

/-- The C4 witness configuration: `duplicate_rate = 1`, full
disbursement rate, one payment per disbursement. -/
def cfgC4W : Config :=
  { start_date := 0, num_days := 1, num_merchants := 1, apps_per_day := 1,
    disb_rate := 1, pays_per_disb := 1, no_header_every_n_days := 3,
    duplicate_rate := 1, invalid_rate := 0, broken_ref_rate := 0,
    late_arrival_rate := 0, seed := 0 }

def mW4 : Merchant := ⟨"id0", "Merchant 0000", "42310", "CA", 50000, 1, 0, -30⟩

def appRowW4 : Row :=
  [.str "a1", .str "id0", .date 0, .dec2 100, .str "INVENTORY", .str "APPROVED",
   .int 700, .ts 0 2 0]

def disbRowW4 : Row :=
  [.str "d1", .str "a1", .str "id0", .dec2 90, .date 0, .dec4 (1 / 10), .int 6,
   .str "WEEKLY"]

/-- Witness for the amended C4 at a concrete one-merchant,
one-application, one-disbursement day. -/
theorem C4_amended_duplicates_witness :
    (ValidS zeroEnv.U ∧ 1 ≤ cfgC4W.duplicate_rate ∧ cfgC4W.invalid_rate ≤ 0 ∧
     ([mW4] : List Merchant) ≠ [] ∧
     ([("id0", mW4)] : List (String × Merchant)) ≠ [] ∧
     0 ≤ cfgC4W.disb_rate ∧ cfgC4W.disb_rate ≤ 1 ∧
     (∀ r ∈ [disbRowW4], (fromisoformat (r.getD 4 (.str ""))).isSome = true)) ∧
    ((∃ (base : List Row) (x : Row),
       (merchStage zeroEnv cfgC4W [mW4] [("id0", mW4)] ⟨0, 0⟩).1 = base ++ [x] ∧
       x ∈ base ∧ base.length = ([mW4] : List Merchant).length) ∧
    (∃ (l : List Row) (carry' : List (String × Row)) (c' : Ctr),
       appStage zeroEnv cfgC4W 0 [("id0", mW4)] [] ⟨0, 0⟩ =
         some (l.flatMap (fun r => [r, r]), carry', c') ∧
       l.length = cfgC4W.apps_per_day.toNat) ∧
    (∃ (l : List Row) (c' : Ctr),
       disbStage zeroEnv cfgC4W 0 [appRowW4] ⟨0, 0⟩ =
         some (l.flatMap (fun r => [r, r]), c') ∧
       (l.length : ℤ) =
         ⌊((([appRowW4] : List Row).filter isApproved).length : ℚ) * cfgC4W.disb_rate⌋) ∧
    (∃ (l : List Row) (carry' : List (String × Row)) (c' : Ctr),
       payStage zeroEnv cfgC4W 0 [disbRowW4] [] ⟨0, 0⟩ =
         some (l.flatMap (fun r => [r, r]), carry', c') ∧
       l.length = ([disbRowW4] : List Row).length * cfgC4W.pays_per_disb.toNat)) :=
  ⟨⟨zeroEnv_valid, by norm_num [cfgC4W], by norm_num [cfgC4W], by simp, by simp,
    by norm_num [cfgC4W], by norm_num [cfgC4W],
    by
      intro r hr
      rcases List.mem_singleton.mp hr with rfl
      rfl⟩,
   C4_amended_duplicates zeroEnv cfgC4W 0 [mW4] [("id0", mW4)] ⟨0, 0⟩ ⟨0, 0⟩ ⟨0, 0⟩
     ⟨0, 0⟩ [appRowW4] [disbRowW4] zeroEnv_valid (by norm_num [cfgC4W])
     (by norm_num [cfgC4W]) (by simp) (by simp) (by norm_num [cfgC4W])
     (by norm_num [cfgC4W])
     (by
       intro r hr
       rcases List.mem_singleton.mp hr with rfl
       rfl)⟩

/-! Claim C1: determinism across runs with a fixed seed. -/

/-- The merchant pool generated from the seeded half-stream, symbolic
in the uuid stream: the merchant id is whatever the OS entropy yields
at index 0. -/
theorem c1_gen (ids : ℕ → String) :
    gen_merchants ⟨fun _ => 1 / 2, ids⟩ cfgFull ⟨0, 0⟩ =
    ([⟨ids 0, "Merchant 0000", "72251", "WA", 2525000, 126, 1 / 2, -465⟩], ⟨6, 1⟩) := by
  norm_num [gen_merchants, genMerchOne, pad4_zero, uuid4, rand, chance, pyUniform,
    pyRandint, randIndex, pyChoice?, pyChoiceD, round2, clamp, cfgFull,
    Int.toNat_ofNat, STATES, INDUSTRIES, List.range_succ, List.range_zero]
  decide

theorem c1_day0 (ids : ℕ → String) :
    dayStep ⟨fun _ => 1 / 2, ids⟩ cfgFull 0
    ⟨[⟨ids 0, "Merchant 0000", "72251", "WA", 2525000, 126, 1 / 2, -465⟩],
     [(ids 0, ⟨ids 0, "Merchant 0000", "72251", "WA", 2525000, 126, 1 / 2, -465⟩)],
     [], [], ⟨6, 1⟩⟩ =
    some (⟨true,
           [[.str (ids 0), .str "Merchant 0000", .str "72251", .str "WA", .dec2 2525000,
             .int 126, .dec2 (1 / 2), .date (-465)]],
           true,
           [[.str (ids 1), .str (ids 0), .date (-1), .dec2 127500, .str "EXPANSION",
             .str "APPROVED", .int 575, .ts 0 2 30]],
           true,
           [[.str (ids 2), .str (ids 1), .str (ids 0), .dec2 (235875 / 2), .date (-1),
             .dec4 (33 / 200), .int 12, .str "WEEKLY"]],
           true,
           [[.str (ids 3), .str (ids 2), .str (ids 0), .date 6, .dec2 (235875 / 2),
             .str "CHECK", .str "FALSE", .int (-1), .ts 0 9 30]]⟩,
          ⟨[⟨ids 0, "Merchant 0000", "72251", "WA", 2525000, 126, 1 / 2, -465⟩],
           [(ids 0, ⟨ids 0, "Merchant 0000", "72251", "WA", 2525000, 126, 1 / 2, -465⟩)],
           [(ids 1, [.str (ids 1), .str (ids 0), .date (-1), .dec2 127500, .str "EXPANSION",
             .str "APPROVED", .int 575, .ts 0 2 30])],
           [(ids 3, [.str (ids 3), .str (ids 2), .str (ids 0), .date 6, .dec2 (235875 / 2),
             .str "CHECK", .str "FALSE", .int (-1), .ts 0 9 30])],
           ⟨37, 4⟩⟩) := by
  norm_num [dayStep, merchStage, merchLoop, merchOne, mutate_merchant,
    appStage, appLoop, genAppOne, appResurface, statusChoice, sample_merch,
    disbStage, disbLoop, genDisbOne, payStage, payDisbLoop, payKLoop, genPayOne,
    payResurface, pyShuffle, shuffleGo, listSwap, isApproved, merchRowOf,
    uuid4, rand, chance, pyUniform, pyRandint,
    randIndex, pyChoice?, pyChoiceD, pyFloat, fromisoformat, dictSet, dictLookup,
    dictValues, round2, round4, clamp, pyInt, invalidMerchRow, invalidAppRow,
    cfgFull, includeHeaderMerch, includeHeaderDisb, Int.fmod_eq_emod,
    Int.toNat_ofNat, STATES, INDUSTRIES, PURPOSES, SCHEDULES, PAY_METHODS]
  decide

/-- The full run from the seeded half-stream, symbolic in the uuid
stream: every file cell is a fixed literal except the four generated
identifiers, which are the uuid stream values at indices 0-3. -/
theorem c1_main_eq (ids : ℕ → String) :
    main ⟨fun _ => 1 / 2, ids⟩ cfgFull =
    some ⟨[⟨true,
            [[.str (ids 0), .str "Merchant 0000", .str "72251", .str "WA", .dec2 2525000,
             .int 126, .dec2 (1 / 2), .date (-465)]],
            true,
            [[.str (ids 1), .str (ids 0), .date (-1), .dec2 127500, .str "EXPANSION",
             .str "APPROVED", .int 575, .ts 0 2 30]],
            true,
            [[.str (ids 2), .str (ids 1), .str (ids 0), .dec2 (235875 / 2), .date (-1),
             .dec4 (33 / 200), .int 12, .str "WEEKLY"]],
            true,
            [[.str (ids 3), .str (ids 2), .str (ids 0), .date 6, .dec2 (235875 / 2),
             .str "CHECK", .str "FALSE", .int (-1), .ts 0 9 30]]⟩],
          [⟨ids 0, "Merchant 0000", "72251", "WA", 2525000, 126, 1 / 2, -465⟩],
          [(ids 0, ⟨ids 0, "Merchant 0000", "72251", "WA", 2525000, 126, 1 / 2, -465⟩)],
          [(ids 1, [.str (ids 1), .str (ids 0), .date (-1), .dec2 127500, .str "EXPANSION",
             .str "APPROVED", .int 575, .ts 0 2 30])],
          [(ids 3, [.str (ids 3), .str (ids 2), .str (ids 0), .date 6, .dec2 (235875 / 2),
             .str "CHECK", .str "FALSE", .int (-1), .ts 0 9 30])]⟩ := by
  have hnd : cfgFull.num_days.toNat = 1 := rfl
  simp only [main, c1_gen, hnd, List.foldl_cons, List.foldl_nil, dictSet,
    List.any_nil, Bool.false_eq_true, if_false, List.nil_append, mainLoop,
    zero_add, c1_day0, List.cons_append, List.singleton_append, List.append_nil]

/-- C1 counterexample: two runs with the same seeded raw-draw stream
but different OS-entropy uuid streams (`uuid4` is not seeded) produce
different outputs — the merchant, application, disbursement and
payment identifiers differ, so the written directories are not
byte-identical. -/
theorem C1_counterexample :
    (⟨fun _ => 1 / 2, fun _ => "a"⟩ : Env).U = (⟨fun _ => 1 / 2, fun _ => "b"⟩ : Env).U ∧
    main ⟨fun _ => 1 / 2, fun _ => "a"⟩ cfgFull ≠
      main ⟨fun _ => 1 / 2, fun _ => "b"⟩ cfgFull := by
  refine ⟨rfl, ?_⟩
  rw [c1_main_eq (fun _ => "a"), c1_main_eq (fun _ => "b")]
  simp

/-- Erase the identifier cells: position 0 of a merchants row, 0-1 of
an applications row, 0-2 of a disbursements or payments row, the
`merchant_id` of a pool record, and every carry-map key. -/
def scrubMerchRow (r : Row) : Row := r.set 0 (.str "")

def scrubAppRow (r : Row) : Row := (r.set 0 (.str "")).set 1 (.str "")

def scrubDisbRow (r : Row) : Row := ((r.set 0 (.str "")).set 1 (.str "")).set 2 (.str "")

def scrubMerchant (m : Merchant) : Merchant := { m with merchant_id := "" }

def scrubDay (f : DayFiles) : DayFiles :=
  { f with merchRows := f.merchRows.map scrubMerchRow,
            appsRows := f.appsRows.map scrubAppRow,
            disbRows := f.disbRows.map scrubDisbRow,
            paysRows := f.paysRows.map scrubDisbRow }

def scrubRun (o : Option RunOut) : Option RunOut :=
  o.map (fun out =>
    { days := out.days.map scrubDay,
       merchants := out.merchants.map scrubMerchant,
       merchant_by_id := out.merchant_by_id.map (fun p => ("", scrubMerchant p.2)),
       carry_apps := out.carry_apps.map (fun p => ("", scrubAppRow p.2)),
       carry_pays := out.carry_pays.map (fun p => ("", scrubDisbRow p.2)) })

/-! General determinism-modulo-identifiers (claim C1): pairing relations
between two runs that share the seeded raw-draw stream but draw their
uuids from two different (injective) OS-entropy streams. -/

theorem getD_set_ne (l : List α) (i n : ℕ) (a d : α) (h : n ≠ i) :
    (l.set i a).getD n d = l.getD n d := by
  rw [List.getD_eq_getElem?_getD, List.getD_eq_getElem?_getD,
    List.getElem?_set_ne (fun hin => h hin.symm)]

theorem forall₂_set {R : α → α → Prop} {l₁ l₂ : List α} (h : List.Forall₂ R l₁ l₂)
    {a b : α} (hab : R a b) : ∀ i, List.Forall₂ R (l₁.set i a) (l₂.set i b) := by
  induction h with
  | nil => intro i; simp
  | cons hh ht ih =>
    intro i
    cases i with
    | zero => simpa using List.Forall₂.cons hab ht
    | succ i => simpa using List.Forall₂.cons hh (ih i)

theorem forall₂_get? {R : α → β → Prop} {l₁ : List α} {l₂ : List β}
    (h : List.Forall₂ R l₁ l₂) : ∀ i,
    (l₁.get? i = none ∧ l₂.get? i = none) ∨
    ∃ a b, l₁.get? i = some a ∧ l₂.get? i = some b ∧ R a b := by
  induction h with
  | nil => intro i; left; simp
  | cons hh ht ih =>
    intro i
    cases i with
    | zero => exact Or.inr ⟨_, _, rfl, rfl, hh⟩
    | succ i => simpa using ih i

theorem forall₂_getD {R : α → β → Prop} {l₁ : List α} {l₂ : List β}
    (h : List.Forall₂ R l₁ l₂) {d₁ : α} {d₂ : β} (hd : R d₁ d₂) (i : ℕ) :
    R (l₁.getD i d₁) (l₂.getD i d₂) := by
  rcases forall₂_get? h i with ⟨h1, h2⟩ | ⟨a, b, h1, h2, hab⟩ <;>
    simp only [List.getD_eq_getElem?_getD, ← List.get?_eq_getElem?, h1, h2,
      Option.getD_some, Option.getD_none]
  · exact hd
  · exact hab

theorem forall₂_filter {R : α → α → Prop} {l₁ l₂ : List α}
    (h : List.Forall₂ R l₁ l₂) {p q : α → Bool}
    (hpq : ∀ a b, R a b → p a = q b) :
    List.Forall₂ R (l₁.filter p) (l₂.filter q) := by
  induction h with
  | nil => simp
  | cons hh ht ih =>
    rw [List.filter_cons, List.filter_cons, ← hpq _ _ hh]
    split
    · exact List.Forall₂.cons hh ih
    · exact ih

theorem forall₂_map_eq {f : α → γ} {g : β → γ} {l₁ : List α} {l₂ : List β}
    (h : List.Forall₂ (fun a b => f a = g b) l₁ l₂) : l₁.map f = l₂.map g := by
  induction h with
  | nil => rfl
  | cons hh _ ih => simp [hh, ih]

/-- Pairing of optional results: both runs fail together or succeed
with related values. -/
def optRel (R : α → β → Prop) : Option α → Option β → Prop
  | none, none => True
  | some a, some b => R a b
  | _, _ => False

/-! Scrubbed-row access: cells past the scrubbed identifier prefix are
equal, and writes past it commute with the scrub. -/

theorem scrubMerch_getD {r₁ r₂ : Row} (h : scrubMerchRow r₁ = scrubMerchRow r₂)
    {n : ℕ} (hn : 1 ≤ n) (d : Field) : r₁.getD n d = r₂.getD n d := by
  have h' := congrArg (fun l => List.getD l n d) h
  simpa [scrubMerchRow, List.getD_eq_getElem?_getD,
    List.getElem?_set_ne (show (0 : ℕ) ≠ n by omega)] using h'

theorem scrubApp_getD {r₁ r₂ : Row} (h : scrubAppRow r₁ = scrubAppRow r₂)
    {n : ℕ} (hn : 2 ≤ n) (d : Field) : r₁.getD n d = r₂.getD n d := by
  have h' := congrArg (fun l => List.getD l n d) h
  simpa [scrubAppRow, List.getD_eq_getElem?_getD,
    List.getElem?_set_ne (show (0 : ℕ) ≠ n by omega),
    List.getElem?_set_ne (show (1 : ℕ) ≠ n by omega)] using h'

theorem scrubDisb_getD {r₁ r₂ : Row} (h : scrubDisbRow r₁ = scrubDisbRow r₂)
    {n : ℕ} (hn : 3 ≤ n) (d : Field) : r₁.getD n d = r₂.getD n d := by
  have h' := congrArg (fun l => List.getD l n d) h
  simpa [scrubDisbRow, List.getD_eq_getElem?_getD,
    List.getElem?_set_ne (show (0 : ℕ) ≠ n by omega),
    List.getElem?_set_ne (show (1 : ℕ) ≠ n by omega),
    List.getElem?_set_ne (show (2 : ℕ) ≠ n by omega)] using h'

theorem scrubApp_length {r₁ r₂ : Row} (h : scrubAppRow r₁ = scrubAppRow r₂) :
    r₁.length = r₂.length := by
  have h' := congrArg List.length h
  simpa [scrubAppRow] using h'

theorem scrubDisb_length {r₁ r₂ : Row} (h : scrubDisbRow r₁ = scrubDisbRow r₂) :
    r₁.length = r₂.length := by
  have h' := congrArg List.length h
  simpa [scrubDisbRow] using h'

theorem scrubApp_set {r : Row} {n : ℕ} (hn : 2 ≤ n) (x : Field) :
    scrubAppRow (r.set n x) = (scrubAppRow r).set n x := by
  unfold scrubAppRow
  rw [List.set_comm _ _ _ (by omega : n ≠ 0), List.set_comm _ _ _ (by omega : n ≠ 1)]

theorem scrubDisb_set {r : Row} {n : ℕ} (hn : 3 ≤ n) (x : Field) :
    scrubDisbRow (r.set n x) = (scrubDisbRow r).set n x := by
  unfold scrubDisbRow
  rw [List.set_comm _ _ _ (by omega : n ≠ 0), List.set_comm _ _ _ (by omega : n ≠ 1),
    List.set_comm _ _ _ (by omega : n ≠ 2)]

/-! The pairing relations between the two runs' structures. -/

/-- The two pools paired positionally: the k-th merchants carry the two
uuid streams' values at the same index and agree once scrubbed. -/
def poolRel (ids1 ids2 : ℕ → String) : ℕ → List Merchant → List Merchant → Prop
  | _, [], [] => True
  | j, m₁ :: t₁, m₂ :: t₂ =>
    (m₁.merchant_id = ids1 j ∧ m₂.merchant_id = ids2 j ∧
      scrubMerchant m₁ = scrubMerchant m₂) ∧ poolRel ids1 ids2 (j + 1) t₁ t₂
  | _, _, _ => False

/-- The two `merchant_by_id` maps paired positionally, keys at matching
stream indices, values scrub-equal. -/
def byRel (ids1 ids2 : ℕ → String) : ℕ → List (String × Merchant) →
    List (String × Merchant) → Prop
  | _, [], [] => True
  | j, p₁ :: t₁, p₂ :: t₂ =>
    (p₁.1 = ids1 j ∧ p₂.1 = ids2 j ∧ scrubMerchant p₁.2 = scrubMerchant p₂.2) ∧
      byRel ids1 ids2 (j + 1) t₁ t₂
  | _, _, _ => False

/-- The two carry maps paired: keys at matching stream indices below the
id cursor, rows scrub-equal. -/
def carryRel (ids1 ids2 : ℕ → String) (scrub : Row → Row) (bound : ℕ)
    (d₁ d₂ : List (String × Row)) : Prop :=
  List.Forall₂ (fun p₁ p₂ => ∃ j, j < bound ∧ p₁.1 = ids1 j ∧ p₂.1 = ids2 j ∧
    scrub p₁.2 = scrub p₂.2) d₁ d₂

theorem poolRel_length {ids1 ids2 : ℕ → String} :
    ∀ {j : ℕ} {l₁ l₂ : List Merchant}, poolRel ids1 ids2 j l₁ l₂ →
      l₁.length = l₂.length
  | _, [], [], _ => rfl
  | _, _ :: _, _ :: _, h => by
    simp only [List.length_cons, poolRel] at h ⊢
    exact congrArg (· + 1) (poolRel_length h.2)
  | _, [], _ :: _, h => absurd h (by simp [poolRel])
  | _, _ :: _, [], h => absurd h (by simp [poolRel])

theorem poolRel_append {ids1 ids2 : ℕ → String} :
    ∀ {j : ℕ} {l₁ l₂ : List Merchant}, poolRel ids1 ids2 j l₁ l₂ →
      ∀ {m₁ m₂ : Merchant}, m₁.merchant_id = ids1 (j + l₁.length) →
      m₂.merchant_id = ids2 (j + l₁.length) → scrubMerchant m₁ = scrubMerchant m₂ →
      poolRel ids1 ids2 j (l₁ ++ [m₁]) (l₂ ++ [m₂])
  | j, [], [], _, m₁, m₂, h1, h2, h3 => by
    simpa [poolRel] using ⟨h1, h2, h3⟩
  | j, a :: t₁, b :: t₂, h, m₁, m₂, h1, h2, h3 => by
    simp only [poolRel] at h
    simp only [List.cons_append, poolRel, List.length_cons]
    refine ⟨h.1, poolRel_append h.2 ?_ ?_ h3⟩
    · rw [show j + 1 + t₁.length = j + (t₁.length + 1) from by omega]
      exact h1
    · rw [show j + 1 + t₁.length = j + (t₁.length + 1) from by omega]
      exact h2
  | _, [], _ :: _, h, _, _, _, _, _ => absurd h (by simp [poolRel])
  | _, _ :: _, [], h, _, _, _, _, _ => absurd h (by simp [poolRel])

theorem byRel_length {ids1 ids2 : ℕ → String} :
    ∀ {j : ℕ} {d₁ d₂ : List (String × Merchant)}, byRel ids1 ids2 j d₁ d₂ →
      d₁.length = d₂.length
  | _, [], [], _ => rfl
  | _, _ :: _, _ :: _, h => by
    simp only [List.length_cons, byRel] at h ⊢
    exact congrArg (· + 1) (byRel_length h.2)
  | _, [], _ :: _, h => absurd h (by simp [byRel])
  | _, _ :: _, [], h => absurd h (by simp [byRel])

theorem byRel_append {ids1 ids2 : ℕ → String} :
    ∀ {j : ℕ} {d₁ d₂ : List (String × Merchant)}, byRel ids1 ids2 j d₁ d₂ →
      ∀ {v₁ v₂ : Merchant}, scrubMerchant v₁ = scrubMerchant v₂ →
      byRel ids1 ids2 j (d₁ ++ [(ids1 (j + d₁.length), v₁)])
        (d₂ ++ [(ids2 (j + d₁.length), v₂)])
  | j, [], [], _, v₁, v₂, hv => by simpa [byRel] using hv
  | j, a :: t₁, b :: t₂, h, v₁, v₂, hv => by
    simp only [byRel] at h
    simp only [List.cons_append, byRel, List.length_cons]
    refine ⟨h.1, ?_⟩
    rw [show j + (t₁.length + 1) = j + 1 + t₁.length from by omega]
    exact byRel_append h.2 hv
  | _, [], _ :: _, h, _, _, _ => absurd h (by simp [byRel])
  | _, _ :: _, [], h, _, _, _ => absurd h (by simp [byRel])

theorem carryRel_mono {ids1 ids2 : ℕ → String} {scrub : Row → Row}
    {b b' : ℕ} (hb : b ≤ b') {d₁ d₂ : List (String × Row)}
    (h : carryRel ids1 ids2 scrub b d₁ d₂) : carryRel ids1 ids2 scrub b' d₁ d₂ := by
  refine h.imp ?_
  rintro p₁ p₂ ⟨j, hj, h1, h2, h3⟩
  exact ⟨j, by omega, h1, h2, h3⟩

theorem carryRel_length {ids1 ids2 : ℕ → String} {scrub : Row → Row} {b : ℕ}
    {d₁ d₂ : List (String × Row)} (h : carryRel ids1 ids2 scrub b d₁ d₂) :
    d₁.length = d₂.length := h.length_eq

theorem byRel_values {ids1 ids2 : ℕ → String} :
    ∀ {j : ℕ} {d₁ d₂ : List (String × Merchant)}, byRel ids1 ids2 j d₁ d₂ →
    List.Forall₂ (fun m₁ m₂ => scrubMerchant m₁ = scrubMerchant m₂)
      (dictValues d₁) (dictValues d₂)
  | _, [], [], _ => List.Forall₂.nil
  | _, _ :: _, _ :: _, h => by
    simp only [byRel] at h
    exact List.Forall₂.cons h.1.2.2 (byRel_values h.2)
  | _, [], _ :: _, h => absurd h (by simp [byRel])
  | _, _ :: _, [], h => absurd h (by simp [byRel])

theorem byRel_any {ids1 ids2 : ℕ → String}
    (hinj1 : ∀ a b, ids1 a = ids1 b → a = b)
    (hinj2 : ∀ a b, ids2 a = ids2 b → a = b) :
    ∀ {j : ℕ} {d₁ d₂ : List (String × Merchant)}, byRel ids1 ids2 j d₁ d₂ →
    ∀ k, d₁.any (fun p => p.1 == ids1 k) = d₂.any (fun p => p.1 == ids2 k)
  | _, [], [], _, _ => rfl
  | j, p₁ :: t₁, p₂ :: t₂, h, k => by
    simp only [byRel] at h
    obtain ⟨⟨h1, h2, -⟩, ht⟩ := h
    simp only [List.any_cons, h1, h2]
    have hhead : (ids1 j == ids1 k) = (ids2 j == ids2 k) := by
      by_cases hjk : j = k
      · subst hjk; simp
      · have n1 : ¬ ids1 j = ids1 k := fun hEq => hjk (hinj1 _ _ hEq)
        have n2 : ¬ ids2 j = ids2 k := fun hEq => hjk (hinj2 _ _ hEq)
        simp [n1, n2]
    rw [hhead, byRel_any hinj1 hinj2 ht k]
  | _, [], _ :: _, h, _ => absurd h (by simp [byRel])
  | _, _ :: _, [], h, _ => absurd h (by simp [byRel])

theorem byRel_any_true {ids1 ids2 : ℕ → String} :
    ∀ {j : ℕ} {d₁ d₂ : List (String × Merchant)}, byRel ids1 ids2 j d₁ d₂ →
    ∀ {k : ℕ}, j ≤ k → k < j + d₁.length →
    d₁.any (fun p => p.1 == ids1 k) = true
  | _, [], [], _, _, hle, hlt => by simp at hlt; omega
  | j, p₁ :: t₁, p₂ :: t₂, h, k, hle, hlt => by
    simp only [byRel] at h
    obtain ⟨⟨h1, -, -⟩, ht⟩ := h
    simp only [List.any_cons, Bool.or_eq_true]
    by_cases hjk : j = k
    · left
      rw [h1, hjk]
      simp
    · right
      exact byRel_any_true ht (by omega) (by simp at hlt ⊢; omega)
  | _, [], _ :: _, h, _, _, _ => absurd h (by simp [byRel])
  | _, _ :: _, [], h, _, _, _ => absurd h (by simp [byRel])

theorem byRel_map_set {ids1 ids2 : ℕ → String}
    (hinj1 : ∀ a b, ids1 a = ids1 b → a = b)
    (hinj2 : ∀ a b, ids2 a = ids2 b → a = b)
    {v₁ v₂ : Merchant} (hv : scrubMerchant v₁ = scrubMerchant v₂) :
    ∀ {j : ℕ} {d₁ d₂ : List (String × Merchant)}, byRel ids1 ids2 j d₁ d₂ →
    ∀ (k : ℕ),
    byRel ids1 ids2 j
      (d₁.map (fun p => if p.1 = ids1 k then (ids1 k, v₁) else p))
      (d₂.map (fun p => if p.1 = ids2 k then (ids2 k, v₂) else p))
  | _, [], [], _, _ => by simp [byRel]
  | j, p₁ :: t₁, p₂ :: t₂, h, k => by
    simp only [byRel] at h
    obtain ⟨⟨h1, h2, h3⟩, ht⟩ := h
    simp only [List.map_cons, byRel, h1, h2]
    by_cases hjk : j = k
    · have e1 : ids1 j = ids1 k := congrArg ids1 hjk
      have e2 : ids2 j = ids2 k := congrArg ids2 hjk
      simp only [if_pos e1, if_pos e2]
      exact ⟨⟨e1.symm, e2.symm, hv⟩, byRel_map_set hinj1 hinj2 hv ht k⟩
    · have n1 : ¬ ids1 j = ids1 k := fun hEq => hjk (hinj1 _ _ hEq)
      have n2 : ¬ ids2 j = ids2 k := fun hEq => hjk (hinj2 _ _ hEq)
      simp only [if_neg n1, if_neg n2]
      exact ⟨⟨h1, h2, h3⟩, byRel_map_set hinj1 hinj2 hv ht k⟩
  | _, [], _ :: _, h, _ => absurd h (by simp [byRel])
  | _, _ :: _, [], h, _ => absurd h (by simp [byRel])

/-- Updating the same merchant (its key present in both maps, at matching
positions) preserves the pairing of the two `merchant_by_id` maps. -/
theorem byRel_dictSet {ids1 ids2 : ℕ → String}
    (hinj1 : ∀ a b, ids1 a = ids1 b → a = b)
    (hinj2 : ∀ a b, ids2 a = ids2 b → a = b)
    {j : ℕ} {d₁ d₂ : List (String × Merchant)} (h : byRel ids1 ids2 j d₁ d₂)
    {k : ℕ} {v₁ v₂ : Merchant} (hv : scrubMerchant v₁ = scrubMerchant v₂)
    (hle : j ≤ k) (hlt : k < j + d₁.length) :
    byRel ids1 ids2 j (dictSet d₁ (ids1 k) v₁) (dictSet d₂ (ids2 k) v₂) := by
  have hany1 : d₁.any (fun p => p.1 == ids1 k) = true := byRel_any_true h hle hlt
  have hany2 : d₂.any (fun p => p.1 == ids2 k) = true := by
    rw [← byRel_any hinj1 hinj2 h k]
    exact hany1
  unfold dictSet
  rw [hany1, hany2]
  simp only [if_true]
  exact byRel_map_set hinj1 hinj2 hv h k

theorem carryRel_any_false1 {ids1 ids2 : ℕ → String} {scrub : Row → Row}
    (hinj1 : ∀ a b, ids1 a = ids1 b → a = b)
    {b : ℕ} {d₁ d₂ : List (String × Row)} (h : carryRel ids1 ids2 scrub b d₁ d₂)
    {m : ℕ} (hm : b ≤ m) : d₁.any (fun p => p.1 == ids1 m) = false := by
  unfold carryRel at h
  induction h with
  | nil => rfl
  | cons hh ht ih =>
    obtain ⟨j, hj, h1, -, -⟩ := hh
    simp only [List.any_cons, Bool.or_eq_false_iff]
    refine ⟨?_, ih⟩
    rw [h1]
    have hne : ¬ ids1 j = ids1 m := fun hEq => by
      have := hinj1 _ _ hEq
      omega
    simp [hne]

theorem carryRel_any_false2 {ids1 ids2 : ℕ → String} {scrub : Row → Row}
    (hinj2 : ∀ a b, ids2 a = ids2 b → a = b)
    {b : ℕ} {d₁ d₂ : List (String × Row)} (h : carryRel ids1 ids2 scrub b d₁ d₂)
    {m : ℕ} (hm : b ≤ m) : d₂.any (fun p => p.1 == ids2 m) = false := by
  unfold carryRel at h
  induction h with
  | nil => rfl
  | cons hh ht ih =>
    obtain ⟨j, hj, -, h2, -⟩ := hh
    simp only [List.any_cons, Bool.or_eq_false_iff]
    refine ⟨?_, ih⟩
    rw [h2]
    have hne : ¬ ids2 j = ids2 m := fun hEq => by
      have := hinj2 _ _ hEq
      omega
    simp [hne]

/-- Recording a fresh row under the current-cursor uuid appends to both
carry maps and advances the pairing bound. -/
theorem carryRel_insert {ids1 ids2 : ℕ → String} {scrub : Row → Row}
    (hinj1 : ∀ a b, ids1 a = ids1 b → a = b)
    (hinj2 : ∀ a b, ids2 a = ids2 b → a = b)
    {b : ℕ} {d₁ d₂ : List (String × Row)} (h : carryRel ids1 ids2 scrub b d₁ d₂)
    {m : ℕ} (hm : b ≤ m) {r₁ r₂ : Row} (hr : scrub r₁ = scrub r₂) :
    carryRel ids1 ids2 scrub (m + 1) (dictSet d₁ (ids1 m) r₁)
      (dictSet d₂ (ids2 m) r₂) := by
  unfold dictSet
  rw [carryRel_any_false1 hinj1 h hm, carryRel_any_false2 hinj2 h hm]
  simp only [Bool.false_eq_true, if_false]
  exact List.rel_append (carryRel_mono (by omega) h)
    (List.Forall₂.cons ⟨m, by omega, rfl, rfl, hr⟩ List.Forall₂.nil)

/-- An out-of-range or matched positional pick from the two carry maps
yields scrub-equal rows. -/
theorem carryRel_pick {ids1 ids2 : ℕ → String} {scrub : Row → Row}
    {b : ℕ} {d₁ d₂ : List (String × Row)}
    (h : carryRel ids1 ids2 scrub b d₁ d₂) (i : ℕ) :
    scrub ((d₁.getD i ("", [])).2) = scrub ((d₂.getD i ("", [])).2) := by
  rcases forall₂_get? h i with ⟨h1, h2⟩ | ⟨a, b', h1, h2, j, hj, hk1, hk2, hab⟩
  · simp only [List.getD_eq_getElem?_getD, ← List.get?_eq_getElem?, h1, h2,
      Option.getD_none]
  · simp only [List.getD_eq_getElem?_getD, ← List.get?_eq_getElem?, h1, h2,
      Option.getD_some]
    exact hab

/-- Pairing of merchants-file rows: equal once the id cell is erased. -/
def mRowRel (r₁ r₂ : Row) : Prop := scrubMerchRow r₁ = scrubMerchRow r₂

/-- Pairing of applications-file rows. -/
def aRowRel (r₁ r₂ : Row) : Prop := scrubAppRow r₁ = scrubAppRow r₂

/-- Pairing of disbursements- and payments-file rows. -/
def dRowRel (r₁ r₂ : Row) : Prop := scrubDisbRow r₁ = scrubDisbRow r₂

theorem mutate_rel {U : ℕ → ℚ} {ids1 ids2 : ℕ → String} {m₁ m₂ : Merchant}
    (h : scrubMerchant m₁ = scrubMerchant m₂) (c : Ctr) :
    scrubMerchant (mutate_merchant ⟨U, ids1⟩ m₁ c).1 =
      scrubMerchant (mutate_merchant ⟨U, ids2⟩ m₂ c).1 ∧
    (mutate_merchant ⟨U, ids1⟩ m₁ c).1.merchant_id = m₁.merchant_id ∧
    (mutate_merchant ⟨U, ids2⟩ m₂ c).1.merchant_id = m₂.merchant_id ∧
    (mutate_merchant ⟨U, ids1⟩ m₁ c).2 = (mutate_merchant ⟨U, ids2⟩ m₂ c).2 := by
  have hbn : m₁.business_name = m₂.business_name := by
    have hx := congrArg Merchant.business_name h
    simpa [scrubMerchant] using hx
  have hic : m₁.industry_code = m₂.industry_code := by
    have hx := congrArg Merchant.industry_code h
    simpa [scrubMerchant] using hx
  have hsc : m₁.state_code = m₂.state_code := by
    have hx := congrArg Merchant.state_code h
    simpa [scrubMerchant] using hx
  have har : m₁.annual_revenue = m₂.annual_revenue := by
    have hx := congrArg Merchant.annual_revenue h
    simpa [scrubMerchant] using hx
  have hec : m₁.employees_count = m₂.employees_count := by
    have hx := congrArg Merchant.employees_count h
    simpa [scrubMerchant] using hx
  have hrs : m₁.risk_score = m₂.risk_score := by
    have hx := congrArg Merchant.risk_score h
    simpa [scrubMerchant] using hx
  have hod : m₁.onboarding_date = m₂.onboarding_date := by
    have hx := congrArg Merchant.onboarding_date h
    simpa [scrubMerchant] using hx
  simp only [mutate_merchant, rand, pyUniform]
  split_ifs <;>
    exact ⟨by simp [scrubMerchant, hbn, hic, hsc, har, hec, hrs, hod], rfl, rfl, rfl⟩

theorem merchRowOf_rel {m₁ m₂ : Merchant}
    (h : scrubMerchant m₁ = scrubMerchant m₂) :
    mRowRel (merchRowOf m₁) (merchRowOf m₂) := by
  have hbn : m₁.business_name = m₂.business_name := by
    have hx := congrArg Merchant.business_name h
    simpa [scrubMerchant] using hx
  have hic : m₁.industry_code = m₂.industry_code := by
    have hx := congrArg Merchant.industry_code h
    simpa [scrubMerchant] using hx
  have hsc : m₁.state_code = m₂.state_code := by
    have hx := congrArg Merchant.state_code h
    simpa [scrubMerchant] using hx
  have har : m₁.annual_revenue = m₂.annual_revenue := by
    have hx := congrArg Merchant.annual_revenue h
    simpa [scrubMerchant] using hx
  have hec : m₁.employees_count = m₂.employees_count := by
    have hx := congrArg Merchant.employees_count h
    simpa [scrubMerchant] using hx
  have hrs : m₁.risk_score = m₂.risk_score := by
    have hx := congrArg Merchant.risk_score h
    simpa [scrubMerchant] using hx
  have hod : m₁.onboarding_date = m₂.onboarding_date := by
    have hx := congrArg Merchant.onboarding_date h
    simpa [scrubMerchant] using hx
  simp [mRowRel, merchRowOf, scrubMerchRow, List.set, hbn, hic, hsc, har, hec, hrs, hod]

/-- One snapshot-loop iteration on paired merchants against paired
accumulators: paired rows out, paired `merchant_by_id`, equal cursors,
map length unchanged. -/
theorem merchOne_rel {U : ℕ → ℚ} {ids1 ids2 : ℕ → String}
    (hinj1 : ∀ a b, ids1 a = ids1 b → a = b)
    (hinj2 : ∀ a b, ids2 a = ids2 b → a = b)
    {j : ℕ} {m₁ m₂ : Merchant}
    (hm1 : m₁.merchant_id = ids1 j) (hm2 : m₂.merchant_id = ids2 j)
    (hm : scrubMerchant m₁ = scrubMerchant m₂)
    (acc₁ acc₂ : List Row × List (String × Merchant) × Ctr)
    (hrows : List.Forall₂ mRowRel acc₁.1 acc₂.1)
    (hby : byRel ids1 ids2 0 acc₁.2.1 acc₂.2.1)
    (hc : acc₁.2.2 = acc₂.2.2) (hjb : j < acc₁.2.1.length) :
    List.Forall₂ mRowRel (merchOne ⟨U, ids1⟩ m₁ acc₁).1
      (merchOne ⟨U, ids2⟩ m₂ acc₂).1 ∧
    byRel ids1 ids2 0 (merchOne ⟨U, ids1⟩ m₁ acc₁).2.1
      (merchOne ⟨U, ids2⟩ m₂ acc₂).2.1 ∧
    (merchOne ⟨U, ids1⟩ m₁ acc₁).2.2 = (merchOne ⟨U, ids2⟩ m₂ acc₂).2.2 ∧
    (merchOne ⟨U, ids1⟩ m₁ acc₁).2.1.length = acc₁.2.1.length := by
  obtain ⟨r₁, b₁, c₁⟩ := acc₁
  obtain ⟨r₂, b₂, c₂⟩ := acc₂
  dsimp only at hrows hby hc hjb ⊢
  subst hc
  obtain ⟨hmut, hid1, hid2, hmc⟩ := @mutate_rel U ids1 ids2 m₁ m₂ hm ⟨c₁.u + 1, c₁.id⟩
  simp only [merchOne, chance, rand]
  split_ifs
  · refine ⟨List.rel_append hrows
      (List.Forall₂.cons (merchRowOf_rel hmut) List.Forall₂.nil), ?_, by rw [hmc], ?_⟩
    · rw [hm1, hm2]
      exact byRel_dictSet hinj1 hinj2 hby hmut (by omega) (by omega)
    · rw [hm1]
      unfold dictSet
      rw [byRel_any_true hby (k := j) (by omega) (by omega)]
      simp
  · exact ⟨List.rel_append hrows
      (List.Forall₂.cons (merchRowOf_rel hm) List.Forall₂.nil), hby, rfl, rfl⟩

theorem forall₂_isEmpty {R : α → β → Prop} {l₁ : List α} {l₂ : List β}
    (h : List.Forall₂ R l₁ l₂) : l₁.isEmpty = l₂.isEmpty := by
  cases h <;> rfl

/-! The raw-draw primitives read only the shared `U` stream: the two
runs' calls are definitionally equal. -/

theorem rand_pair (U : ℕ → ℚ) (ids1 ids2 : ℕ → String) (c : Ctr) :
    rand ⟨U, ids1⟩ c = rand ⟨U, ids2⟩ c := rfl

theorem chance_pair (U : ℕ → ℚ) (ids1 ids2 : ℕ → String) (p : ℚ) (c : Ctr) :
    chance ⟨U, ids1⟩ p c = chance ⟨U, ids2⟩ p c := rfl

theorem pyUniform_pair (U : ℕ → ℚ) (ids1 ids2 : ℕ → String) (a b : ℚ) (c : Ctr) :
    pyUniform ⟨U, ids1⟩ a b c = pyUniform ⟨U, ids2⟩ a b c := rfl

theorem pyRandint_pair (U : ℕ → ℚ) (ids1 ids2 : ℕ → String) (a b : ℤ) (c : Ctr) :
    pyRandint ⟨U, ids1⟩ a b c = pyRandint ⟨U, ids2⟩ a b c := rfl

theorem randIndex_pair (U : ℕ → ℚ) (ids1 ids2 : ℕ → String) (n : ℕ) (c : Ctr) :
    randIndex ⟨U, ids1⟩ n c = randIndex ⟨U, ids2⟩ n c := rfl

theorem pyChoiceD_pair (U : ℕ → ℚ) (ids1 ids2 : ℕ → String) (xs : List α) (d : α)
    (c : Ctr) : pyChoiceD ⟨U, ids1⟩ xs d c = pyChoiceD ⟨U, ids2⟩ xs d c := rfl

theorem statusChoice_pair (U : ℕ → ℚ) (ids1 ids2 : ℕ → String) (c : Ctr) :
    statusChoice ⟨U, ids1⟩ c = statusChoice ⟨U, ids2⟩ c := rfl

theorem byRel_any_false1 {ids1 ids2 : ℕ → String} :
    ∀ {j : ℕ} {d₁ d₂ : List (String × Merchant)}, byRel ids1 ids2 j d₁ d₂ →
    ∀ {k : ℕ}, (∀ a b, ids1 a = ids1 b → a = b) → j + d₁.length ≤ k →
    d₁.any (fun p => p.1 == ids1 k) = false
  | _, [], [], _, _, _, _ => rfl
  | j, p₁ :: t₁, p₂ :: t₂, h, k, hinj1, hk => by
    simp only [byRel] at h
    obtain ⟨⟨h1, -, -⟩, ht⟩ := h
    simp only [List.any_cons, Bool.or_eq_false_iff]
    constructor
    · rw [h1]
      have hne : ¬ ids1 j = ids1 k := fun hEq => by
        have := hinj1 _ _ hEq
        simp at hk
        omega
      simp [hne]
    · exact byRel_any_false1 ht hinj1 (by simp at hk ⊢; omega)
  | _, [], _ :: _, h, _, _, _ => absurd h (by simp [byRel])
  | _, _ :: _, [], h, _, _, _ => absurd h (by simp [byRel])

theorem byRel_any_false2 {ids1 ids2 : ℕ → String} :
    ∀ {j : ℕ} {d₁ d₂ : List (String × Merchant)}, byRel ids1 ids2 j d₁ d₂ →
    ∀ {k : ℕ}, (∀ a b, ids2 a = ids2 b → a = b) → j + d₂.length ≤ k →
    d₂.any (fun p => p.1 == ids2 k) = false
  | _, [], [], _, _, _, _ => rfl
  | j, p₁ :: t₁, p₂ :: t₂, h, k, hinj2, hk => by
    simp only [byRel] at h
    obtain ⟨⟨-, h2, -⟩, ht⟩ := h
    simp only [List.any_cons, Bool.or_eq_false_iff]
    constructor
    · rw [h2]
      have hne : ¬ ids2 j = ids2 k := fun hEq => by
        have := hinj2 _ _ hEq
        simp at hk
        omega
      simp [hne]
    · exact byRel_any_false2 ht hinj2 (by simp at hk ⊢; omega)
  | _, [], _ :: _, h, _, _, _ => absurd h (by simp [byRel])
  | _, _ :: _, [], h, _, _, _ => absurd h (by simp [byRel])

/-- Building `merchant_by_id` from paired pools pairs the maps: all keys
are fresh, so both runs append in pool order. -/
theorem byBuild_rel {ids1 ids2 : ℕ → String}
    (hinj1 : ∀ a b, ids1 a = ids1 b → a = b)
    (hinj2 : ∀ a b, ids2 a = ids2 b → a = b) :
    ∀ {ms₁ ms₂ : List Merchant} {j : ℕ}, poolRel ids1 ids2 j ms₁ ms₂ →
    ∀ {d₁ d₂ : List (String × Merchant)}, byRel ids1 ids2 0 d₁ d₂ →
    d₁.length = j →
    byRel ids1 ids2 0 (ms₁.foldl (fun d m => dictSet d m.merchant_id m) d₁)
      (ms₂.foldl (fun d m => dictSet d m.merchant_id m) d₂) ∧
    (ms₁.foldl (fun d m => dictSet d m.merchant_id m) d₁).length = j + ms₁.length
  | [], [], j, _, d₁, d₂, hd, hl => by simpa [hl] using hd
  | m₁ :: t₁, m₂ :: t₂, j, h, d₁, d₂, hd, hl => by
    simp only [poolRel] at h
    obtain ⟨⟨h1, h2, h3⟩, ht⟩ := h
    simp only [List.foldl_cons]
    have hset1 : dictSet d₁ m₁.merchant_id m₁ = d₁ ++ [(ids1 j, m₁)] := by
      unfold dictSet
      rw [h1, byRel_any_false1 hd hinj1 (by omega)]
      simp
    have hset2 : dictSet d₂ m₂.merchant_id m₂ = d₂ ++ [(ids2 j, m₂)] := by
      unfold dictSet
      rw [h2, byRel_any_false2 hd hinj2 (by rw [← byRel_length hd]; omega)]
      simp
    rw [hset1, hset2]
    have hd' : byRel ids1 ids2 0 (d₁ ++ [(ids1 j, m₁)]) (d₂ ++ [(ids2 j, m₂)]) := by
      have := byRel_append hd h3
      rwa [Nat.zero_add, hl] at this
    have hres := byBuild_rel hinj1 hinj2 ht hd' (by simp [hl])
    refine ⟨hres.1, ?_⟩
    rw [hres.2, List.length_cons]
    omega
  | [], _ :: _, _, h, _, _, _, _ => absurd h (by simp [poolRel])
  | _ :: _, [], _, h, _, _, _, _ => absurd h (by simp [poolRel])

/-- The merchant-generation step pairs by reflexivity: only the id cell
differs between runs. -/
theorem genMerchOne_pair (U : ℕ → ℚ) (ids1 ids2 : ℕ → String) (cfg : Config)
    (i : ℕ) (c : Ctr) :
    (genMerchOne ⟨U, ids1⟩ cfg i c).1.merchant_id = ids1 c.id ∧
    (genMerchOne ⟨U, ids2⟩ cfg i c).1.merchant_id = ids2 c.id ∧
    scrubMerchant (genMerchOne ⟨U, ids1⟩ cfg i c).1 =
      scrubMerchant (genMerchOne ⟨U, ids2⟩ cfg i c).1 ∧
    (genMerchOne ⟨U, ids1⟩ cfg i c).2 = (genMerchOne ⟨U, ids2⟩ cfg i c).2 ∧
    (genMerchOne ⟨U, ids1⟩ cfg i c).2.id = c.id + 1 :=
  ⟨rfl, rfl, rfl, rfl, rfl⟩

/-- The pool-generation fold pairs the two pools positionally at the id
cursor. -/
theorem genFold_rel {U : ℕ → ℚ} {ids1 ids2 : ℕ → String} {cfg : Config} :
    ∀ (l : List ℕ) (acc₁ acc₂ : List Merchant × Ctr) (j : ℕ),
    poolRel ids1 ids2 j acc₁.1 acc₂.1 → acc₁.2 = acc₂.2 →
    acc₁.2.id = j + acc₁.1.length →
    poolRel ids1 ids2 j
      (l.foldl (fun acc i =>
        let p := genMerchOne ⟨U, ids1⟩ cfg i acc.2
        (acc.1 ++ [p.1], p.2)) acc₁).1
      (l.foldl (fun acc i =>
        let p := genMerchOne ⟨U, ids2⟩ cfg i acc.2
        (acc.1 ++ [p.1], p.2)) acc₂).1 ∧
    (l.foldl (fun acc i =>
        let p := genMerchOne ⟨U, ids1⟩ cfg i acc.2
        (acc.1 ++ [p.1], p.2)) acc₁).2 =
      (l.foldl (fun acc i =>
        let p := genMerchOne ⟨U, ids2⟩ cfg i acc.2
        (acc.1 ++ [p.1], p.2)) acc₂).2 ∧
    (l.foldl (fun acc i =>
        let p := genMerchOne ⟨U, ids1⟩ cfg i acc.2
        (acc.1 ++ [p.1], p.2)) acc₁).2.id =
      j + (l.foldl (fun acc i =>
        let p := genMerchOne ⟨U, ids1⟩ cfg i acc.2
        (acc.1 ++ [p.1], p.2)) acc₁).1.length := by
  intro l
  induction l with
  | nil =>
    intro acc₁ acc₂ j hp hc hi
    exact ⟨hp, hc, hi⟩
  | cons i rest ih =>
    intro acc₁ acc₂ j hp hc hi
    obtain ⟨a₁, c₁⟩ := acc₁
    obtain ⟨a₂, c₂⟩ := acc₂
    dsimp only at hp hc hi ⊢
    subst hc
    obtain ⟨g1, g2, g3, g4, g5⟩ := genMerchOne_pair U ids1 ids2 cfg i c₁
    simp only [List.foldl_cons]
    refine ih _ _ j ?_ ?_ ?_
    · dsimp only
      refine poolRel_append hp ?_ ?_ g3
      · rw [← hi]
        exact g1
      · rw [← hi]
        exact g2
    · dsimp only
      rw [g4]
    · dsimp only
      rw [g5, hi]
      simp [Nat.add_assoc]

/-- The snapshot fold over paired pools with paired accumulators. -/
theorem merchFold_rel {U : ℕ → ℚ} {ids1 ids2 : ℕ → String}
    (hinj1 : ∀ a b, ids1 a = ids1 b → a = b)
    (hinj2 : ∀ a b, ids2 a = ids2 b → a = b) :
    ∀ {ms₁ ms₂ : List Merchant} {j : ℕ}, poolRel ids1 ids2 j ms₁ ms₂ →
    ∀ (acc₁ acc₂ : List Row × List (String × Merchant) × Ctr),
      List.Forall₂ mRowRel acc₁.1 acc₂.1 → byRel ids1 ids2 0 acc₁.2.1 acc₂.2.1 →
      acc₁.2.2 = acc₂.2.2 → j + ms₁.length ≤ acc₁.2.1.length →
      List.Forall₂ mRowRel
        (ms₁.foldl (fun a m => merchOne ⟨U, ids1⟩ m a) acc₁).1
        (ms₂.foldl (fun a m => merchOne ⟨U, ids2⟩ m a) acc₂).1 ∧
      byRel ids1 ids2 0 (ms₁.foldl (fun a m => merchOne ⟨U, ids1⟩ m a) acc₁).2.1
        (ms₂.foldl (fun a m => merchOne ⟨U, ids2⟩ m a) acc₂).2.1 ∧
      (ms₁.foldl (fun a m => merchOne ⟨U, ids1⟩ m a) acc₁).2.2 =
        (ms₂.foldl (fun a m => merchOne ⟨U, ids2⟩ m a) acc₂).2.2 ∧
      (ms₁.foldl (fun a m => merchOne ⟨U, ids1⟩ m a) acc₁).2.1.length =
        acc₁.2.1.length
  | [], [], _, _, acc₁, acc₂, hrows, hby, hc, _ => ⟨hrows, hby, hc, rfl⟩
  | m₁ :: t₁, m₂ :: t₂, j, h, acc₁, acc₂, hrows, hby, hc, hble => by
    simp only [poolRel] at h
    obtain ⟨⟨h1, h2, h3⟩, ht⟩ := h
    simp only [List.foldl_cons]
    obtain ⟨o1, o2, o3, o4⟩ := merchOne_rel hinj1 hinj2 h1 h2 h3 acc₁ acc₂ hrows hby hc
      (by simp at hble; omega)
    have hres := @merchFold_rel U ids1 ids2 hinj1 hinj2 t₁ t₂ (j + 1) ht
      (merchOne ⟨U, ids1⟩ m₁ acc₁) (merchOne ⟨U, ids2⟩ m₂ acc₂) o1 o2 o3
      (by rw [o4]; simp at hble ⊢; omega)
    exact ⟨hres.1, hres.2.1, hres.2.2.1, by rw [hres.2.2.2, o4]⟩
  | [], _ :: _, _, h, _, _, _, _, _, _ => absurd h (by simp [poolRel])
  | _ :: _, [], _, h, _, _, _, _, _, _ => absurd h (by simp [poolRel])

/-- The full snapshot stage on paired pools and maps: paired file rows,
paired `merchant_by_id`, equal cursors, map length unchanged. -/
theorem merchStage_rel {U : ℕ → ℚ} {ids1 ids2 : ℕ → String}
    (hinj1 : ∀ a b, ids1 a = ids1 b → a = b)
    (hinj2 : ∀ a b, ids2 a = ids2 b → a = b)
    {cfg : Config} {ms₁ ms₂ : List Merchant}
    (hpool : poolRel ids1 ids2 0 ms₁ ms₂)
    {b₁ b₂ : List (String × Merchant)} (hb : byRel ids1 ids2 0 b₁ b₂)
    (hlen : ms₁.length ≤ b₁.length) (c : Ctr) :
    List.Forall₂ mRowRel (merchStage ⟨U, ids1⟩ cfg ms₁ b₁ c).1
      (merchStage ⟨U, ids2⟩ cfg ms₂ b₂ c).1 ∧
    byRel ids1 ids2 0 (merchStage ⟨U, ids1⟩ cfg ms₁ b₁ c).2.1
      (merchStage ⟨U, ids2⟩ cfg ms₂ b₂ c).2.1 ∧
    (merchStage ⟨U, ids1⟩ cfg ms₁ b₁ c).2.2 =
      (merchStage ⟨U, ids2⟩ cfg ms₂ b₂ c).2.2 ∧
    (merchStage ⟨U, ids1⟩ cfg ms₁ b₁ c).2.1.length = b₁.length := by
  obtain ⟨hrowsL, hbyL, hcL, hlenL⟩ := @merchFold_rel U ids1 ids2 hinj1 hinj2 ms₁ ms₂ 0
    hpool ([], b₁, c) ([], b₂, c) List.Forall₂.nil hb rfl (by simpa)
  simp only [merchStage, merchLoop]
  generalize hG1 : List.foldl (fun a m => merchOne ⟨U, ids1⟩ m a) ([], b₁, c) ms₁ = L₁
    at hrowsL hbyL hcL hlenL ⊢
  generalize hG2 : List.foldl (fun a m => merchOne ⟨U, ids2⟩ m a) ([], b₂, c) ms₂ = L₂
    at hrowsL hbyL hcL hlenL ⊢
  obtain ⟨r₁, bb₁, c₁⟩ := L₁
  obtain ⟨r₂, bb₂, c₂⟩ := L₂
  dsimp only at hrowsL hbyL hcL hlenL ⊢
  subst hcL
  have hie := forall₂_isEmpty hrowsL
  have hlr := hrowsL.length_eq
  rw [← chance_pair U ids1 ids2 cfg.duplicate_rate,
    ← chance_pair U ids1 ids2 cfg.invalid_rate]
  by_cases hce : r₁.isEmpty = true
  · rw [if_pos hce, if_pos (hie.symm.trans hce)]
    dsimp only
    split_ifs
    · exact ⟨List.rel_append hrowsL (List.Forall₂.cons rfl List.Forall₂.nil),
        hbyL, rfl, hlenL⟩
    · exact ⟨hrowsL, hbyL, rfl, hlenL⟩
  · rw [if_neg hce, if_neg (fun h => hce (hie.trans h))]
    have hpick : mRowRel
        (pyChoiceD ⟨U, ids1⟩ r₁ [] (chance ⟨U, ids1⟩ cfg.duplicate_rate c₁).2).1
        (pyChoiceD ⟨U, ids2⟩ r₂ [] (chance ⟨U, ids1⟩ cfg.duplicate_rate c₁).2).1 := by
      simp only [pyChoiceD, pyChoice?, randIndex, rand]
      rw [← hlr]
      exact forall₂_getD hrowsL rfl _
    have hctr : (pyChoiceD ⟨U, ids1⟩ r₁ []
          (chance ⟨U, ids1⟩ cfg.duplicate_rate c₁).2).2 =
        (pyChoiceD ⟨U, ids2⟩ r₂ []
          (chance ⟨U, ids1⟩ cfg.duplicate_rate c₁).2).2 := by
      simp only [pyChoiceD, pyChoice?, randIndex, rand]
    by_cases hdup : (chance ⟨U, ids1⟩ cfg.duplicate_rate c₁).1 = true
    · simp only [if_pos hdup]
      rw [← hctr]
      split_ifs
      · exact ⟨List.rel_append
          (List.rel_append hrowsL (List.Forall₂.cons hpick List.Forall₂.nil))
          (List.Forall₂.cons rfl List.Forall₂.nil), hbyL, rfl, hlenL⟩
      · exact ⟨List.rel_append hrowsL (List.Forall₂.cons hpick List.Forall₂.nil),
          hbyL, rfl, hlenL⟩
    · simp only [if_neg hdup]
      split_ifs
      · exact ⟨List.rel_append hrowsL (List.Forall₂.cons rfl List.Forall₂.nil),
          hbyL, trivial, hlenL⟩
      · exact ⟨hrowsL, hbyL, trivial, hlenL⟩

theorem optRel_mono {R S : α → β → Prop} (h : ∀ a b, R a b → S a b) :
    ∀ {o₁ : Option α} {o₂ : Option β}, optRel R o₁ o₂ → optRel S o₁ o₂
  | none, none, _ => trivial
  | some a, some b, h' => h a b h'
  | none, some _, h' => h'.elim
  | some _, none, h' => h'.elim

theorem get?_getD (l : List α) (i : ℕ) (d : α) : (l.get? i).getD d = l.getD i d := by
  rw [List.getD_eq_getElem?_getD, List.get?_eq_getElem?]

/-- The guarded swap preserves any positional pairing. -/
theorem listSwap_rel {R : α → α → Prop} {l₁ l₂ : List α}
    (h : List.Forall₂ R l₁ l₂) (i j : ℕ) :
    List.Forall₂ R (listSwap l₁ i j) (listSwap l₂ i j) := by
  unfold listSwap
  rcases forall₂_get? h i with ⟨hi1, hi2⟩ | ⟨a, b, hi1, hi2, hab⟩ <;>
    rcases forall₂_get? h j with ⟨hj1, hj2⟩ | ⟨x, y, hj1, hj2, hxy⟩ <;>
      rw [hi1, hi2, hj1, hj2]
  · exact h
  · exact h
  · exact h
  · exact forall₂_set (forall₂_set h hxy i) hab j

/-- The Fisher-Yates tail reads only the shared raw stream, so it makes
the same swaps in both runs. -/
theorem shuffleGo_rel {U : ℕ → ℚ} {ids1 ids2 : ℕ → String} {R : α → α → Prop} :
    ∀ (i : ℕ) {l₁ l₂ : List α}, List.Forall₂ R l₁ l₂ → ∀ (c : Ctr),
    List.Forall₂ R (shuffleGo ⟨U, ids1⟩ i l₁ c).1 (shuffleGo ⟨U, ids2⟩ i l₂ c).1 ∧
    (shuffleGo ⟨U, ids1⟩ i l₁ c).2 = (shuffleGo ⟨U, ids2⟩ i l₂ c).2
  | 0, _, _, h, _ => ⟨h, rfl⟩
  | i + 1, l₁, l₂, h, c => by
    simp only [shuffleGo, rand]
    exact shuffleGo_rel i (listSwap_rel h _ _) _

theorem pyShuffle_rel {U : ℕ → ℚ} {ids1 ids2 : ℕ → String} {R : α → α → Prop}
    {l₁ l₂ : List α} (h : List.Forall₂ R l₁ l₂) (c : Ctr) :
    List.Forall₂ R (pyShuffle ⟨U, ids1⟩ l₁ c).1 (pyShuffle ⟨U, ids2⟩ l₂ c).1 ∧
    (pyShuffle ⟨U, ids1⟩ l₁ c).2 = (pyShuffle ⟨U, ids2⟩ l₂ c).2 := by
  unfold pyShuffle
  rw [← h.length_eq]
  exact shuffleGo_rel _ h c

/-- The `APPROVED` filter reads only the length and cell 5, both
invariant under erasing the two id cells. -/
theorem isApproved_rel {r₁ r₂ : Row} (h : aRowRel r₁ r₂) :
    isApproved r₁ = isApproved r₂ := by
  unfold isApproved
  rw [scrubApp_length h, scrubApp_getD h (by norm_num : (2 : ℕ) ≤ 5)]

/-- One fresh application paired between the two runs: the id cell and
the merchant-id cell carry the streams' values, everything else is
equal, and the cursors advance in step. -/
theorem genAppOne_rel {U : ℕ → ℚ} {ids1 ids2 : ℕ → String} {cfg : Config} {batch : ℤ}
    {b₁ b₂ : List (String × Merchant)} (hb : byRel ids1 ids2 0 b₁ b₂) (c : Ctr) :
    optRel (fun x y => x.1 = ids1 c.id ∧ y.1 = ids2 c.id ∧
        aRowRel x.2.1 y.2.1 ∧ x.2.2 = y.2.2 ∧ x.2.2.id = c.id + 1)
      (genAppOne ⟨U, ids1⟩ cfg batch b₁ c) (genAppOne ⟨U, ids2⟩ cfg batch b₂ c) := by
  have hv := byRel_values hb
  have hlen : (dictValues b₁).length = (dictValues b₂).length := hv.length_eq
  simp only [genAppOne, sample_merch, pyChoice?, randIndex, rand, uuid4, chance,
    pyRandint, pyUniform, statusChoice, pyChoiceD]
  rw [← hlen]
  rcases forall₂_get? hv ((⌊U c.u * ((dictValues b₁).length : ℚ)⌋).toNat) with
    ⟨h1, h2⟩ | ⟨m₁, m₂, h1, h2, hm⟩ <;> rw [h1, h2]
  · exact trivial
  · simp only [optRel, eq_self_iff_true, true_and, and_true]
    split_ifs <;> simp [aRowRel, scrubAppRow, List.set]

theorem aRowRel_refl (r : Row) : aRowRel r r := rfl

theorem dRowRel_refl (r : Row) : dRowRel r r := rfl

/-- Resurfacing from paired carry maps: the positional pick matches, and
both updates land past the scrubbed prefix. -/
theorem appResurface_rel {U : ℕ → ℚ} {ids1 ids2 : ℕ → String} {b : ℕ}
    {d₁ d₂ : List (String × Row)} (h : carryRel ids1 ids2 scrubAppRow b d₁ d₂)
    (batch : ℤ) (c : Ctr) :
    aRowRel (appResurface ⟨U, ids1⟩ batch d₁ c).1
      (appResurface ⟨U, ids2⟩ batch d₂ c).1 ∧
    (appResurface ⟨U, ids1⟩ batch d₁ c).2 = (appResurface ⟨U, ids2⟩ batch d₂ c).2 := by
  have hlen := carryRel_length h
  have hpick := carryRel_pick h ((⌊U c.u * (d₁.length : ℚ)⌋).toNat)
  have hs5 := scrubApp_getD hpick (by norm_num : (2 : ℕ) ≤ 5) (Field.str "")
  simp only [appResurface, pyChoiceD, pyChoice?, randIndex, rand, pyRandint]
  rw [← hlen, get?_getD, get?_getD]
  refine ⟨?_, trivial⟩
  unfold aRowRel
  rw [scrubApp_set (by norm_num : (2 : ℕ) ≤ 7) _,
    scrubApp_set (by norm_num : (2 : ℕ) ≤ 7) _,
    scrubApp_set (by norm_num : (2 : ℕ) ≤ 5) _,
    scrubApp_set (by norm_num : (2 : ℕ) ≤ 5) _, hpick, hs5]

/-- The fresh-application loop on paired inputs: paired rows, paired
carry maps at the advanced cursor, equal cursors. -/
theorem appLoop_rel {U : ℕ → ℚ} {ids1 ids2 : ℕ → String}
    (hinj1 : ∀ a b, ids1 a = ids1 b → a = b)
    (hinj2 : ∀ a b, ids2 a = ids2 b → a = b)
    {cfg : Config} {batch : ℤ} {b₁ b₂ : List (String × Merchant)}
    (hb : byRel ids1 ids2 0 b₁ b₂) :
    ∀ (n : ℕ) {rows₁ rows₂ : List Row}, List.Forall₂ aRowRel rows₁ rows₂ →
    ∀ {d₁ d₂ : List (String × Row)} (c : Ctr),
      carryRel ids1 ids2 scrubAppRow c.id d₁ d₂ →
    optRel (fun x y => List.Forall₂ aRowRel x.1 y.1 ∧
        carryRel ids1 ids2 scrubAppRow x.2.2.id x.2.1 y.2.1 ∧
        x.2.2 = y.2.2 ∧ c.id ≤ x.2.2.id)
      (appLoop ⟨U, ids1⟩ cfg batch b₁ n rows₁ d₁ c)
      (appLoop ⟨U, ids2⟩ cfg batch b₂ n rows₂ d₂ c)
  | 0, rows₁, rows₂, hr, d₁, d₂, c, hd => by
    simp only [appLoop, optRel]
    exact ⟨hr, hd, trivial, le_refl _⟩
  | n + 1, rows₁, rows₂, hr, d₁, d₂, c, hd => by
    simp only [appLoop]
    have hg := @genAppOne_rel U ids1 ids2 cfg batch b₁ b₂ hb c
    rcases hq1 : genAppOne ⟨U, ids1⟩ cfg batch b₁ c with _ | ⟨a₁, r₁, c₁⟩ <;>
      rcases hq2 : genAppOne ⟨U, ids2⟩ cfg batch b₂ c with _ | ⟨a₂, r₂, c₂⟩ <;>
        rw [hq1, hq2] at hg
    · exact trivial
    · exact hg.elim
    · exact hg.elim
    · simp only [optRel] at hg
      obtain ⟨ha1, ha2, hrow, hcc, hcid⟩ := hg
      subst hcc
      rw [ha1, ha2]
      dsimp only
      rw [← chance_pair U ids1 ids2 cfg.duplicate_rate c₁]
      have hd' : carryRel ids1 ids2 scrubAppRow
          (chance ⟨U, ids1⟩ cfg.duplicate_rate c₁).2.id
          (dictSet d₁ (ids1 c.id) r₁) (dictSet d₂ (ids2 c.id) r₂) := by
        rw [chance_snd_id, hcid]
        exact carryRel_insert hinj1 hinj2 hd (le_refl c.id) hrow
      by_cases hdup : (chance ⟨U, ids1⟩ cfg.duplicate_rate c₁).1 = true
      · simp only [if_pos hdup]
        refine optRel_mono ?_ (appLoop_rel hinj1 hinj2 hb n
          (List.rel_append (List.rel_append hr (List.Forall₂.cons hrow List.Forall₂.nil))
            (List.Forall₂.cons hrow List.Forall₂.nil)) _ hd')
        rintro x y ⟨f1, f2, f3, f4⟩
        refine ⟨f1, f2, f3, ?_⟩
        rw [chance_snd_id, hcid] at f4
        omega
      · simp only [if_neg hdup]
        refine optRel_mono ?_ (appLoop_rel hinj1 hinj2 hb n
          (List.rel_append hr (List.Forall₂.cons hrow List.Forall₂.nil)) _ hd')
        rintro x y ⟨f1, f2, f3, f4⟩
        refine ⟨f1, f2, f3, ?_⟩
        rw [chance_snd_id, hcid] at f4
        omega

/-- The applications stage on paired inputs: paired file rows, paired
carry maps at the advanced cursor, equal cursors. -/
theorem appStage_rel {U : ℕ → ℚ} {ids1 ids2 : ℕ → String}
    (hinj1 : ∀ a b, ids1 a = ids1 b → a = b)
    (hinj2 : ∀ a b, ids2 a = ids2 b → a = b)
    {cfg : Config} {batch : ℤ} {b₁ b₂ : List (String × Merchant)}
    (hb : byRel ids1 ids2 0 b₁ b₂)
    {d₁ d₂ : List (String × Row)} (c : Ctr)
    (hd : carryRel ids1 ids2 scrubAppRow c.id d₁ d₂) :
    optRel (fun x y => List.Forall₂ aRowRel x.1 y.1 ∧
        carryRel ids1 ids2 scrubAppRow x.2.2.id x.2.1 y.2.1 ∧
        x.2.2 = y.2.2 ∧ c.id ≤ x.2.2.id)
      (appStage ⟨U, ids1⟩ cfg batch b₁ d₁ c)
      (appStage ⟨U, ids2⟩ cfg batch b₂ d₂ c) := by
  have hie : d₁.isEmpty = d₂.isEmpty := forall₂_isEmpty hd
  simp only [appStage]
  by_cases hce : d₁.isEmpty = true
  · rw [if_pos hce, if_pos (hie.symm.trans hce)]
    dsimp only
    have hloop := @appLoop_rel U ids1 ids2 hinj1 hinj2 cfg batch b₁ b₂ hb
      cfg.apps_per_day.toNat [] [] List.Forall₂.nil d₁ d₂ c hd
    rcases hl1 : appLoop ⟨U, ids1⟩ cfg batch b₁ cfg.apps_per_day.toNat [] d₁ c
        with _ | ⟨rs₁, cy₁, cc₁⟩ <;>
      rcases hl2 : appLoop ⟨U, ids2⟩ cfg batch b₂ cfg.apps_per_day.toNat [] d₂ c
        with _ | ⟨rs₂, cy₂, cc₂⟩ <;>
        rw [hl1, hl2] at hloop
    · exact trivial
    · exact hloop.elim
    · exact hloop.elim
    · simp only [optRel] at hloop
      obtain ⟨g1, g2, g3, g4⟩ := hloop
      subst g3
      dsimp only
      rw [← chance_pair U ids1 ids2 cfg.invalid_rate cc₁]
      by_cases hinv : (chance ⟨U, ids1⟩ cfg.invalid_rate cc₁).1 = true
      · simp only [if_pos hinv, optRel]
        refine ⟨List.rel_append g1
          (List.Forall₂.cons (aRowRel_refl invalidAppRow) List.Forall₂.nil),
          ?_, trivial, ?_⟩
        · rw [chance_snd_id]
          exact g2
        · rw [chance_snd_id]
          omega
      · simp only [if_neg hinv, optRel]
        refine ⟨g1, ?_, trivial, ?_⟩
        · rw [chance_snd_id]
          exact g2
        · rw [chance_snd_id]
          omega
  · rw [if_neg hce, if_neg (fun h => hce (hie.trans h))]
    rw [← chance_pair U ids1 ids2 (25 / 100) c]
    by_cases hres : (chance ⟨U, ids1⟩ (25 / 100) c).1 = true
    · simp only [if_pos hres]
      obtain ⟨har, hactr⟩ :=
        @appResurface_rel U ids1 ids2 c.id d₁ d₂ hd batch
          (chance ⟨U, ids1⟩ (25 / 100) c).2
      rw [← hactr]
      have hid0 : (appResurface ⟨U, ids1⟩ batch d₁
          (chance ⟨U, ids1⟩ (25 / 100) c).2).2.id = c.id := by
        rw [appResurface_snd_id, chance_snd_id]
      have hd0 : carryRel ids1 ids2 scrubAppRow
          (appResurface ⟨U, ids1⟩ batch d₁
            (chance ⟨U, ids1⟩ (25 / 100) c).2).2.id d₁ d₂ := by
        rw [hid0]
        exact hd
      have hloop := @appLoop_rel U ids1 ids2 hinj1 hinj2 cfg batch b₁ b₂ hb
        cfg.apps_per_day.toNat
        [(appResurface ⟨U, ids1⟩ batch d₁ (chance ⟨U, ids1⟩ (25 / 100) c).2).1]
        [(appResurface ⟨U, ids2⟩ batch d₂ (chance ⟨U, ids1⟩ (25 / 100) c).2).1]
        (List.Forall₂.cons har List.Forall₂.nil) d₁ d₂
        (appResurface ⟨U, ids1⟩ batch d₁ (chance ⟨U, ids1⟩ (25 / 100) c).2).2 hd0
      rcases hl1 : appLoop ⟨U, ids1⟩ cfg batch b₁ cfg.apps_per_day.toNat
          [(appResurface ⟨U, ids1⟩ batch d₁ (chance ⟨U, ids1⟩ (25 / 100) c).2).1] d₁
          (appResurface ⟨U, ids1⟩ batch d₁ (chance ⟨U, ids1⟩ (25 / 100) c).2).2
          with _ | ⟨rs₁, cy₁, cc₁⟩ <;>
        rcases hl2 : appLoop ⟨U, ids2⟩ cfg batch b₂ cfg.apps_per_day.toNat
            [(appResurface ⟨U, ids2⟩ batch d₂ (chance ⟨U, ids1⟩ (25 / 100) c).2).1] d₂
            (appResurface ⟨U, ids1⟩ batch d₁ (chance ⟨U, ids1⟩ (25 / 100) c).2).2
            with _ | ⟨rs₂, cy₂, cc₂⟩ <;>
          rw [hl1, hl2] at hloop
      · exact trivial
      · exact hloop.elim
      · exact hloop.elim
      · simp only [optRel] at hloop
        obtain ⟨g1, g2, g3, g4⟩ := hloop
        subst g3
        dsimp only
        rw [← chance_pair U ids1 ids2 cfg.invalid_rate cc₁]
        by_cases hinv : (chance ⟨U, ids1⟩ cfg.invalid_rate cc₁).1 = true
        · simp only [if_pos hinv, optRel]
          refine ⟨List.rel_append g1
            (List.Forall₂.cons (aRowRel_refl invalidAppRow) List.Forall₂.nil),
            ?_, trivial, ?_⟩
          · rw [chance_snd_id]
            exact g2
          · rw [chance_snd_id]
            rw [appResurface_snd_id, chance_snd_id] at g4
            omega
        · simp only [if_neg hinv, optRel]
          refine ⟨g1, ?_, trivial, ?_⟩
          · rw [chance_snd_id]
            exact g2
          · rw [chance_snd_id]
            rw [appResurface_snd_id, chance_snd_id] at g4
            omega
    · simp only [if_neg hres]
      have hd0 : carryRel ids1 ids2 scrubAppRow
          (chance ⟨U, ids1⟩ (25 / 100) c).2.id d₁ d₂ := by
        rw [chance_snd_id]
        exact hd
      have hloop := @appLoop_rel U ids1 ids2 hinj1 hinj2 cfg batch b₁ b₂ hb
        cfg.apps_per_day.toNat [] [] List.Forall₂.nil d₁ d₂
        (chance ⟨U, ids1⟩ (25 / 100) c).2 hd0
      rcases hl1 : appLoop ⟨U, ids1⟩ cfg batch b₁ cfg.apps_per_day.toNat [] d₁
          (chance ⟨U, ids1⟩ (25 / 100) c).2 with _ | ⟨rs₁, cy₁, cc₁⟩ <;>
        rcases hl2 : appLoop ⟨U, ids2⟩ cfg batch b₂ cfg.apps_per_day.toNat [] d₂
            (chance ⟨U, ids1⟩ (25 / 100) c).2 with _ | ⟨rs₂, cy₂, cc₂⟩ <;>
          rw [hl1, hl2] at hloop
      · exact trivial
      · exact hloop.elim
      · exact hloop.elim
      · simp only [optRel] at hloop
        obtain ⟨g1, g2, g3, g4⟩ := hloop
        subst g3
        dsimp only
        rw [← chance_pair U ids1 ids2 cfg.invalid_rate cc₁]
        by_cases hinv : (chance ⟨U, ids1⟩ cfg.invalid_rate cc₁).1 = true
        · simp only [if_pos hinv, optRel]
          refine ⟨List.rel_append g1
            (List.Forall₂.cons (aRowRel_refl invalidAppRow) List.Forall₂.nil),
            ?_, trivial, ?_⟩
          · rw [chance_snd_id]
            exact g2
          · rw [chance_snd_id]
            rw [chance_snd_id] at g4
            omega
        · simp only [if_neg hinv, optRel]
          refine ⟨g1, ?_, trivial, ?_⟩
          · rw [chance_snd_id]
            exact g2
          · rw [chance_snd_id]
            rw [chance_snd_id] at g4
            omega

theorem shuffleGo_snd_id (e : Env) : ∀ (i : ℕ) (l : List α) (c : Ctr),
    (shuffleGo e i l c).2.id = c.id
  | 0, _, _ => rfl
  | i + 1, l, c => by
    simp only [shuffleGo, rand]
    exact shuffleGo_snd_id e i _ _

theorem pyShuffle_snd_id (e : Env) (l : List α) (c : Ctr) :
    (pyShuffle e l c).2.id = c.id := shuffleGo_snd_id e _ l c

/-- One disbursement from paired application rows: the derived cells sit
past the scrubbed prefix, the id cells are fresh draws. -/
theorem genDisbOne_rel {U : ℕ → ℚ} {ids1 ids2 : ℕ → String} {cfg : Config}
    {batch : ℤ} {r₁ r₂ : Row} (h : aRowRel r₁ r₂) (c : Ctr) :
    dRowRel (genDisbOne ⟨U, ids1⟩ cfg batch r₁ c).1
      (genDisbOne ⟨U, ids2⟩ cfg batch r₂ c).1 ∧
    (genDisbOne ⟨U, ids1⟩ cfg batch r₁ c).2 =
      (genDisbOne ⟨U, ids2⟩ cfg batch r₂ c).2 ∧
    c.id ≤ (genDisbOne ⟨U, ids1⟩ cfg batch r₁ c).2.id := by
  have h3 := scrubApp_getD h (by norm_num : (2 : ℕ) ≤ 3) (Field.str "")
  simp only [genDisbOne, uuid4, chance, rand, pyRandint, pyUniform, pyChoiceD,
    pyChoice?, randIndex]
  rw [h3]
  split_ifs <;>
    refine ⟨by simp [dRowRel, scrubDisbRow, List.set], ?_, by dsimp only; omega⟩ <;>
    trivial

/-- The disbursement loop on paired approved lists. -/
theorem disbLoop_rel {U : ℕ → ℚ} {ids1 ids2 : ℕ → String} {cfg : Config} {batch : ℤ}
    {ap₁ ap₂ : List Row} (hap : List.Forall₂ aRowRel ap₁ ap₂) :
    ∀ (n i : ℕ) {rows₁ rows₂ : List Row}, List.Forall₂ dRowRel rows₁ rows₂ →
    ∀ (c : Ctr),
    optRel (fun x y => List.Forall₂ dRowRel x.1 y.1 ∧ x.2 = y.2 ∧ c.id ≤ x.2.id)
      (disbLoop ⟨U, ids1⟩ cfg batch ap₁ i n rows₁ c)
      (disbLoop ⟨U, ids2⟩ cfg batch ap₂ i n rows₂ c)
  | 0, i, rows₁, rows₂, hr, c => by
    simp only [disbLoop, optRel]
    exact ⟨hr, trivial, le_refl _⟩
  | n + 1, i, rows₁, rows₂, hr, c => by
    simp only [disbLoop]
    rcases forall₂_get? hap i with ⟨h1, h2⟩ | ⟨a, b, h1, h2, hab⟩ <;> rw [h1, h2]
    · exact trivial
    · dsimp only
      obtain ⟨hrow, hctr, hid⟩ := @genDisbOne_rel U ids1 ids2 cfg batch a b hab c
      rw [← hctr, ← chance_pair U ids1 ids2 cfg.duplicate_rate
        (genDisbOne ⟨U, ids1⟩ cfg batch a c).2]
      by_cases hdup : (chance ⟨U, ids1⟩ cfg.duplicate_rate
          (genDisbOne ⟨U, ids1⟩ cfg batch a c).2).1 = true
      · simp only [if_pos hdup]
        refine optRel_mono ?_ (disbLoop_rel hap n (i + 1)
          (List.rel_append (List.rel_append hr (List.Forall₂.cons hrow List.Forall₂.nil))
            (List.Forall₂.cons hrow List.Forall₂.nil)) _)
        rintro x y ⟨f1, f2, f3⟩
        refine ⟨f1, f2, ?_⟩
        rw [chance_snd_id] at f3
        omega
      · simp only [if_neg hdup]
        refine optRel_mono ?_ (disbLoop_rel hap n (i + 1)
          (List.rel_append hr (List.Forall₂.cons hrow List.Forall₂.nil)) _)
        rintro x y ⟨f1, f2, f3⟩
        refine ⟨f1, f2, ?_⟩
        rw [chance_snd_id] at f3
        omega

/-- The disbursements stage on paired application rows: paired file rows
and equal cursors. -/
theorem disbStage_rel {U : ℕ → ℚ} {ids1 ids2 : ℕ → String} {cfg : Config} {batch : ℤ}
    {a₁ a₂ : List Row} (ha : List.Forall₂ aRowRel a₁ a₂) (c : Ctr) :
    optRel (fun x y => List.Forall₂ dRowRel x.1 y.1 ∧ x.2 = y.2 ∧ c.id ≤ x.2.id)
      (disbStage ⟨U, ids1⟩ cfg batch a₁ c) (disbStage ⟨U, ids2⟩ cfg batch a₂ c) := by
  simp only [disbStage]
  have hfilt := forall₂_filter ha (fun r₁ r₂ hrr => isApproved_rel hrr)
  obtain ⟨hsh, hshc⟩ := pyShuffle_rel hfilt c
  have hc0id : (pyShuffle ⟨U, ids1⟩ (List.filter isApproved a₁) c).2.id = c.id :=
    pyShuffle_snd_id _ _ _
  generalize hG1 : pyShuffle ⟨U, ids1⟩ (List.filter isApproved a₁) c = P₁
    at hsh hshc hc0id ⊢
  generalize hG2 : pyShuffle ⟨U, ids2⟩ (List.filter isApproved a₂) c = P₂
    at hsh hshc ⊢
  obtain ⟨ap₁', c₀⟩ := P₁
  obtain ⟨ap₂', c₀'⟩ := P₂
  dsimp only at hsh hshc hc0id ⊢
  subst hshc
  have hlen := hsh.length_eq
  rw [← hlen]
  have hloop := @disbLoop_rel U ids1 ids2 cfg batch ap₁' ap₂' hsh
    ((pyInt ((ap₁'.length : ℚ) * cfg.disb_rate)).toNat) 0 [] [] List.Forall₂.nil c₀
  rcases hl1 : disbLoop ⟨U, ids1⟩ cfg batch ap₁' 0
      ((pyInt ((ap₁'.length : ℚ) * cfg.disb_rate)).toNat) [] c₀ with _ | ⟨rs₁, cc₁⟩ <;>
    rcases hl2 : disbLoop ⟨U, ids2⟩ cfg batch ap₂' 0
        ((pyInt ((ap₁'.length : ℚ) * cfg.disb_rate)).toNat) [] c₀ with _ | ⟨rs₂, cc₂⟩ <;>
      rw [hl1, hl2] at hloop
  · exact trivial
  · exact hloop.elim
  · exact hloop.elim
  · simp only [optRel] at hloop
    obtain ⟨g1, g2, g3⟩ := hloop
    subst g2
    dsimp only
    rw [← chance_pair U ids1 ids2 cfg.invalid_rate cc₁]
    by_cases hinv : (chance ⟨U, ids1⟩ cfg.invalid_rate cc₁).1 = true
    · simp only [if_pos hinv, optRel]
      refine ⟨List.rel_append g1 (List.Forall₂.cons ?_ List.Forall₂.nil), ?_, ?_⟩
      · simp [dRowRel, scrubDisbRow, List.set, uuid4]
      · rfl
      · simp only [uuid4, chance_snd_id]
        omega
    · simp only [if_neg hinv, optRel]
      refine ⟨g1, trivial, ?_⟩
      rw [chance_snd_id]
      omega

/-- Payment resurfacing from paired carry maps: the amount rewrite reads
cell 4 and both updates land past the scrubbed prefix. -/
theorem payResurface_rel {U : ℕ → ℚ} {ids1 ids2 : ℕ → String} {b : ℕ}
    {d₁ d₂ : List (String × Row)} (h : carryRel ids1 ids2 scrubDisbRow b d₁ d₂)
    (batch : ℤ) (c : Ctr) :
    dRowRel (payResurface ⟨U, ids1⟩ batch d₁ c).1
      (payResurface ⟨U, ids2⟩ batch d₂ c).1 ∧
    (payResurface ⟨U, ids1⟩ batch d₁ c).2 = (payResurface ⟨U, ids2⟩ batch d₂ c).2 := by
  have hlen := carryRel_length h
  have hpick := carryRel_pick h ((⌊U c.u * (d₁.length : ℚ)⌋).toNat)
  have hs4 := scrubDisb_getD hpick (by norm_num : (3 : ℕ) ≤ 4) (Field.str "")
  simp only [payResurface, pyChoiceD, pyChoice?, randIndex, rand, pyRandint, pyUniform]
  rw [← hlen, get?_getD, get?_getD]
  refine ⟨?_, trivial⟩
  unfold dRowRel
  rw [scrubDisb_set (by norm_num : (3 : ℕ) ≤ 8) _,
    scrubDisb_set (by norm_num : (3 : ℕ) ≤ 8) _,
    scrubDisb_set (by norm_num : (3 : ℕ) ≤ 4) _,
    scrubDisb_set (by norm_num : (3 : ℕ) ≤ 4) _, hpick, hs4]

/-- One payment from paired disbursement rows: cells 0-2 are the
scrubbed id cells, everything else is shared. -/
theorem genPayOne_rel {U : ℕ → ℚ} {ids1 ids2 : ℕ → String} {cfg : Config}
    {batch : ℤ} {dd : ℤ} {k : ℕ} {r₁ r₂ : Row} (h : dRowRel r₁ r₂) (c : Ctr) :
    (genPayOne ⟨U, ids1⟩ cfg batch r₁ dd k c).1 = ids1 c.id ∧
    (genPayOne ⟨U, ids2⟩ cfg batch r₂ dd k c).1 = ids2 c.id ∧
    dRowRel (genPayOne ⟨U, ids1⟩ cfg batch r₁ dd k c).2.1
      (genPayOne ⟨U, ids2⟩ cfg batch r₂ dd k c).2.1 ∧
    (genPayOne ⟨U, ids1⟩ cfg batch r₁ dd k c).2.2 =
      (genPayOne ⟨U, ids2⟩ cfg batch r₂ dd k c).2.2 ∧
    c.id < (genPayOne ⟨U, ids1⟩ cfg batch r₁ dd k c).2.2.id := by
  have h3 := scrubDisb_getD h (by norm_num : (3 : ℕ) ≤ 3) (Field.str "")
  simp only [genPayOne, uuid4, chance, rand, pyRandint, pyUniform, pyChoiceD,
    pyChoice?, randIndex]
  rw [h3]
  split_ifs <;>
    refine ⟨?_, ?_, by simp [dRowRel, scrubDisbRow, List.set], ?_,
      by dsimp only; omega⟩ <;>
    trivial

/-- The per-disbursement payment loop on paired inputs. -/
theorem payKLoop_rel {U : ℕ → ℚ} {ids1 ids2 : ℕ → String}
    (hinj1 : ∀ a b, ids1 a = ids1 b → a = b)
    (hinj2 : ∀ a b, ids2 a = ids2 b → a = b)
    {cfg : Config} {batch : ℤ} {dd : ℤ} {r₁ r₂ : Row} (hr : dRowRel r₁ r₂) :
    ∀ (n k : ℕ) {rows₁ rows₂ : List Row}, List.Forall₂ dRowRel rows₁ rows₂ →
    ∀ {d₁ d₂ : List (String × Row)} (c : Ctr),
      carryRel ids1 ids2 scrubDisbRow c.id d₁ d₂ →
    List.Forall₂ dRowRel (payKLoop ⟨U, ids1⟩ cfg batch r₁ dd k n rows₁ d₁ c).1
      (payKLoop ⟨U, ids2⟩ cfg batch r₂ dd k n rows₂ d₂ c).1 ∧
    carryRel ids1 ids2 scrubDisbRow
      (payKLoop ⟨U, ids1⟩ cfg batch r₁ dd k n rows₁ d₁ c).2.2.id
      (payKLoop ⟨U, ids1⟩ cfg batch r₁ dd k n rows₁ d₁ c).2.1
      (payKLoop ⟨U, ids2⟩ cfg batch r₂ dd k n rows₂ d₂ c).2.1 ∧
    (payKLoop ⟨U, ids1⟩ cfg batch r₁ dd k n rows₁ d₁ c).2.2 =
      (payKLoop ⟨U, ids2⟩ cfg batch r₂ dd k n rows₂ d₂ c).2.2 ∧
    c.id ≤ (payKLoop ⟨U, ids1⟩ cfg batch r₁ dd k n rows₁ d₁ c).2.2.id
  | 0, k, rows₁, rows₂, hrel, d₁, d₂, c, hd => ⟨hrel, hd, rfl, le_refl _⟩
  | n + 1, k, rows₁, rows₂, hrel, d₁, d₂, c, hd => by
    simp only [payKLoop]
    obtain ⟨g1, g2, g3, g4, g5⟩ := @genPayOne_rel U ids1 ids2 cfg batch dd k r₁ r₂ hr c
    rw [g1, g2, ← g4, ← chance_pair U ids1 ids2 cfg.duplicate_rate
      (genPayOne ⟨U, ids1⟩ cfg batch r₁ dd k c).2.2]
    have hd' : carryRel ids1 ids2 scrubDisbRow
        (chance ⟨U, ids1⟩ cfg.duplicate_rate
          (genPayOne ⟨U, ids1⟩ cfg batch r₁ dd k c).2.2).2.id
        (dictSet d₁ (ids1 c.id) (genPayOne ⟨U, ids1⟩ cfg batch r₁ dd k c).2.1)
        (dictSet d₂ (ids2 c.id) (genPayOne ⟨U, ids2⟩ cfg batch r₂ dd k c).2.1) := by
      rw [chance_snd_id]
      exact carryRel_mono (by omega)
        (carryRel_insert hinj1 hinj2 hd (le_refl c.id) g3)
    by_cases hdup : (chance ⟨U, ids1⟩ cfg.duplicate_rate
        (genPayOne ⟨U, ids1⟩ cfg batch r₁ dd k c).2.2).1 = true
    · simp only [if_pos hdup]
      obtain ⟨f1, f2, f3, f4⟩ := payKLoop_rel hinj1 hinj2 hr n (k + 1)
        (List.rel_append (List.rel_append hrel (List.Forall₂.cons g3 List.Forall₂.nil))
          (List.Forall₂.cons g3 List.Forall₂.nil)) _ hd'
      refine ⟨f1, f2, f3, ?_⟩
      rw [chance_snd_id] at f4
      exact le_trans (le_of_lt g5) f4
    · simp only [if_neg hdup]
      obtain ⟨f1, f2, f3, f4⟩ := payKLoop_rel hinj1 hinj2 hr n (k + 1)
        (List.rel_append hrel (List.Forall₂.cons g3 List.Forall₂.nil)) _ hd'
      refine ⟨f1, f2, f3, ?_⟩
      rw [chance_snd_id] at f4
      exact le_trans (le_of_lt g5) f4

/-- The `for disb_row in disb_rows` loop on paired inputs: both runs
parse the same date cell, pay the same schedule, and fail together. -/
theorem payDisbLoop_rel {U : ℕ → ℚ} {ids1 ids2 : ℕ → String}
    (hinj1 : ∀ a b, ids1 a = ids1 b → a = b)
    (hinj2 : ∀ a b, ids2 a = ids2 b → a = b)
    {cfg : Config} {batch : ℤ} :
    ∀ {dl₁ dl₂ : List Row}, List.Forall₂ dRowRel dl₁ dl₂ →
    ∀ {rows₁ rows₂ : List Row}, List.Forall₂ dRowRel rows₁ rows₂ →
    ∀ {d₁ d₂ : List (String × Row)} (c : Ctr),
      carryRel ids1 ids2 scrubDisbRow c.id d₁ d₂ →
    optRel (fun x y => List.Forall₂ dRowRel x.1 y.1 ∧
        carryRel ids1 ids2 scrubDisbRow x.2.2.id x.2.1 y.2.1 ∧
        x.2.2 = y.2.2 ∧ c.id ≤ x.2.2.id)
      (payDisbLoop ⟨U, ids1⟩ cfg batch dl₁ rows₁ d₁ c)
      (payDisbLoop ⟨U, ids2⟩ cfg batch dl₂ rows₂ d₂ c)
  | [], [], _, rows₁, rows₂, hrel, d₁, d₂, c, hd => by
    simp only [payDisbLoop, optRel]
    exact ⟨hrel, hd, trivial, le_refl _⟩
  | dr₁ :: t₁, dr₂ :: t₂, hdl, rows₁, rows₂, hrel, d₁, d₂, c, hd => by
    obtain ⟨hdr, htl⟩ := List.forall₂_cons.mp hdl
    simp only [payDisbLoop]
    have h4 := scrubDisb_getD hdr (by norm_num : (3 : ℕ) ≤ 4) (Field.str "")
    rw [← h4]
    rcases hf : fromisoformat (dr₁.getD 4 (Field.str "")) with _ | dd
    · exact trivial
    · dsimp only
      obtain ⟨f1, f2, f3, f4⟩ := payKLoop_rel hinj1 hinj2 hdr
        cfg.pays_per_disb.toNat 0 hrel c hd
      rw [← f3]
      refine optRel_mono ?_ (payDisbLoop_rel hinj1 hinj2 htl f1
        (payKLoop ⟨U, ids1⟩ cfg batch dr₁ dd 0 cfg.pays_per_disb.toNat rows₁ d₁ c).2.2
        f2)
      rintro x y ⟨p1, p2, p3, p4⟩
      exact ⟨p1, p2, p3, by omega⟩
  | [], _ :: _, hdl, _, _, _, _, _, _, _ => nomatch hdl
  | _ :: _, [], hdl, _, _, _, _, _, _, _ => nomatch hdl

/-- The payments stage on paired inputs: paired file rows, paired carry
maps at the advanced cursor, equal cursors. -/
theorem payStage_rel {U : ℕ → ℚ} {ids1 ids2 : ℕ → String}
    (hinj1 : ∀ a b, ids1 a = ids1 b → a = b)
    (hinj2 : ∀ a b, ids2 a = ids2 b → a = b)
    {cfg : Config} {batch : ℤ} {dl₁ dl₂ : List Row}
    (hdl : List.Forall₂ dRowRel dl₁ dl₂)
    {d₁ d₂ : List (String × Row)} (c : Ctr)
    (hd : carryRel ids1 ids2 scrubDisbRow c.id d₁ d₂) :
    optRel (fun x y => List.Forall₂ dRowRel x.1 y.1 ∧
        carryRel ids1 ids2 scrubDisbRow x.2.2.id x.2.1 y.2.1 ∧
        x.2.2 = y.2.2 ∧ c.id ≤ x.2.2.id)
      (payStage ⟨U, ids1⟩ cfg batch dl₁ d₁ c)
      (payStage ⟨U, ids2⟩ cfg batch dl₂ d₂ c) := by
  have hie : d₁.isEmpty = d₂.isEmpty := forall₂_isEmpty hd
  simp only [payStage]
  by_cases hce : d₁.isEmpty = true
  · rw [if_pos hce, if_pos (hie.symm.trans hce)]
    dsimp only
    have hloop := @payDisbLoop_rel U ids1 ids2 hinj1 hinj2 cfg batch dl₁ dl₂ hdl
      [] [] List.Forall₂.nil d₁ d₂ c hd
    rcases hl1 : payDisbLoop ⟨U, ids1⟩ cfg batch dl₁ [] d₁ c
        with _ | ⟨rs₁, cy₁, cc₁⟩ <;>
      rcases hl2 : payDisbLoop ⟨U, ids2⟩ cfg batch dl₂ [] d₂ c
        with _ | ⟨rs₂, cy₂, cc₂⟩ <;>
        rw [hl1, hl2] at hloop
    · exact trivial
    · exact hloop.elim
    · exact hloop.elim
    · simp only [optRel] at hloop
      obtain ⟨g1, g2, g3, g4⟩ := hloop
      subst g3
      dsimp only
      rw [← chance_pair U ids1 ids2 cfg.invalid_rate cc₁]
      by_cases hinv : (chance ⟨U, ids1⟩ cfg.invalid_rate cc₁).1 = true
      · simp only [if_pos hinv, optRel]
        refine ⟨List.rel_append g1 (List.Forall₂.cons ?_ List.Forall₂.nil), ?_, ?_, ?_⟩
        · simp [dRowRel, scrubDisbRow, List.set, uuid4]
        · simp only [uuid4]
          refine carryRel_mono ?_ g2
          rw [chance_snd_id]
          omega
        · rfl
        · simp only [uuid4, chance_snd_id]
          omega
      · simp only [if_neg hinv, optRel]
        refine ⟨g1, ?_, trivial, ?_⟩
        · rw [chance_snd_id]
          exact g2
        · rw [chance_snd_id]
          omega
  · rw [if_neg hce, if_neg (fun h => hce (hie.trans h))]
    rw [← chance_pair U ids1 ids2 (25 / 100) c]
    by_cases hres : (chance ⟨U, ids1⟩ (25 / 100) c).1 = true
    · simp only [if_pos hres]
      obtain ⟨har, hactr⟩ :=
        @payResurface_rel U ids1 ids2 c.id d₁ d₂ hd batch
          (chance ⟨U, ids1⟩ (25 / 100) c).2
      rw [← hactr]
      have hid0 : (payResurface ⟨U, ids1⟩ batch d₁
          (chance ⟨U, ids1⟩ (25 / 100) c).2).2.id = c.id := by
        rw [payResurface_snd_id, chance_snd_id]
      have hd0 : carryRel ids1 ids2 scrubDisbRow
          (payResurface ⟨U, ids1⟩ batch d₁
            (chance ⟨U, ids1⟩ (25 / 100) c).2).2.id d₁ d₂ := by
        rw [hid0]
        exact hd
      have hloop := @payDisbLoop_rel U ids1 ids2 hinj1 hinj2 cfg batch dl₁ dl₂ hdl
        [(payResurface ⟨U, ids1⟩ batch d₁ (chance ⟨U, ids1⟩ (25 / 100) c).2).1]
        [(payResurface ⟨U, ids2⟩ batch d₂ (chance ⟨U, ids1⟩ (25 / 100) c).2).1]
        (List.Forall₂.cons har List.Forall₂.nil) d₁ d₂
        (payResurface ⟨U, ids1⟩ batch d₁ (chance ⟨U, ids1⟩ (25 / 100) c).2).2 hd0
      rcases hl1 : payDisbLoop ⟨U, ids1⟩ cfg batch dl₁
          [(payResurface ⟨U, ids1⟩ batch d₁ (chance ⟨U, ids1⟩ (25 / 100) c).2).1] d₁
          (payResurface ⟨U, ids1⟩ batch d₁ (chance ⟨U, ids1⟩ (25 / 100) c).2).2
          with _ | ⟨rs₁, cy₁, cc₁⟩ <;>
        rcases hl2 : payDisbLoop ⟨U, ids2⟩ cfg batch dl₂
            [(payResurface ⟨U, ids2⟩ batch d₂ (chance ⟨U, ids1⟩ (25 / 100) c).2).1] d₂
            (payResurface ⟨U, ids1⟩ batch d₁ (chance ⟨U, ids1⟩ (25 / 100) c).2).2
            with _ | ⟨rs₂, cy₂, cc₂⟩ <;>
          rw [hl1, hl2] at hloop
      · exact trivial
      · exact hloop.elim
      · exact hloop.elim
      · simp only [optRel] at hloop
        obtain ⟨g1, g2, g3, g4⟩ := hloop
        subst g3
        dsimp only
        rw [hid0] at g4
        rw [← chance_pair U ids1 ids2 cfg.invalid_rate cc₁]
        by_cases hinv : (chance ⟨U, ids1⟩ cfg.invalid_rate cc₁).1 = true
        · simp only [if_pos hinv, optRel]
          refine ⟨List.rel_append g1 (List.Forall₂.cons ?_ List.Forall₂.nil),
            ?_, ?_, ?_⟩
          · simp [dRowRel, scrubDisbRow, List.set, uuid4]
          · simp only [uuid4]
            refine carryRel_mono ?_ g2
            rw [chance_snd_id]
            omega
          · rfl
          · simp only [uuid4, chance_snd_id]
            omega
        · simp only [if_neg hinv, optRel]
          refine ⟨g1, ?_, trivial, ?_⟩
          · rw [chance_snd_id]
            exact g2
          · rw [chance_snd_id]
            omega
    · simp only [if_neg hres]
      have hd0 : carryRel ids1 ids2 scrubDisbRow
          (chance ⟨U, ids1⟩ (25 / 100) c).2.id d₁ d₂ := by
        rw [chance_snd_id]
        exact hd
      have hloop := @payDisbLoop_rel U ids1 ids2 hinj1 hinj2 cfg batch dl₁ dl₂ hdl
        [] [] List.Forall₂.nil d₁ d₂ (chance ⟨U, ids1⟩ (25 / 100) c).2 hd0
      rcases hl1 : payDisbLoop ⟨U, ids1⟩ cfg batch dl₁ [] d₁
          (chance ⟨U, ids1⟩ (25 / 100) c).2 with _ | ⟨rs₁, cy₁, cc₁⟩ <;>
        rcases hl2 : payDisbLoop ⟨U, ids2⟩ cfg batch dl₂ [] d₂
            (chance ⟨U, ids1⟩ (25 / 100) c).2 with _ | ⟨rs₂, cy₂, cc₂⟩ <;>
          rw [hl1, hl2] at hloop
      · exact trivial
      · exact hloop.elim
      · exact hloop.elim
      · simp only [optRel] at hloop
        obtain ⟨g1, g2, g3, g4⟩ := hloop
        subst g3
        dsimp only
        rw [chance_snd_id] at g4
        rw [← chance_pair U ids1 ids2 cfg.invalid_rate cc₁]
        by_cases hinv : (chance ⟨U, ids1⟩ cfg.invalid_rate cc₁).1 = true
        · simp only [if_pos hinv, optRel]
          refine ⟨List.rel_append g1 (List.Forall₂.cons ?_ List.Forall₂.nil),
            ?_, ?_, ?_⟩
          · simp [dRowRel, scrubDisbRow, List.set, uuid4]
          · simp only [uuid4]
            refine carryRel_mono ?_ g2
            rw [chance_snd_id]
            omega
          · rfl
          · simp only [uuid4, chance_snd_id]
            omega
        · simp only [if_neg hinv, optRel]
          refine ⟨g1, ?_, trivial, ?_⟩
          · rw [chance_snd_id]
            exact g2
          · rw [chance_snd_id]
            omega

theorem merchOne_snd_id (e : Env) (m : Merchant)
    (acc : List Row × List (String × Merchant) × Ctr) :
    (merchOne e m acc).2.2.id = acc.2.2.id := by
  simp only [merchOne, mutate_merchant, chance, rand, pyUniform]
  split_ifs <;> rfl

theorem merchFold_snd_id (e : Env) : ∀ (ms : List Merchant)
    (acc : List Row × List (String × Merchant) × Ctr),
    ((ms.foldl (fun a m => merchOne e m a) acc).2.2.id = acc.2.2.id)
  | [], _ => rfl
  | m :: t, acc => by
    simp only [List.foldl_cons]
    rw [merchFold_snd_id e t (merchOne e m acc), merchOne_snd_id]

/-- The merchants stage draws no uuids: the id cursor is unchanged. -/
theorem merchStage_snd_id (e : Env) (cfg : Config) (ms : List Merchant)
    (b : List (String × Merchant)) (c : Ctr) :
    (merchStage e cfg ms b c).2.2.id = c.id := by
  simp only [merchStage, merchLoop, pyChoiceD, pyChoice?, randIndex, rand, chance]
  split_ifs <;> simp [merchFold_snd_id]

/-- The scrubbed pools of the two runs are equal. -/
theorem poolRel_scrub {ids1 ids2 : ℕ → String} :
    ∀ {j : ℕ} {l₁ l₂ : List Merchant}, poolRel ids1 ids2 j l₁ l₂ →
      l₁.map scrubMerchant = l₂.map scrubMerchant
  | _, [], [], _ => rfl
  | _, _ :: _, _ :: _, h => by
    simp only [poolRel] at h
    simp only [List.map_cons, h.1.2.2, poolRel_scrub h.2]
  | _, [], _ :: _, h => absurd h (by simp [poolRel])
  | _, _ :: _, [], h => absurd h (by simp [poolRel])

/-- The scrubbed `merchant_by_id` maps of the two runs are equal. -/
theorem byRel_scrub {ids1 ids2 : ℕ → String} :
    ∀ {j : ℕ} {d₁ d₂ : List (String × Merchant)}, byRel ids1 ids2 j d₁ d₂ →
      d₁.map (fun p => ("", scrubMerchant p.2)) =
        d₂.map (fun p => ("", scrubMerchant p.2))
  | _, [], [], _ => rfl
  | _, _ :: _, _ :: _, h => by
    simp only [byRel] at h
    simp only [List.map_cons, h.1.2.2, byRel_scrub h.2]
  | _, [], _ :: _, h => absurd h (by simp [byRel])
  | _, _ :: _, [], h => absurd h (by simp [byRel])

/-- The scrubbed carry maps of the two runs are equal. -/
theorem carryRel_scrub {ids1 ids2 : ℕ → String} {scrub : Row → Row} {b : ℕ}
    {d₁ d₂ : List (String × Row)} (h : carryRel ids1 ids2 scrub b d₁ d₂) :
    d₁.map (fun p => ("", scrub p.2)) = d₂.map (fun p => ("", scrub p.2)) := by
  refine forall₂_map_eq (h.imp ?_)
  rintro p₁ p₂ ⟨j, hj, h1, h2, h3⟩
  rw [h3]

/-- The pairing invariant between the two runs' day-loop states: scrubbed
pools, maps and carries agree, carry keys sit below the id cursor, and
the cursors are equal. -/
def stRel (ids1 ids2 : ℕ → String) (st₁ st₂ : RunSt) : Prop :=
  poolRel ids1 ids2 0 st₁.merchants st₂.merchants ∧
  byRel ids1 ids2 0 st₁.byId st₂.byId ∧
  st₁.merchants.length ≤ st₁.byId.length ∧
  carryRel ids1 ids2 scrubAppRow st₁.c.id st₁.carryApps st₂.carryApps ∧
  carryRel ids1 ids2 scrubDisbRow st₁.c.id st₁.carryPays st₂.carryPays ∧
  st₁.c = st₂.c

/-- One day of the pipeline preserves the pairing invariant and emits
scrub-equal files. -/
theorem dayStep_rel {U : ℕ → ℚ} {ids1 ids2 : ℕ → String}
    (hinj1 : ∀ a b, ids1 a = ids1 b → a = b)
    (hinj2 : ∀ a b, ids2 a = ids2 b → a = b)
    {cfg : Config} {dayIdx : ℕ} {st₁ st₂ : RunSt}
    (hst : stRel ids1 ids2 st₁ st₂) :
    optRel (fun x y => scrubDay x.1 = scrubDay y.1 ∧ stRel ids1 ids2 x.2 y.2)
      (dayStep ⟨U, ids1⟩ cfg dayIdx st₁) (dayStep ⟨U, ids2⟩ cfg dayIdx st₂) := by
  obtain ⟨hpool, hby, hlen, hca, hcp, hc⟩ := hst
  obtain ⟨m₁, b₁, a₁, p₁, c₁⟩ := st₁
  obtain ⟨m₂, b₂, a₂, p₂, c₂⟩ := st₂
  dsimp only at hpool hby hlen hca hcp hc ⊢
  subst hc
  obtain ⟨hmrows, hby', hc', hblen⟩ :=
    @merchStage_rel U ids1 ids2 hinj1 hinj2 cfg m₁ m₂ hpool b₁ b₂ hby hlen c₁
  have hmid := merchStage_snd_id ⟨U, ids1⟩ cfg m₁ b₁ c₁
  simp only [dayStep]
  generalize hG1 : merchStage ⟨U, ids1⟩ cfg m₁ b₁ c₁ = M₁
    at hmrows hby' hc' hblen hmid ⊢
  generalize hG2 : merchStage ⟨U, ids2⟩ cfg m₂ b₂ c₁ = M₂ at hmrows hby' hc' ⊢
  obtain ⟨mr₁, mb₁, mc₁⟩ := M₁
  obtain ⟨mr₂, mb₂, mc₂⟩ := M₂
  dsimp only at hmrows hby' hc' hblen hmid ⊢
  subst hc'
  have hdA : carryRel ids1 ids2 scrubAppRow mc₁.id a₁ a₂ := by
    rw [hmid]
    exact hca
  have happ := @appStage_rel U ids1 ids2 hinj1 hinj2 cfg
    (cfg.start_date + (dayIdx : ℤ)) mb₁ mb₂ hby' a₁ a₂ mc₁ hdA
  rcases ha1 : appStage ⟨U, ids1⟩ cfg (cfg.start_date + (dayIdx : ℤ)) mb₁ a₁ mc₁
      with _ | ⟨ar₁, ac₁, cA₁⟩ <;>
    rcases ha2 : appStage ⟨U, ids2⟩ cfg (cfg.start_date + (dayIdx : ℤ)) mb₂ a₂ mc₁
        with _ | ⟨ar₂, ac₂, cA₂⟩ <;>
      rw [ha1, ha2] at happ
  · exact trivial
  · exact happ.elim
  · exact happ.elim
  · simp only [optRel] at happ
    obtain ⟨hA1, hA2, hA3, hA4⟩ := happ
    subst hA3
    dsimp only
    have hdisb := @disbStage_rel U ids1 ids2 cfg (cfg.start_date + (dayIdx : ℤ))
      ar₁ ar₂ hA1 cA₁
    rcases hd1 : disbStage ⟨U, ids1⟩ cfg (cfg.start_date + (dayIdx : ℤ)) ar₁ cA₁
        with _ | ⟨dr₁, cD₁⟩ <;>
      rcases hd2 : disbStage ⟨U, ids2⟩ cfg (cfg.start_date + (dayIdx : ℤ)) ar₂ cA₁
          with _ | ⟨dr₂, cD₂⟩ <;>
        rw [hd1, hd2] at hdisb
    · exact trivial
    · exact hdisb.elim
    · exact hdisb.elim
    · simp only [optRel] at hdisb
      obtain ⟨hD1, hD2, hD3⟩ := hdisb
      subst hD2
      dsimp only
      have hdP : carryRel ids1 ids2 scrubDisbRow cD₁.id p₁ p₂ :=
        carryRel_mono (by omega) hcp
      have hpay := @payStage_rel U ids1 ids2 hinj1 hinj2 cfg
        (cfg.start_date + (dayIdx : ℤ)) dr₁ dr₂ hD1 p₁ p₂ cD₁ hdP
      rcases hp1 : payStage ⟨U, ids1⟩ cfg (cfg.start_date + (dayIdx : ℤ)) dr₁ p₁ cD₁
          with _ | ⟨pr₁, pc₁, cP₁⟩ <;>
        rcases hp2 : payStage ⟨U, ids2⟩ cfg (cfg.start_date + (dayIdx : ℤ)) dr₂ p₂ cD₁
            with _ | ⟨pr₂, pc₂, cP₂⟩ <;>
          rw [hp1, hp2] at hpay
      · exact trivial
      · exact hpay.elim
      · exact hpay.elim
      · simp only [optRel] at hpay
        obtain ⟨hP1, hP2, hP3, hP4⟩ := hpay
        subst hP3
        dsimp only
        simp only [optRel]
        constructor
        · simp only [scrubDay]
          rw [forall₂_map_eq (hmrows.imp (fun a b h => h)),
            forall₂_map_eq (hA1.imp (fun a b h => h)),
            forall₂_map_eq (hD1.imp (fun a b h => h)),
            forall₂_map_eq (hP1.imp (fun a b h => h))]
        · refine ⟨hpool, hby', ?_, ?_, ?_, rfl⟩
          · dsimp only
            omega
          · dsimp only
            exact carryRel_mono (by omega) hA2
          · dsimp only
            exact hP2

/-- The day loop preserves the invariant and accumulates scrub-equal
day files. -/
theorem mainLoop_rel {U : ℕ → ℚ} {ids1 ids2 : ℕ → String}
    (hinj1 : ∀ a b, ids1 a = ids1 b → a = b)
    (hinj2 : ∀ a b, ids2 a = ids2 b → a = b) {cfg : Config} :
    ∀ (n d : ℕ) {acc₁ acc₂ : List DayFiles},
      acc₁.map scrubDay = acc₂.map scrubDay →
    ∀ {st₁ st₂ : RunSt}, stRel ids1 ids2 st₁ st₂ →
    optRel (fun x y => x.1.map scrubDay = y.1.map scrubDay ∧
        stRel ids1 ids2 x.2 y.2)
      (mainLoop ⟨U, ids1⟩ cfg d n acc₁ st₁) (mainLoop ⟨U, ids2⟩ cfg d n acc₂ st₂)
  | 0, d, acc₁, acc₂, hacc, st₁, st₂, hst => by
    simp only [mainLoop, optRel]
    exact ⟨hacc, hst⟩
  | n + 1, d, acc₁, acc₂, hacc, st₁, st₂, hst => by
    simp only [mainLoop]
    have hds := @dayStep_rel U ids1 ids2 hinj1 hinj2 cfg d st₁ st₂ hst
    rcases h1 : dayStep ⟨U, ids1⟩ cfg d st₁ with _ | ⟨f₁, s₁⟩ <;>
      rcases h2 : dayStep ⟨U, ids2⟩ cfg d st₂ with _ | ⟨f₂, s₂⟩ <;>
        rw [h1, h2] at hds
    · exact trivial
    · exact hds.elim
    · exact hds.elim
    · simp only [optRel] at hds
      obtain ⟨hf, hs⟩ := hds
      dsimp only
      exact mainLoop_rel hinj1 hinj2 n (d + 1)
        (by rw [List.map_append, List.map_append, hacc, List.map_singleton,
          List.map_singleton, hf]) hs

/-- The initial day-loop state built by `main`. -/
def initSt (e : Env) (cfg : Config) : RunSt :=
  { merchants := (gen_merchants e cfg { u := 0, id := 0 }).1,
    byId := (gen_merchants e cfg { u := 0, id := 0 }).1.foldl
      (fun d m => dictSet d m.merchant_id m) [],
    carryApps := [], carryPays := [],
    c := (gen_merchants e cfg { u := 0, id := 0 }).2 }

theorem main_eq_initSt (e : Env) (cfg : Config) :
    main e cfg = (match mainLoop e cfg 0 cfg.num_days.toNat [] (initSt e cfg) with
      | none => none
      | some (days, st) =>
        some { days := days, merchants := st.merchants,
               merchant_by_id := st.byId, carry_apps := st.carryApps,
               carry_pays := st.carryPays }) := rfl

/-- C1 (corrected): the seed determines everything except the
identifiers. For any configuration and any fixed raw-draw stream, two
runs whose uuid streams are injective (as OS-entropy uuid4 draws are)
produce outputs that agree exactly once the identifier cells are
erased. -/
theorem C1_amended_scrub (U : ℕ → ℚ) (cfg : Config) (ids1 ids2 : ℕ → String)
    (hinj1 : ∀ a b, ids1 a = ids1 b → a = b)
    (hinj2 : ∀ a b, ids2 a = ids2 b → a = b) :
    scrubRun (main ⟨U, ids1⟩ cfg) = scrubRun (main ⟨U, ids2⟩ cfg) := by
  obtain ⟨hpool, hctr, hid⟩ := @genFold_rel U ids1 ids2 cfg
    (List.range cfg.num_merchants.toNat) ([], { u := 0, id := 0 })
    ([], { u := 0, id := 0 }) 0 trivial rfl rfl
  obtain ⟨hby, hbylen⟩ := @byBuild_rel ids1 ids2 hinj1 hinj2 _ _ 0 hpool [] []
    trivial rfl
  have hst : stRel ids1 ids2 (initSt ⟨U, ids1⟩ cfg) (initSt ⟨U, ids2⟩ cfg) := by
    have hb2 : (initSt ⟨U, ids1⟩ cfg).byId.length =
        0 + (initSt ⟨U, ids1⟩ cfg).merchants.length := hbylen
    exact ⟨hpool, hby, by omega, List.Forall₂.nil, List.Forall₂.nil, hctr⟩
  have hml := @mainLoop_rel U ids1 ids2 hinj1 hinj2 cfg cfg.num_days.toNat 0
    [] [] rfl (initSt ⟨U, ids1⟩ cfg) (initSt ⟨U, ids2⟩ cfg) hst
  rw [main_eq_initSt ⟨U, ids1⟩ cfg, main_eq_initSt ⟨U, ids2⟩ cfg]
  rcases hm1 : mainLoop ⟨U, ids1⟩ cfg 0 cfg.num_days.toNat [] (initSt ⟨U, ids1⟩ cfg)
      with _ | ⟨days₁, s₁⟩ <;>
    rcases hm2 : mainLoop ⟨U, ids2⟩ cfg 0 cfg.num_days.toNat [] (initSt ⟨U, ids2⟩ cfg)
        with _ | ⟨days₂, s₂⟩ <;>
      rw [hm1, hm2] at hml
  all_goals first
  | rfl
  | exact hml.elim
  | (simp only [optRel] at hml
     obtain ⟨hdays, hp', hb', hl', hca', hcp', hcc'⟩ := hml
     dsimp only
     simp only [scrubRun, Option.map_some']
     rw [hdays, poolRel_scrub hp', byRel_scrub hb', carryRel_scrub hca',
       carryRel_scrub hcp'])

/-- A second injective uuid stream (the n-th id is the string of n
letters b), disjoint-looking from `envInj.IDS`. -/
def idsB : ℕ → String := fun n => String.mk (List.replicate n 'b')

theorem idsB_inj : ∀ a b, idsB a = idsB b → a = b := by
  intro a b h
  have h2 : List.replicate a 'b' = List.replicate b 'b' := congrArg String.data h
  simpa using congrArg List.length h2

/-- Witness for the amended C1: the constant-zero raw-draw stream under
two concrete injective uuid streams at the one-day configuration. -/
theorem C1_amended_scrub_witness :
    (∀ a b, envInj.IDS a = envInj.IDS b → a = b) ∧
    (∀ a b, idsB a = idsB b → a = b) ∧
    scrubRun (main ⟨envInj.U, envInj.IDS⟩ cfgFull) =
      scrubRun (main ⟨envInj.U, idsB⟩ cfgFull) :=
  ⟨envInj_IDS_inj, idsB_inj,
    C1_amended_scrub envInj.U cfgFull envInj.IDS idsB envInj_IDS_inj idsB_inj⟩

end GenInbox
